import Mathlib

/-!
# Verification of the pysmi `MibCompiler.compile` orchestrator

This file gives a shallow embedding of `MibCompiler.compile` from
`pysmi/compiler.py` and proves properties of the compilation pipeline:
the worklist-based resolve-and-parse phase, the freshness checks, code
generation, the borrow fallback, the global abort check, and the store
phase.

Python dictionaries are modelled as association lists with insertion-order
semantics (`dlookup` / `dinsert` / `ddel`); the collaborator objects
(sources, searchers, borrowers, the code generator and the writer) are
modelled as functions returning explicit result values, mirroring the
exception classes `PySmiReaderFileNotFoundError`, `PySmiFileNotFoundError`,
`PySmiFileNotModifiedError` and the generic `PySmiError` that
`compile` distinguishes.  Consultations of sources, processed worklist
pops and writer invocations are recorded in trace fields of the state so
that claims about "which collaborator was invoked" become statements
about computed values.
-/

namespace PySmi

/-! ## Association-list dictionaries (Python `dict` with insertion order) -/

/-- Lookup in an association list: first binding of the key wins. -/
def dlookup {α : Type} (d : List (String × α)) (k : String) : Option α :=
  match d with
  | [] => none
  | (k', v) :: rest => if k' = k then some v else dlookup rest k

/-- Python `d[k] = v`: replace the binding in place if the key is present,
otherwise append a new binding at the end (insertion order). -/
def dinsert {α : Type} (d : List (String × α)) (k : String) (v : α) :
    List (String × α) :=
  match d with
  | [] => [(k, v)]
  | (k', v') :: rest =>
      if k' = k then (k', v) :: rest else (k', v') :: dinsert rest k v

/-- Python `del d[k]`: remove the first binding of the key (the only one,
since dictionaries have unique keys). -/
def ddel {α : Type} (d : List (String × α)) (k : String) : List (String × α) :=
  match d with
  | [] => []
  | (k', v') :: rest => if k' = k then rest else (k', v') :: ddel rest k

/-- The keys of an association list. -/
def dkeys {α : Type} (d : List (String × α)) : List String :=
  d.map Prod.fst

/-! ## Data model -/

/-- Modelled from the spec: `ModuleMetadata` as produced by a Source or a
Borrower (`pysmi/mibinfo.py` is not part of the sources here; the spec
describes it as an immutable record with the canonical/alias name, the
origin path, the file name and the last-modified timestamp).  These are
the fields of the `fileInfo` records that `compile` consumes. -/
structure FileInfo where
  name : String
  path : String
  file : String
  mtime : Int
deriving DecidableEq, Repr

/-- Modelled from the spec: the part of a parsed module that `compile`
reads from the `mibInfo` record returned by the symbol-table builder —
the canonical declared module name and the list of imported module
names.  It stands for the pair (`mibInfo`, `mibTree`) held in
`parsedMibs`. -/
structure ParsedModule where
  name : String
  imported : List String
deriving DecidableEq, Repr

/-- Modelled from the spec: the semantic facts attached by the code
generator (object identifier, identities, revision, enterprise and
compliance data) that `compile` copies onto a `compiled` status. -/
structure MibMeta where
  oid : Option String := none
  oids : List String := []
  identity : Option String := none
  revision : Option String := none
  enterprise : Option String := none
  compliance : Option String := none
deriving DecidableEq, Repr

/-- An error value of the `PySmiError` family as observed by `compile`:
either an error raised by a collaborator (carrying a message), or the
synthetic `PySmiError("MIB source {mibname} not found")` built by
`compile` itself when no source yields data. -/
inductive PyErr where
  | raised (msg : String)
  | noSourceFound (mibname : String)
deriving DecidableEq, Repr

/-- The `MibStatus` values of `pysmi/compiler.py` together with the
attributes `setOptions` attaches to them. -/
inductive MibStatus where
  | compiled (path file aliasName : String) (meta : MibMeta)
  | untouched
  | failed (e : PyErr)
  | unprocessed
  | missing
  | borrowed (path file aliasName : String)
deriving DecidableEq, Repr

/-- Result of `source.getData(mibname)` combined with parsing and
symbol-table generation: `notFound` models `PySmiReaderFileNotFoundError`,
`raisedErr` any other `PySmiError` (from the reader, the parser or the
symbol-table builder, all caught by the same handler), and `fetched`
a successful fetch whose text parses into one or more modules. -/
inductive FetchResult where
  | notFound
  | raisedErr (e : PyErr)
  | fetched (fi : FileInfo) (mods : List ParsedModule)
deriving DecidableEq

/-- Result of `searcher.fileExists(mibname, mtime, rebuild=...)`:
`notFound` models `PySmiFileNotFoundError` (try the next searcher),
`notModified` models `PySmiFileNotModifiedError` (a fresh compiled MIB
exists), `raisedErr` any other `PySmiError` (logged, next searcher). -/
inductive SearchResult where
  | notFound
  | notModified
  | raisedErr (e : PyErr)
deriving DecidableEq

/-- The artifact stored in `builtMibs`: either the code generator's output
(with its semantic metadata), or data borrowed from a borrower, for which
the stub `MibInfo(name=mibname, imported=[])` carries no metadata. -/
inductive BuiltData where
  | generated (meta : MibMeta) (data : String)
  | borrowedData (data : String)
deriving DecidableEq, Repr

/-- The raw data carried by a `builtMibs` entry. -/
def BuiltData.data : BuiltData → String
  | .generated _ d => d
  | .borrowedData d => d

/-- The collaborators of a `MibCompiler` instance: `_sources`,
`_searchers`, `_borrowers`, `_codegen.genCode` and `_writer.putData`,
each modelled as a function.  A source maps a module name to a fetch
result; a searcher consumes the name, the source mtime and the `rebuild`
option; a borrower maps a name and the `genTexts` option to an optional
`(fileInfo, fileData)` pair (`none` models a raised `PySmiError`); the
code generator maps a parsed module to its metadata and generated text or
an error; the writer maps a name, the data and the `dryRun` option to
`none` on success or `some e` when it raises. -/
structure Config where
  sources : List (String → FetchResult)
  searchers : List (String → Int → Bool → SearchResult)
  borrowers : List (String → Bool → Option (FileInfo × String))
  codegen : ParsedModule → Except PyErr (MibMeta × String)
  writer : String → String → Bool → Option PyErr

/-- The keyword options of `compile` that affect control flow. -/
structure CompileOptions where
  ignoreErrors : Bool := false
  rebuild : Bool := false
  noDeps : Bool := false
  genTexts : Bool := false
  writeMibs : Bool := true
  dryRun : Bool := false
deriving DecidableEq, Repr

/-- The mutable state of one `compile` invocation: the local variables
`processed`, `parsedMibs`, `failedMibs`, `borrowedMibs`, `builtMibs`,
`mibsToParse` and `canonicalMibNames`, plus three traces: `popLog`
records each worklist pop that was actually processed (not skipped by
the memoization check), `srcConsults` records every `source.getData`
invocation, and `writerCalls` records every `writer.putData`
invocation. -/
structure St where
  mibsToParse : List String
  processed : List (String × MibStatus)
  parsedMibs : List (String × (FileInfo × ParsedModule))
  failedMibs : List (String × PyErr)
  borrowedMibs : List (String × (FileInfo × String))
  builtMibs : List (String × (FileInfo × BuiltData))
  canonicalMibNames : List (String × List String)
  popLog : List String
  srcConsults : List String
  writerCalls : List String
deriving DecidableEq, Repr

/-- The initial state of a `compile` invocation: all dictionaries empty,
the worklist seeded with the requested names. -/
def initSt (mibnames : List String) : St :=
  { mibsToParse := mibnames
    processed := []
    parsedMibs := []
    failedMibs := []
    borrowedMibs := []
    builtMibs := []
    canonicalMibNames := []
    popLog := []
    srcConsults := []
    writerCalls := [] }

/-! ## Phase A: resolve and parse (the worklist loop) -/

/-- The per-module body of `for mibTree in self._parser.parse(fileData)`:
record the parsed module under its canonical name, clear a stale failure
for the requested name, enqueue the imports, and track the alias when the
file-level name was one of the caller's requested names. -/
def recordParsed (mibnames : List String) (mibname : String) (fi : FileInfo)
    (st : St) (m : ParsedModule) : St :=
  let st' : St :=
    { st with
      parsedMibs := dinsert st.parsedMibs m.name (fi, m)
      failedMibs := ddel st.failedMibs mibname
      mibsToParse := st.mibsToParse ++ m.imported }
  if fi.name ∈ mibnames then
    { st' with
      canonicalMibNames :=
        dinsert st'.canonicalMibNames m.name
          ((dlookup st'.canonicalMibNames m.name).getD [] ++ [fi.name]) }
  else st'

/-- The `for source in self._sources` loop of Phase A for one popped
name, including the `else` clause that runs when no source breaks the
loop: a `notFound` result moves on to the next source; any other raised
error records the failure and the `failed` status *and moves on to the
next source as well* (the handler contains no `break`); a successful
fetch records every parsed module and breaks.  When the loop completes
without a break, a synthetic "no source found" failure is recorded unless
one already exists, and the status is set to `missing` unless one is
already present. -/
def trySources (mibnames : List String) (mibname : String) :
    List (String → FetchResult) → St → St
  | [], st =>
      let st' : St :=
        if (dlookup st.failedMibs mibname).isSome then st
        else { st with
               failedMibs :=
                 dinsert st.failedMibs mibname (PyErr.noSourceFound mibname) }
      if (dlookup st'.processed mibname).isSome then st'
      else { st' with
             processed := dinsert st'.processed mibname MibStatus.missing }
  | src :: rest, st =>
      let st' : St := { st with srcConsults := st.srcConsults ++ [mibname] }
      match src mibname with
      | FetchResult.notFound => trySources mibnames mibname rest st'
      | FetchResult.raisedErr e =>
          trySources mibnames mibname rest
            { st' with
              failedMibs := dinsert st'.failedMibs mibname e
              processed := dinsert st'.processed mibname (MibStatus.failed e) }
      | FetchResult.fetched fi mods =>
          mods.foldl (recordParsed mibnames mibname fi) st'

/-- The worklist loop of Phase A (`while mibsToParse:`), with explicit
fuel since a pathological configuration can loop forever.  A popped name
already present in `parsedMibs` or in `failedMibs` is skipped without
consulting any source; otherwise the pop is logged and the sources are
tried in registration order. -/
def phaseA (cfg : Config) (mibnames : List String) :
    Nat → St → Option St
  | fuel, st =>
      match st.mibsToParse with
      | [] => some st
      | mibname :: rest =>
          match fuel with
          | 0 => none
          | fuel' + 1 =>
              let st' : St := { st with mibsToParse := rest }
              if (dlookup st'.parsedMibs mibname).isSome then
                phaseA cfg mibnames fuel' st'
              else if (dlookup st'.failedMibs mibname).isSome then
                phaseA cfg mibnames fuel' st'
              else
                phaseA cfg mibnames fuel'
                  (trySources mibnames mibname cfg.sources
                    { st' with popLog := st'.popLog ++ [mibname] })

/-! ## Phase B: freshness check of parsed MIBs -/

/-- The `for searcher in self._searchers` loop: `fileExists` raising
`PySmiFileNotFoundError` or a generic `PySmiError` means "continue", and
`PySmiFileNotModifiedError` means a fresh compiled MIB exists (the loop
breaks, but no state other than the break is affected, so the loop's
outcome is whether any searcher reports `notModified`). -/
def foundFresh (searchers : List (String → Int → Bool → SearchResult))
    (mibname : String) (mtime : Int) (rebuild : Bool) : Bool :=
  searchers.any fun s =>
    match s mibname mtime rebuild with
    | SearchResult.notModified => true
    | _ => false

/-- One iteration of the `for mibname in tuple(parsedMibs)` loop of the
"see what MIBs need generating" phase: a fresh compiled MIB marks the
module `untouched` and drops it from `parsedMibs`; otherwise, under
`noDeps`, a module that is not among the canonical names of requested
modules is likewise dropped and marked `untouched`. -/
def phaseBstep (cfg : Config) (opts : CompileOptions) (st : St)
    (e : String × (FileInfo × ParsedModule)) : St :=
  if foundFresh cfg.searchers e.1 e.2.1.mtime opts.rebuild then
    { st with
      parsedMibs := ddel st.parsedMibs e.1
      processed := dinsert st.processed e.1 MibStatus.untouched }
  else if opts.noDeps && !(dlookup st.canonicalMibNames e.1).isSome then
    { st with
      parsedMibs := ddel st.parsedMibs e.1
      processed := dinsert st.processed e.1 MibStatus.untouched }
  else st

/-- The "see what MIBs need generating" phase, iterating over a snapshot
of `parsedMibs`. -/
def phaseB (cfg : Config) (opts : CompileOptions) (st : St) : St :=
  st.parsedMibs.foldl (phaseBstep cfg opts) st

/-! ## Phase C: code generation -/

/-- One iteration of the "generate code for parsed MIBs" loop: success
moves the module into `builtMibs`; a raised `PySmiError` records a
`failed` status and a `failedMibs` entry.  Either way the module leaves
`parsedMibs`. -/
def phaseCstep (cfg : Config) (st : St)
    (e : String × (FileInfo × ParsedModule)) : St :=
  match cfg.codegen e.2.2 with
  | Except.ok md =>
      { st with
        builtMibs := dinsert st.builtMibs e.1 (e.2.1, BuiltData.generated md.1 md.2)
        parsedMibs := ddel st.parsedMibs e.1 }
  | Except.error er =>
      { st with
        processed := dinsert st.processed e.1 (MibStatus.failed er)
        failedMibs := dinsert st.failedMibs e.1 er
        parsedMibs := ddel st.parsedMibs e.1 }

/-- The code-generation phase, iterating over a snapshot of
`parsedMibs`. -/
def phaseC (cfg : Config) (st : St) : St :=
  st.parsedMibs.foldl (phaseCstep cfg) st

/-! ## Phase D: borrow fallback for failed MIBs -/

/-- The `for borrower in self._borrowers` loop for one failed name: the
first borrower whose `getData` does not raise moves the name from
`failedMibs` to `borrowedMibs` and breaks; a raised error tries the next
borrower. -/
def tryBorrowers (genTexts : Bool) (mibname : String) :
    List (String → Bool → Option (FileInfo × String)) → St → St
  | [], st => st
  | b :: rest, st =>
      match b mibname genTexts with
      | some fd =>
          { st with
            borrowedMibs := dinsert st.borrowedMibs mibname fd
            failedMibs := ddel st.failedMibs mibname }
      | none => tryBorrowers genTexts mibname rest st

/-- One iteration of the "try to borrow pre-compiled MIBs" loop: under
`noDeps` a name that is not among the canonical names of requested
modules is excluded from borrowing. -/
def phaseDstep (cfg : Config) (opts : CompileOptions) (st : St)
    (e : String × PyErr) : St :=
  if opts.noDeps && !(dlookup st.canonicalMibNames e.1).isSome then st
  else tryBorrowers opts.genTexts e.1 cfg.borrowers st

/-- The borrow phase, iterating over a snapshot of `failedMibs`. -/
def phaseD (cfg : Config) (opts : CompileOptions) (st : St) : St :=
  st.failedMibs.foldl (phaseDstep cfg opts) st

/-! ## Phase E: freshness check of borrowed MIBs -/

/-- One iteration of the "see what MIBs need borrowing" loop: a fresh
compiled MIB marks the module `untouched`; otherwise the `noDeps`
exclusion marks it `untouched` without building, and in the remaining
case the borrowed data is promoted into `builtMibs` with a `borrowed`
status carrying the provenance (path, file, alias).  In every branch the
name leaves `borrowedMibs`. -/
def phaseEstep (cfg : Config) (opts : CompileOptions) (st : St)
    (e : String × (FileInfo × String)) : St :=
  if foundFresh cfg.searchers e.1 e.2.1.mtime opts.rebuild then
    { st with
      borrowedMibs := ddel st.borrowedMibs e.1
      processed := dinsert st.processed e.1 MibStatus.untouched }
  else
    let st' : St :=
      if opts.noDeps && !(dlookup st.canonicalMibNames e.1).isSome then
        { st with processed := dinsert st.processed e.1 MibStatus.untouched }
      else
        { st with
          builtMibs :=
            dinsert st.builtMibs e.1 (e.2.1, BuiltData.borrowedData e.2.2)
          processed :=
            dinsert st.processed e.1
              (MibStatus.borrowed e.2.1.path e.2.1.file e.2.1.name) }
    { st' with borrowedMibs := ddel st'.borrowedMibs e.1 }

/-- The borrowed-freshness phase, iterating over a snapshot of
`borrowedMibs`. -/
def phaseE (cfg : Config) (opts : CompileOptions) (st : St) : St :=
  st.borrowedMibs.foldl (phaseEstep cfg opts) st

/-- Phases B through E chained, as `compile` runs them between the
worklist loop and the final decision point. -/
def pipelineBCDE (cfg : Config) (opts : CompileOptions) (st : St) : St :=
  phaseE cfg opts (phaseD cfg opts (phaseC cfg (phaseB cfg opts st)))

/-! ## Final decision point and the store phase -/

/-- `for mibname in builtMibs: processed[mibname] = statusUnprocessed`. -/
def markUnprocessed (built : List (String × (FileInfo × BuiltData)))
    (processed : List (String × MibStatus)) : List (String × MibStatus) :=
  built.foldl (fun p e => dinsert p e.1 MibStatus.unprocessed) processed

/-- The success path of one store iteration: drop the module from
`builtMibs` and, when the name has no status yet, record a `compiled`
status with the provenance and semantic metadata (a borrowed artifact
carries the metadata of the stub `MibInfo(name=mibname, imported=[])`,
i.e. none). -/
def storeSuccess (mibname : String) (fi : FileInfo) (bd : BuiltData)
    (st : St) : St :=
  if (dlookup st.processed mibname).isSome then
    { st with builtMibs := ddel st.builtMibs mibname }
  else
    match bd with
    | BuiltData.generated meta _ =>
        { st with
          builtMibs := ddel st.builtMibs mibname
          processed :=
            dinsert st.processed mibname
              (MibStatus.compiled fi.path fi.file fi.name meta) }
    | BuiltData.borrowedData _ =>
        { st with
          builtMibs := ddel st.builtMibs mibname
          processed :=
            dinsert st.processed mibname
              (MibStatus.compiled fi.path fi.file fi.name {}) }

/-- One iteration of the "store compiled MIBs" loop: when `writeMibs` is
set (the default), `writer.putData` is invoked; a raised `PySmiError`
demotes the module to `failed` and records the failure, while success
(or a skipped write) takes the success path. -/
def storeStep (cfg : Config) (opts : CompileOptions) (st : St)
    (e : String × (FileInfo × BuiltData)) : St :=
  if opts.writeMibs then
    let st' : St := { st with writerCalls := st.writerCalls ++ [e.1] }
    match cfg.writer e.1 e.2.2.data opts.dryRun with
    | some er =>
        { st' with
          processed := dinsert st'.processed e.1 (MibStatus.failed er)
          failedMibs := dinsert st'.failedMibs e.1 er
          builtMibs := ddel st'.builtMibs e.1 }
    | none => storeSuccess e.1 e.2.1 e.2.2 st'
  else storeSuccess e.1 e.2.1 e.2.2 st

/-- The store phase, iterating over a snapshot of `builtMibs`. -/
def phaseStore (cfg : Config) (opts : CompileOptions) (st : St) : St :=
  st.builtMibs.foldl (storeStep cfg opts) st

/-- The final decision point and everything after it: when `failedMibs`
is non-empty and `ignoreErrors` was not requested, every built module is
marked `unprocessed` and the mapping is returned immediately; otherwise
the store phase runs. -/
def finalize (cfg : Config) (opts : CompileOptions) (st : St) : St :=
  if !st.failedMibs.isEmpty && !opts.ignoreErrors then
    { st with processed := markUnprocessed st.builtMibs st.processed }
  else phaseStore cfg opts st

/-- The whole of `MibCompiler.compile`: Phase A (with fuel), phases B–E,
the final decision point and the store phase.  `none` models a run whose
worklist loop exceeds the fuel. -/
def compileSt (cfg : Config) (opts : CompileOptions)
    (mibnames : List String) (fuel : Nat) : Option St :=
  (phaseA cfg mibnames fuel (initSt mibnames)).map fun st =>
    finalize cfg opts (pipelineBCDE cfg opts st)

/-- The outcome mapping `compile` returns: the `processed` dictionary. -/
def compileRun (cfg : Config) (opts : CompileOptions)
    (mibnames : List String) (fuel : Nat) :
    Option (List (String × MibStatus)) :=
  (compileSt cfg opts mibnames fuel).map St.processed

/-! ## Lemmas about the dictionary operations -/

theorem dlookup_dinsert_self {α : Type} (d : List (String × α)) (k : String)
    (v : α) : dlookup (dinsert d k v) k = some v := by
  induction d with
  | nil => simp [dinsert, dlookup]
  | cons e rest ih =>
      by_cases h : e.1 = k <;> simp [dinsert, dlookup, h, ih]

theorem dlookup_dinsert_ne {α : Type} (d : List (String × α)) (k k' : String)
    (v : α) (h : k' ≠ k) : dlookup (dinsert d k v) k' = dlookup d k' := by
  have hk : k ≠ k' := Ne.symm h
  induction d with
  | nil => simp [dinsert, dlookup, hk]
  | cons e rest ih =>
      by_cases h1 : e.1 = k
      · subst h1
        simp [dinsert, dlookup, hk]
      · simp [dinsert, dlookup, h1, ih]

theorem dlookup_ddel_ne {α : Type} (d : List (String × α)) (k k' : String)
    (h : k' ≠ k) : dlookup (ddel d k) k' = dlookup d k' := by
  have hk : k ≠ k' := Ne.symm h
  induction d with
  | nil => simp [ddel]
  | cons e rest ih =>
      by_cases h1 : e.1 = k
      · subst h1
        simp [ddel, dlookup, hk]
      · simp [ddel, dlookup, h1, ih]

theorem dlookup_isSome_iff_mem_dkeys {α : Type} (d : List (String × α))
    (k : String) : (dlookup d k).isSome = true ↔ k ∈ dkeys d := by
  induction d with
  | nil => simp [dlookup, dkeys]
  | cons e rest ih =>
      by_cases h : e.1 = k
      · subst h
        simp [dlookup, dkeys]
      · simp [dlookup, dkeys, h, ih, Ne.symm h]

theorem dlookup_eq_none_of_not_mem {α : Type} {d : List (String × α)}
    {k : String} (h : k ∉ dkeys d) : dlookup d k = none := by
  rcases h' : dlookup d k with _ | v
  · rfl
  · exact absurd ((dlookup_isSome_iff_mem_dkeys d k).1 (by simp [h'])) h

theorem mem_of_dlookup_eq_some {α : Type} {d : List (String × α)}
    {k : String} {v : α} (h : dlookup d k = some v) : (k, v) ∈ d := by
  induction d with
  | nil => simp [dlookup] at h
  | cons e rest ih =>
      by_cases h1 : e.1 = k
      · subst h1
        simp [dlookup] at h
        subst h
        exact List.mem_cons_self _ _
      · simp [dlookup, h1] at h
        exact List.mem_cons_of_mem _ (ih h)

@[simp]
theorem dkeys_nil {α : Type} : dkeys ([] : List (String × α)) = [] := rfl

@[simp]
theorem dkeys_cons {α : Type} (e : String × α) (rest : List (String × α)) :
    dkeys (e :: rest) = e.1 :: dkeys rest := rfl

theorem dkeys_ddel_sublist {α : Type} (d : List (String × α)) (k : String) :
    (dkeys (ddel d k)).Sublist (dkeys d) := by
  induction d with
  | nil => simp [ddel]
  | cons e rest ih =>
      by_cases h : e.1 = k
      · simp only [ddel, if_pos h, dkeys_cons]
        exact List.Sublist.cons _ (List.Sublist.refl _)
      · simp only [ddel, if_neg h, dkeys_cons]
        exact List.Sublist.cons₂ _ ih

theorem mem_dkeys_dinsert_iff {α : Type} (d : List (String × α))
    (x k : String) (v : α) :
    x ∈ dkeys (dinsert d k v) ↔ x ∈ dkeys d ∨ x = k := by
  induction d with
  | nil => simp [dinsert]
  | cons e rest ih =>
      by_cases h : e.1 = k
      · subst h
        simp only [dinsert, if_pos rfl, dkeys_cons]
        constructor
        · exact fun hh => Or.inl hh
        · rintro (hh | hh)
          · exact hh
          · subst hh
            simp
      · simp only [dinsert, if_neg h, dkeys_cons, List.mem_cons, ih]
        tauto

theorem nodup_dkeys_dinsert {α : Type} {d : List (String × α)} (k : String)
    (v : α) (h : (dkeys d).Nodup) : (dkeys (dinsert d k v)).Nodup := by
  induction d with
  | nil => simp [dinsert]
  | cons e rest ih =>
      rw [dkeys_cons, List.nodup_cons] at h
      by_cases he : e.1 = k
      · subst he
        have hins : dinsert (e :: rest) e.1 v = (e.1, v) :: rest := by
          simp [dinsert]
        rw [hins, dkeys_cons, List.nodup_cons]
        exact h
      · simp only [dinsert, if_neg he, dkeys_cons, List.nodup_cons]
        refine ⟨fun hmem => ?_, ih h.2⟩
        rcases (mem_dkeys_dinsert_iff rest e.1 k v).1 hmem with hx | hx
        · exact h.1 hx
        · exact he hx

theorem nodup_dkeys_ddel {α : Type} {d : List (String × α)} (k : String)
    (h : (dkeys d).Nodup) : (dkeys (ddel d k)).Nodup :=
  (dkeys_ddel_sublist d k).nodup h

theorem dlookup_ddel_self {α : Type} {d : List (String × α)} (k : String)
    (h : (dkeys d).Nodup) : dlookup (ddel d k) k = none := by
  induction d with
  | nil => simp [ddel, dlookup]
  | cons e rest ih =>
      rw [dkeys_cons, List.nodup_cons] at h
      by_cases h1 : e.1 = k
      · subst h1
        simpa [ddel] using dlookup_eq_none_of_not_mem h.1
      · simp only [ddel, if_neg h1, dlookup]
        exact ih h.2

theorem ddel_dinsert_of_not_mem {α : Type} {d : List (String × α)}
    {k : String} (v : α) (h : k ∉ dkeys d) : ddel (dinsert d k v) k = d := by
  induction d with
  | nil => simp [dinsert, ddel]
  | cons e rest ih =>
      rw [dkeys_cons, List.mem_cons] at h
      push_neg at h
      have he : e.1 ≠ k := fun hh => h.1 hh.symm
      simp only [dinsert, if_neg he, ddel, if_neg he]
      rw [ih h.2]

theorem dlookup_eq_some_of_mem_nodup {α : Type} {d : List (String × α)}
    {k : String} {v : α} (hmem : (k, v) ∈ d) (h : (dkeys d).Nodup) :
    dlookup d k = some v := by
  induction d with
  | nil => simp at hmem
  | cons e rest ih =>
      rw [dkeys_cons, List.nodup_cons] at h
      rcases List.mem_cons.1 hmem with h1 | h1
      · subst h1
        simp [dlookup]
      · have hk : e.1 ≠ k := by
          intro hek
          apply h.1
          rw [hek]
          exact List.mem_map_of_mem Prod.fst h1
        simp only [dlookup, if_neg hk]
        exact ih h1 h.2

theorem dlookup_isSome_dinsert_mono {α : Type} {d : List (String × α)}
    {k : String} (k' : String) (v : α)
    (h : (dlookup d k).isSome = true) :
    (dlookup (dinsert d k' v) k).isSome = true := by
  by_cases he : k = k'
  · subst he
    simp [dlookup_dinsert_self]
  · rwa [dlookup_dinsert_ne _ _ _ _ he]

theorem dlookup_none_ddel {α : Type} {d : List (String × α)} {k : String}
    (k' : String) (h : dlookup d k = none) : dlookup (ddel d k') k = none := by
  apply dlookup_eq_none_of_not_mem
  intro hmem
  have hk : k ∈ dkeys d := (dkeys_ddel_sublist d k').subset hmem
  have : (dlookup d k).isSome = true := (dlookup_isSome_iff_mem_dkeys d k).2 hk
  rw [h] at this
  simp at this

/-! ## Generic preservation lemmas for the phase folds -/

/-- A fold preserves any observation each step preserves. -/
theorem foldl_preserves {β γ : Type} (f : St → γ) (step : St → β → St)
    (h : ∀ st e, f (step st e) = f st) :
    ∀ (l : List β) (st : St), f (l.foldl step st) = f st := by
  intro l
  induction l with
  | nil => intro st; rfl
  | cons e rest ih =>
      intro st
      rw [List.foldl_cons, ih, h]

/-- A fold preserves any observation each of its steps preserves. -/
theorem foldl_preserves_of_mem {β γ : Type} (f : St → γ) (step : St → β → St)
    (l : List β) (h : ∀ st e, e ∈ l → f (step st e) = f st) :
    ∀ st : St, f (l.foldl step st) = f st := by
  induction l with
  | nil => intro st; rfl
  | cons e rest ih =>
      intro st
      rw [List.foldl_cons, ih (fun st' e' he' => h st' e' (List.mem_cons_of_mem _ he')),
        h st e (List.mem_cons_self _ _)]

/-! ## Field-preservation lemmas for the individual steps -/

theorem phaseBstep_failedMibs (cfg : Config) (opts : CompileOptions) (st : St)
    (e : String × (FileInfo × ParsedModule)) :
    (phaseBstep cfg opts st e).failedMibs = st.failedMibs := by
  unfold phaseBstep
  split
  · rfl
  · split <;> rfl

theorem phaseBstep_builtMibs (cfg : Config) (opts : CompileOptions) (st : St)
    (e : String × (FileInfo × ParsedModule)) :
    (phaseBstep cfg opts st e).builtMibs = st.builtMibs := by
  unfold phaseBstep
  split
  · rfl
  · split <;> rfl

theorem phaseBstep_borrowedMibs (cfg : Config) (opts : CompileOptions) (st : St)
    (e : String × (FileInfo × ParsedModule)) :
    (phaseBstep cfg opts st e).borrowedMibs = st.borrowedMibs := by
  unfold phaseBstep
  split
  · rfl
  · split <;> rfl

theorem phaseBstep_canonical (cfg : Config) (opts : CompileOptions) (st : St)
    (e : String × (FileInfo × ParsedModule)) :
    (phaseBstep cfg opts st e).canonicalMibNames = st.canonicalMibNames := by
  unfold phaseBstep
  split
  · rfl
  · split <;> rfl

theorem phaseBstep_writerCalls (cfg : Config) (opts : CompileOptions) (st : St)
    (e : String × (FileInfo × ParsedModule)) :
    (phaseBstep cfg opts st e).writerCalls = st.writerCalls := by
  unfold phaseBstep
  split
  · rfl
  · split <;> rfl

theorem phaseCstep_borrowedMibs (cfg : Config) (st : St)
    (e : String × (FileInfo × ParsedModule)) :
    (phaseCstep cfg st e).borrowedMibs = st.borrowedMibs := by
  unfold phaseCstep
  split <;> rfl

theorem phaseCstep_canonical (cfg : Config) (st : St)
    (e : String × (FileInfo × ParsedModule)) :
    (phaseCstep cfg st e).canonicalMibNames = st.canonicalMibNames := by
  unfold phaseCstep
  split <;> rfl

theorem phaseCstep_writerCalls (cfg : Config) (st : St)
    (e : String × (FileInfo × ParsedModule)) :
    (phaseCstep cfg st e).writerCalls = st.writerCalls := by
  unfold phaseCstep
  split <;> rfl

theorem tryBorrowers_parsedMibs (g : Bool) (n : String)
    (bs : List (String → Bool → Option (FileInfo × String))) (st : St) :
    (tryBorrowers g n bs st).parsedMibs = st.parsedMibs := by
  induction bs generalizing st with
  | nil => rfl
  | cons b rest ih =>
      unfold tryBorrowers
      split <;> simp [ih]

theorem tryBorrowers_processed (g : Bool) (n : String)
    (bs : List (String → Bool → Option (FileInfo × String))) (st : St) :
    (tryBorrowers g n bs st).processed = st.processed := by
  induction bs generalizing st with
  | nil => rfl
  | cons b rest ih =>
      unfold tryBorrowers
      split <;> simp [ih]

theorem tryBorrowers_builtMibs (g : Bool) (n : String)
    (bs : List (String → Bool → Option (FileInfo × String))) (st : St) :
    (tryBorrowers g n bs st).builtMibs = st.builtMibs := by
  induction bs generalizing st with
  | nil => rfl
  | cons b rest ih =>
      unfold tryBorrowers
      split <;> simp [ih]

theorem tryBorrowers_canonical (g : Bool) (n : String)
    (bs : List (String → Bool → Option (FileInfo × String))) (st : St) :
    (tryBorrowers g n bs st).canonicalMibNames = st.canonicalMibNames := by
  induction bs generalizing st with
  | nil => rfl
  | cons b rest ih =>
      unfold tryBorrowers
      split <;> simp [ih]

theorem tryBorrowers_writerCalls (g : Bool) (n : String)
    (bs : List (String → Bool → Option (FileInfo × String))) (st : St) :
    (tryBorrowers g n bs st).writerCalls = st.writerCalls := by
  induction bs generalizing st with
  | nil => rfl
  | cons b rest ih =>
      unfold tryBorrowers
      split <;> simp [ih]

theorem phaseDstep_parsedMibs (cfg : Config) (opts : CompileOptions) (st : St)
    (e : String × PyErr) :
    (phaseDstep cfg opts st e).parsedMibs = st.parsedMibs := by
  unfold phaseDstep
  split
  · rfl
  · exact tryBorrowers_parsedMibs _ _ _ _

theorem phaseDstep_processed (cfg : Config) (opts : CompileOptions) (st : St)
    (e : String × PyErr) :
    (phaseDstep cfg opts st e).processed = st.processed := by
  unfold phaseDstep
  split
  · rfl
  · exact tryBorrowers_processed _ _ _ _

theorem phaseDstep_builtMibs (cfg : Config) (opts : CompileOptions) (st : St)
    (e : String × PyErr) :
    (phaseDstep cfg opts st e).builtMibs = st.builtMibs := by
  unfold phaseDstep
  split
  · rfl
  · exact tryBorrowers_builtMibs _ _ _ _

theorem phaseDstep_canonical (cfg : Config) (opts : CompileOptions) (st : St)
    (e : String × PyErr) :
    (phaseDstep cfg opts st e).canonicalMibNames = st.canonicalMibNames := by
  unfold phaseDstep
  split
  · rfl
  · exact tryBorrowers_canonical _ _ _ _

theorem phaseDstep_writerCalls (cfg : Config) (opts : CompileOptions) (st : St)
    (e : String × PyErr) :
    (phaseDstep cfg opts st e).writerCalls = st.writerCalls := by
  unfold phaseDstep
  split
  · rfl
  · exact tryBorrowers_writerCalls _ _ _ _

theorem phaseEstep_parsedMibs (cfg : Config) (opts : CompileOptions) (st : St)
    (e : String × (FileInfo × String)) :
    (phaseEstep cfg opts st e).parsedMibs = st.parsedMibs := by
  unfold phaseEstep
  split
  · rfl
  · split <;> rfl

theorem phaseEstep_failedMibs (cfg : Config) (opts : CompileOptions) (st : St)
    (e : String × (FileInfo × String)) :
    (phaseEstep cfg opts st e).failedMibs = st.failedMibs := by
  unfold phaseEstep
  split
  · rfl
  · split <;> rfl

theorem phaseEstep_canonical (cfg : Config) (opts : CompileOptions) (st : St)
    (e : String × (FileInfo × String)) :
    (phaseEstep cfg opts st e).canonicalMibNames = st.canonicalMibNames := by
  unfold phaseEstep
  split
  · rfl
  · split <;> rfl

theorem phaseEstep_writerCalls (cfg : Config) (opts : CompileOptions) (st : St)
    (e : String × (FileInfo × String)) :
    (phaseEstep cfg opts st e).writerCalls = st.writerCalls := by
  unfold phaseEstep
  split
  · rfl
  · split <;> rfl

theorem storeSuccess_parsedMibs (n : String) (fi : FileInfo) (bd : BuiltData)
    (st : St) : (storeSuccess n fi bd st).parsedMibs = st.parsedMibs := by
  unfold storeSuccess
  split
  · rfl
  · split <;> rfl

theorem storeSuccess_borrowedMibs (n : String) (fi : FileInfo) (bd : BuiltData)
    (st : St) : (storeSuccess n fi bd st).borrowedMibs = st.borrowedMibs := by
  unfold storeSuccess
  split
  · rfl
  · split <;> rfl

theorem storeSuccess_failedMibs (n : String) (fi : FileInfo) (bd : BuiltData)
    (st : St) : (storeSuccess n fi bd st).failedMibs = st.failedMibs := by
  unfold storeSuccess
  split
  · rfl
  · split <;> rfl

theorem storeSuccess_writerCalls (n : String) (fi : FileInfo) (bd : BuiltData)
    (st : St) : (storeSuccess n fi bd st).writerCalls = st.writerCalls := by
  unfold storeSuccess
  split
  · rfl
  · split <;> rfl

theorem storeStep_parsedMibs (cfg : Config) (opts : CompileOptions) (st : St)
    (e : String × (FileInfo × BuiltData)) :
    (storeStep cfg opts st e).parsedMibs = st.parsedMibs := by
  unfold storeStep
  split
  · split
    · rfl
    · exact storeSuccess_parsedMibs _ _ _ _
  · exact storeSuccess_parsedMibs _ _ _ _

theorem storeStep_borrowedMibs (cfg : Config) (opts : CompileOptions) (st : St)
    (e : String × (FileInfo × BuiltData)) :
    (storeStep cfg opts st e).borrowedMibs = st.borrowedMibs := by
  unfold storeStep
  split
  · split
    · rfl
    · exact storeSuccess_borrowedMibs _ _ _ _
  · exact storeSuccess_borrowedMibs _ _ _ _

theorem recordParsed_writerCalls (mn : List String) (n : String)
    (fi : FileInfo) (st : St) (m : ParsedModule) :
    (recordParsed mn n fi st m).writerCalls = st.writerCalls := by
  simp only [recordParsed]
  split <;> rfl

theorem recordParsed_builtMibs (mn : List String) (n : String)
    (fi : FileInfo) (st : St) (m : ParsedModule) :
    (recordParsed mn n fi st m).builtMibs = st.builtMibs := by
  simp only [recordParsed]
  split <;> rfl

theorem recordParsed_borrowedMibs (mn : List String) (n : String)
    (fi : FileInfo) (st : St) (m : ParsedModule) :
    (recordParsed mn n fi st m).borrowedMibs = st.borrowedMibs := by
  simp only [recordParsed]
  split <;> rfl

theorem recordParsed_popLog (mn : List String) (n : String)
    (fi : FileInfo) (st : St) (m : ParsedModule) :
    (recordParsed mn n fi st m).popLog = st.popLog := by
  simp only [recordParsed]
  split <;> rfl

theorem trySources_writerCalls (mn : List String) (n : String)
    (srcs : List (String → FetchResult)) (st : St) :
    (trySources mn n srcs st).writerCalls = st.writerCalls := by
  induction srcs generalizing st with
  | nil =>
      simp only [trySources]
      split <;> split <;> rfl
  | cons src rest ih =>
      simp only [trySources]
      split
      · exact ih _
      · exact ih _
      · exact foldl_preserves St.writerCalls _
          (recordParsed_writerCalls mn n _) _ _

theorem trySources_builtMibs (mn : List String) (n : String)
    (srcs : List (String → FetchResult)) (st : St) :
    (trySources mn n srcs st).builtMibs = st.builtMibs := by
  induction srcs generalizing st with
  | nil =>
      simp only [trySources]
      split <;> split <;> rfl
  | cons src rest ih =>
      simp only [trySources]
      split
      · exact ih _
      · exact ih _
      · exact foldl_preserves St.builtMibs _
          (recordParsed_builtMibs mn n _) _ _

theorem trySources_borrowedMibs (mn : List String) (n : String)
    (srcs : List (String → FetchResult)) (st : St) :
    (trySources mn n srcs st).borrowedMibs = st.borrowedMibs := by
  induction srcs generalizing st with
  | nil =>
      simp only [trySources]
      split <;> split <;> rfl
  | cons src rest ih =>
      simp only [trySources]
      split
      · exact ih _
      · exact ih _
      · exact foldl_preserves St.borrowedMibs _
          (recordParsed_borrowedMibs mn n _) _ _

theorem phaseA_writerCalls (cfg : Config) (mn : List String) :
    ∀ (fuel : Nat) (st st' : St), phaseA cfg mn fuel st = some st' →
      st'.writerCalls = st.writerCalls := by
  intro fuel
  induction fuel with
  | zero =>
      intro st st' h
      unfold phaseA at h
      rcases hw : st.mibsToParse with _ | ⟨n, rest⟩ <;> rw [hw] at h
      · simp at h
        rw [h]
      · simp at h
  | succ fuel ih =>
      intro st st' h
      unfold phaseA at h
      rcases hw : st.mibsToParse with _ | ⟨n, rest⟩ <;> rw [hw] at h
      · simp at h
        rw [h]
      · simp only [] at h
        split at h
        · exact (ih _ _ h).trans rfl
        · split at h
          · exact (ih _ _ h).trans rfl
          · rw [ih _ _ h, trySources_writerCalls]

theorem phaseB_writerCalls (cfg : Config) (opts : CompileOptions) (st : St) :
    (phaseB cfg opts st).writerCalls = st.writerCalls :=
  foldl_preserves St.writerCalls _ (phaseBstep_writerCalls cfg opts) _ _

theorem phaseC_writerCalls (cfg : Config) (st : St) :
    (phaseC cfg st).writerCalls = st.writerCalls :=
  foldl_preserves St.writerCalls _ (phaseCstep_writerCalls cfg) _ _

theorem phaseD_writerCalls (cfg : Config) (opts : CompileOptions) (st : St) :
    (phaseD cfg opts st).writerCalls = st.writerCalls :=
  foldl_preserves St.writerCalls _ (phaseDstep_writerCalls cfg opts) _ _

theorem phaseE_writerCalls (cfg : Config) (opts : CompileOptions) (st : St) :
    (phaseE cfg opts st).writerCalls = st.writerCalls :=
  foldl_preserves St.writerCalls _ (phaseEstep_writerCalls cfg opts) _ _

theorem pipelineBCDE_writerCalls (cfg : Config) (opts : CompileOptions)
    (st : St) : (pipelineBCDE cfg opts st).writerCalls = st.writerCalls := by
  unfold pipelineBCDE
  rw [phaseE_writerCalls, phaseD_writerCalls, phaseC_writerCalls,
    phaseB_writerCalls]

/-! ## Lemmas about `markUnprocessed` -/

theorem dlookup_markUnprocessed_not_mem
    (built : List (String × (FileInfo × BuiltData)))
    (p : List (String × MibStatus)) (m : String) (h : m ∉ dkeys built) :
    dlookup (markUnprocessed built p) m = dlookup p m := by
  induction built generalizing p with
  | nil => rfl
  | cons e rest ih =>
      rw [dkeys_cons, List.mem_cons] at h
      push_neg at h
      unfold markUnprocessed
      rw [List.foldl_cons]
      have := ih (dinsert p e.1 MibStatus.unprocessed) h.2
      unfold markUnprocessed at this
      rw [this, dlookup_dinsert_ne _ _ _ _ h.1]

theorem dlookup_markUnprocessed_of_mem
    (built : List (String × (FileInfo × BuiltData)))
    (p : List (String × MibStatus)) (m : String) (h : m ∈ dkeys built) :
    dlookup (markUnprocessed built p) m = some MibStatus.unprocessed := by
  induction built generalizing p with
  | nil => simp at h
  | cons e rest ih =>
      unfold markUnprocessed
      rw [List.foldl_cons]
      by_cases hm : m ∈ dkeys rest
      · exact ih _ hm
      · have hme : m = e.1 := by
          rw [dkeys_cons, List.mem_cons] at h
          tauto
        rw [hme] at hm ⊢
        have hx := dlookup_markUnprocessed_not_mem rest
          (dinsert p e.1 MibStatus.unprocessed) e.1 hm
        unfold markUnprocessed at hx
        rw [hx, dlookup_dinsert_self]

/-! ## C1: the global abort check is all-or-nothing -/

/-- C1: for every invocation of `compile`, when at the final decision
point (after borrowing) the failed set is non-empty and `ignoreErrors`
was not requested, every module in the built set receives outcome
`unprocessed` in the returned mapping, the mapping is returned
immediately, and the writer's `putData` is never invoked during the
run (the writer-call trace of the final state is empty). -/
theorem compile_abort_is_all_or_nothing
    (cfg : Config) (opts : CompileOptions) (mibnames : List String)
    (fuel : Nat) (stA : St)
    (hA : phaseA cfg mibnames fuel (initSt mibnames) = some stA)
    (hfail : (pipelineBCDE cfg opts stA).failedMibs ≠ [])
    (hig : opts.ignoreErrors = false) :
    ∃ stF, compileSt cfg opts mibnames fuel = some stF ∧
      stF.writerCalls = [] ∧
      stF.processed =
        markUnprocessed (pipelineBCDE cfg opts stA).builtMibs
          (pipelineBCDE cfg opts stA).processed ∧
      ∀ m ∈ dkeys (pipelineBCDE cfg opts stA).builtMibs,
        dlookup stF.processed m = some MibStatus.unprocessed := by
  have hfin : finalize cfg opts (pipelineBCDE cfg opts stA) =
      { pipelineBCDE cfg opts stA with
        processed :=
          markUnprocessed (pipelineBCDE cfg opts stA).builtMibs
            (pipelineBCDE cfg opts stA).processed } := by
    unfold finalize
    rw [if_pos]
    rw [hig]
    simp [List.isEmpty_iff, hfail]
  refine ⟨finalize cfg opts (pipelineBCDE cfg opts stA), ?_, ?_, ?_, ?_⟩
  · simp [compileSt, hA]
  · rw [hfin]
    show (pipelineBCDE cfg opts stA).writerCalls = []
    rw [pipelineBCDE_writerCalls, phaseA_writerCalls cfg mibnames fuel _ _ hA]
    rfl
  · rw [hfin]
  · intro m hm
    rw [hfin]
    exact dlookup_markUnprocessed_of_mem _ _ m hm

/-! ## Per-key lookup preservation of the phase steps -/

theorem phaseBstep_dlookup_processed_ne (cfg : Config) (opts : CompileOptions)
    (st : St) (e : String × (FileInfo × ParsedModule)) (m : String)
    (h : e.1 ≠ m) :
    dlookup (phaseBstep cfg opts st e).processed m = dlookup st.processed m := by
  unfold phaseBstep
  split
  · simp [dlookup_dinsert_ne _ _ _ _ (Ne.symm h)]
  · split
    · simp [dlookup_dinsert_ne _ _ _ _ (Ne.symm h)]
    · rfl

theorem phaseBstep_dlookup_parsed_ne (cfg : Config) (opts : CompileOptions)
    (st : St) (e : String × (FileInfo × ParsedModule)) (m : String)
    (h : e.1 ≠ m) :
    dlookup (phaseBstep cfg opts st e).parsedMibs m =
      dlookup st.parsedMibs m := by
  unfold phaseBstep
  split
  · simp [dlookup_ddel_ne _ _ _ (Ne.symm h)]
  · split
    · simp [dlookup_ddel_ne _ _ _ (Ne.symm h)]
    · rfl

theorem phaseCstep_dlookup_processed_ne (cfg : Config) (st : St)
    (e : String × (FileInfo × ParsedModule)) (m : String) (h : e.1 ≠ m) :
    dlookup (phaseCstep cfg st e).processed m = dlookup st.processed m := by
  unfold phaseCstep
  split
  · rfl
  · simp [dlookup_dinsert_ne _ _ _ _ (Ne.symm h)]

theorem phaseCstep_dlookup_failed_ne (cfg : Config) (st : St)
    (e : String × (FileInfo × ParsedModule)) (m : String) (h : e.1 ≠ m) :
    dlookup (phaseCstep cfg st e).failedMibs m = dlookup st.failedMibs m := by
  unfold phaseCstep
  split
  · rfl
  · simp [dlookup_dinsert_ne _ _ _ _ (Ne.symm h)]

theorem phaseCstep_dlookup_parsed_ne (cfg : Config) (st : St)
    (e : String × (FileInfo × ParsedModule)) (m : String) (h : e.1 ≠ m) :
    dlookup (phaseCstep cfg st e).parsedMibs m = dlookup st.parsedMibs m := by
  unfold phaseCstep
  split <;> simp [dlookup_ddel_ne _ _ _ (Ne.symm h)]

theorem phaseCstep_dlookup_built_ne (cfg : Config) (st : St)
    (e : String × (FileInfo × ParsedModule)) (m : String) (h : e.1 ≠ m) :
    dlookup (phaseCstep cfg st e).builtMibs m = dlookup st.builtMibs m := by
  unfold phaseCstep
  split
  · simp [dlookup_dinsert_ne _ _ _ _ (Ne.symm h)]
  · rfl

theorem tryBorrowers_id (g : Bool) (n : String)
    (bs : List (String → Bool → Option (FileInfo × String))) (st : St)
    (h : ∀ b ∈ bs, b n g = none) : tryBorrowers g n bs st = st := by
  induction bs with
  | nil => rfl
  | cons b rest ih =>
      unfold tryBorrowers
      rw [h b (List.mem_cons_self _ _)]
      exact ih fun b' hb' => h b' (List.mem_cons_of_mem _ hb')

theorem tryBorrowers_dlookup_failed_ne (g : Bool) (n : String)
    (bs : List (String → Bool → Option (FileInfo × String))) (st : St)
    (m : String) (h : n ≠ m) :
    dlookup (tryBorrowers g n bs st).failedMibs m =
      dlookup st.failedMibs m := by
  induction bs generalizing st with
  | nil => rfl
  | cons b rest ih =>
      unfold tryBorrowers
      split
      · simp [dlookup_ddel_ne _ _ _ (Ne.symm h)]
      · exact ih _

theorem tryBorrowers_dlookup_borrowed_ne (g : Bool) (n : String)
    (bs : List (String → Bool → Option (FileInfo × String))) (st : St)
    (m : String) (h : n ≠ m) :
    dlookup (tryBorrowers g n bs st).borrowedMibs m =
      dlookup st.borrowedMibs m := by
  induction bs generalizing st with
  | nil => rfl
  | cons b rest ih =>
      unfold tryBorrowers
      split
      · simp [dlookup_dinsert_ne _ _ _ _ (Ne.symm h)]
      · exact ih _

theorem phaseEstep_dlookup_processed_ne (cfg : Config) (opts : CompileOptions)
    (st : St) (e : String × (FileInfo × String)) (m : String) (h : e.1 ≠ m) :
    dlookup (phaseEstep cfg opts st e).processed m = dlookup st.processed m := by
  unfold phaseEstep
  split
  · simp [dlookup_dinsert_ne _ _ _ _ (Ne.symm h)]
  · split <;> simp [dlookup_dinsert_ne _ _ _ _ (Ne.symm h)]

theorem phaseEstep_dlookup_built_ne (cfg : Config) (opts : CompileOptions)
    (st : St) (e : String × (FileInfo × String)) (m : String) (h : e.1 ≠ m) :
    dlookup (phaseEstep cfg opts st e).builtMibs m = dlookup st.builtMibs m := by
  unfold phaseEstep
  split
  · rfl
  · split
    · rfl
    · simp [dlookup_dinsert_ne _ _ _ _ (Ne.symm h)]

theorem storeSuccess_dlookup_processed_ne (n : String) (fi : FileInfo)
    (bd : BuiltData) (st : St) (m : String) (h : n ≠ m) :
    dlookup (storeSuccess n fi bd st).processed m = dlookup st.processed m := by
  unfold storeSuccess
  split
  · rfl
  · split <;> simp [dlookup_dinsert_ne _ _ _ _ (Ne.symm h)]

theorem storeStep_dlookup_processed_ne (cfg : Config) (opts : CompileOptions)
    (st : St) (e : String × (FileInfo × BuiltData)) (m : String)
    (h : e.1 ≠ m) :
    dlookup (storeStep cfg opts st e).processed m = dlookup st.processed m := by
  unfold storeStep
  split
  · split
    · simp [dlookup_dinsert_ne _ _ _ _ (Ne.symm h)]
    · rw [storeSuccess_dlookup_processed_ne _ _ _ _ _ h]
  · rw [storeSuccess_dlookup_processed_ne _ _ _ _ _ h]

/-! ## More frame lemmas for Phase A -/

theorem phaseA_builtMibs (cfg : Config) (mn : List String) :
    ∀ (fuel : Nat) (st st' : St), phaseA cfg mn fuel st = some st' →
      st'.builtMibs = st.builtMibs := by
  intro fuel
  induction fuel with
  | zero =>
      intro st st' h
      unfold phaseA at h
      rcases hw : st.mibsToParse with _ | ⟨n, rest⟩ <;> rw [hw] at h
      · simp at h
        rw [h]
      · simp at h
  | succ fuel ih =>
      intro st st' h
      unfold phaseA at h
      rcases hw : st.mibsToParse with _ | ⟨n, rest⟩ <;> rw [hw] at h
      · simp at h
        rw [h]
      · simp only [] at h
        split at h
        · exact (ih _ _ h).trans rfl
        · split at h
          · exact (ih _ _ h).trans rfl
          · rw [ih _ _ h, trySources_builtMibs]

theorem phaseA_borrowedMibs (cfg : Config) (mn : List String) :
    ∀ (fuel : Nat) (st st' : St), phaseA cfg mn fuel st = some st' →
      st'.borrowedMibs = st.borrowedMibs := by
  intro fuel
  induction fuel with
  | zero =>
      intro st st' h
      unfold phaseA at h
      rcases hw : st.mibsToParse with _ | ⟨n, rest⟩ <;> rw [hw] at h
      · simp at h
        rw [h]
      · simp at h
  | succ fuel ih =>
      intro st st' h
      unfold phaseA at h
      rcases hw : st.mibsToParse with _ | ⟨n, rest⟩ <;> rw [hw] at h
      · simp at h
        rw [h]
      · simp only [] at h
        split at h
        · exact (ih _ _ h).trans rfl
        · split at h
          · exact (ih _ _ h).trans rfl
          · rw [ih _ _ h, trySources_borrowedMibs]

/-! ## Phase A invariants for a module no source can provide (C5) -/

/-- No source of the list ever parses a module whose canonical declared
name is `m` (rules out the canonical-name collision where `m` enters
`parsedMibs` through a fetch of a different name). -/
def avoidsModule (srcs : List (String → FetchResult)) (m : String) : Prop :=
  ∀ src ∈ srcs, ∀ n fi mods, src n = FetchResult.fetched fi mods →
    m ∉ mods.map ParsedModule.name

/-- The state of name `m` after its pop found no source: not parsed,
recorded in `failedMibs`, and reported `missing`. -/
def missingLocked (st : St) (m : String) : Prop :=
  dlookup st.parsedMibs m = none ∧
    (dlookup st.failedMibs m).isSome = true ∧
    dlookup st.processed m = some MibStatus.missing

/-- The state of a name the worklist loop has not yet touched. -/
def untouchedYet (st : St) (m : String) : Prop :=
  dlookup st.parsedMibs m = none ∧
    dlookup st.failedMibs m = none ∧
    dlookup st.processed m = none

theorem trySources_notFound_everywhere (mn : List String) (m : String)
    (srcs : List (String → FetchResult)) (st : St)
    (hnf : ∀ src ∈ srcs, src m = FetchResult.notFound)
    (hu : untouchedYet st m) :
    missingLocked (trySources mn m srcs st) m := by
  induction srcs generalizing st with
  | nil =>
      obtain ⟨hp, hf, hpr⟩ := hu
      refine ⟨?_, ?_, ?_⟩ <;>
        simp [trySources, hp, hf, hpr, dlookup_dinsert_self]
  | cons src rest ih =>
      simp only [trySources]
      rw [hnf src (List.mem_cons_self _ _)]
      exact ih _ (fun s hs => hnf s (List.mem_cons_of_mem _ hs)) hu

theorem recordParsed_dlookup_frame (mn : List String) (n : String)
    (fi : FileInfo) (st : St) (mod : ParsedModule) (m : String)
    (hne : n ≠ m) (hmod : mod.name ≠ m) :
    dlookup (recordParsed mn n fi st mod).parsedMibs m =
        dlookup st.parsedMibs m ∧
      dlookup (recordParsed mn n fi st mod).failedMibs m =
        dlookup st.failedMibs m ∧
      dlookup (recordParsed mn n fi st mod).processed m =
        dlookup st.processed m := by
  refine ⟨?_, ?_, ?_⟩ <;>
    (simp only [recordParsed]
     split <;>
       simp [dlookup_dinsert_ne _ _ _ _ (Ne.symm hmod),
         dlookup_ddel_ne _ _ _ (Ne.symm hne)])

theorem foldl_recordParsed_dlookup_frame (mn : List String) (n : String)
    (fi : FileInfo) (m : String) (hne : n ≠ m) :
    ∀ (mods : List ParsedModule) (st : St),
      m ∉ mods.map ParsedModule.name →
      dlookup (mods.foldl (recordParsed mn n fi) st).parsedMibs m =
          dlookup st.parsedMibs m ∧
        dlookup (mods.foldl (recordParsed mn n fi) st).failedMibs m =
          dlookup st.failedMibs m ∧
        dlookup (mods.foldl (recordParsed mn n fi) st).processed m =
          dlookup st.processed m := by
  intro mods
  induction mods with
  | nil => exact fun st _ => ⟨rfl, rfl, rfl⟩
  | cons mod mrest ih =>
      intro st hmods
      rw [List.map_cons, List.mem_cons] at hmods
      push_neg at hmods
      have hstep := recordParsed_dlookup_frame mn n fi st mod m hne
        (Ne.symm hmods.1)
      have hrest := ih (recordParsed mn n fi st mod) hmods.2
      rw [List.foldl_cons]
      exact ⟨hrest.1.trans hstep.1, hrest.2.1.trans hstep.2.1,
        hrest.2.2.trans hstep.2.2⟩

theorem trySources_frame_ne (mn : List String) (m n : String)
    (srcs : List (String → FetchResult)) (st : St) (hne : n ≠ m)
    (havoid : avoidsModule srcs m) :
    dlookup (trySources mn n srcs st).parsedMibs m =
        dlookup st.parsedMibs m ∧
      dlookup (trySources mn n srcs st).failedMibs m =
        dlookup st.failedMibs m ∧
      dlookup (trySources mn n srcs st).processed m =
        dlookup st.processed m := by
  induction srcs generalizing st with
  | nil =>
      refine ⟨?_, ?_, ?_⟩ <;>
        (simp only [trySources]
         split <;> split <;>
           simp [dlookup_dinsert_ne _ _ _ _ (Ne.symm hne)])
  | cons src rest ih =>
      have havoid' : avoidsModule rest m :=
        fun s hs => havoid s (List.mem_cons_of_mem _ hs)
      simp only [trySources]
      split
      · exact ih _ havoid'
      · rename_i e heq
        have h2 := ih
          { st with
            srcConsults := st.srcConsults ++ [n]
            failedMibs := dinsert st.failedMibs n e
            processed := dinsert st.processed n (MibStatus.failed e) }
          havoid'
        refine ⟨h2.1.trans ?_, h2.2.1.trans ?_, h2.2.2.trans ?_⟩ <;>
          simp [dlookup_dinsert_ne _ _ _ _ (Ne.symm hne)]
      · rename_i fi mods hsrc
        have hmods : m ∉ mods.map ParsedModule.name :=
          havoid src (List.mem_cons_self _ _) n fi mods hsrc
        exact foldl_recordParsed_dlookup_frame mn n fi m hne mods
          { st with srcConsults := st.srcConsults ++ [n] } hmods

theorem foldl_recordParsed_worklist (mn : List String) (n : String)
    (fi : FileInfo) :
    ∀ (mods : List ParsedModule) (st : St), ∃ l,
      (mods.foldl (recordParsed mn n fi) st).mibsToParse =
        st.mibsToParse ++ l := by
  intro mods
  induction mods with
  | nil => exact fun st => ⟨[], by simp⟩
  | cons mod mrest ih =>
      intro st
      rw [List.foldl_cons]
      obtain ⟨l, hl⟩ := ih (recordParsed mn n fi st mod)
      refine ⟨mod.imported ++ l, ?_⟩
      rw [hl]
      have : (recordParsed mn n fi st mod).mibsToParse =
          st.mibsToParse ++ mod.imported := by
        simp only [recordParsed]
        split <;> rfl
      rw [this, List.append_assoc]

theorem trySources_worklist (mn : List String) (n : String)
    (srcs : List (String → FetchResult)) (st : St) :
    ∃ l, (trySources mn n srcs st).mibsToParse = st.mibsToParse ++ l := by
  induction srcs generalizing st with
  | nil =>
      refine ⟨[], ?_⟩
      simp only [trySources]
      split <;> split <;> simp
  | cons src rest ih =>
      simp only [trySources]
      split
      · obtain ⟨l, hl⟩ := ih _
        exact ⟨l, hl⟩
      · obtain ⟨l, hl⟩ := ih _
        exact ⟨l, hl⟩
      · exact foldl_recordParsed_worklist mn n _ _ _

/-- Phase A invariant for C5: a name `m` that no source can provide and
no fetch of any other name can shadow ends `missing` once it has been
popped, and stays that way. -/
theorem phaseA_missing_invariant (cfg : Config) (mn : List String)
    (m : String)
    (hnf : ∀ src ∈ cfg.sources, src m = FetchResult.notFound)
    (havoid : avoidsModule cfg.sources m) :
    ∀ (fuel : Nat) (st st' : St), phaseA cfg mn fuel st = some st' →
      (missingLocked st m ∨ (m ∈ st.mibsToParse ∧ untouchedYet st m)) →
      missingLocked st' m := by
  intro fuel
  induction fuel with
  | zero =>
      intro st st' h hinv
      unfold phaseA at h
      rcases hw : st.mibsToParse with _ | ⟨n, rest⟩ <;> rw [hw] at h
      · simp at h
        rcases hinv with hP | ⟨hm, _⟩
        · exact h ▸ hP
        · rw [hw] at hm
          simp at hm
      · simp at h
  | succ fuel ih =>
      intro st st' h hinv
      unfold phaseA at h
      rcases hw : st.mibsToParse with _ | ⟨n, rest⟩ <;> rw [hw] at h
      · simp at h
        rcases hinv with hP | ⟨hm, _⟩
        · exact h ▸ hP
        · rw [hw] at hm
          simp at hm
      · simp only [] at h
        split at h
        · -- n already parsed: skipped
          rename_i hparsed
          refine ih _ _ h ?_
          rcases hinv with hP | ⟨hm, hU⟩
          · exact Or.inl hP
          · rw [hw, List.mem_cons] at hm
            rcases hm with hm | hm
            · subst hm
              exact absurd hparsed (by simp [hU.1])
            · exact Or.inr ⟨hm, hU⟩
        · split at h
          · -- n already failed: skipped
            rename_i hfailed
            refine ih _ _ h ?_
            rcases hinv with hP | ⟨hm, hU⟩
            · exact Or.inl hP
            · rw [hw, List.mem_cons] at hm
              rcases hm with hm | hm
              · subst hm
                exact absurd hfailed (by simp [hU.2.1])
              · exact Or.inr ⟨hm, hU⟩
          · -- n is processed against the sources
            rename_i hnp hnf2
            refine ih _ _ h ?_
            by_cases hmn : n = m
            · subst hmn
              rcases hinv with hP | ⟨hm, hU⟩
              · exact absurd (by simp [hP.2.1] : (dlookup st.failedMibs n).isSome = true)
                  (by simpa using hnf2)
              · refine Or.inl ?_
                exact trySources_notFound_everywhere mn n cfg.sources _ hnf hU
            · rcases hinv with hP | ⟨hm, hU⟩
              · refine Or.inl ?_
                have hfr := trySources_frame_ne mn m n cfg.sources
                  { st with mibsToParse := rest, popLog := st.popLog ++ [n] }
                  hmn havoid
                exact ⟨hfr.1.trans hP.1, by rw [hfr.2.1]; exact hP.2.1,
                  hfr.2.2.trans hP.2.2⟩
              · refine Or.inr ?_
                have hfr := trySources_frame_ne mn m n cfg.sources
                  { st with mibsToParse := rest, popLog := st.popLog ++ [n] }
                  hmn havoid
                constructor
                · obtain ⟨l, hl⟩ := trySources_worklist mn n cfg.sources
                    { st with mibsToParse := rest, popLog := st.popLog ++ [n] }
                  rw [hl]
                  refine List.mem_append_left _ ?_
                  rw [hw, List.mem_cons] at hm
                  rcases hm with hm | hm
                  · exact absurd hm.symm hmn
                  · exact hm
                · exact ⟨hfr.1.trans hU.1, hfr.2.1.trans hU.2.1,
                    hfr.2.2.trans hU.2.2⟩

/-- Helper: an entry key of an association list in which `m` has no
binding is different from `m`. -/
theorem entry_key_ne_of_dlookup_none {α : Type} {d : List (String × α)}
    {m : String} (h : dlookup d m = none) :
    ∀ e ∈ d, e.1 ≠ m := by
  intro e he hem
  have : m ∈ dkeys d := by
    rw [← hem]
    exact List.mem_map_of_mem Prod.fst he
  have h2 : (dlookup d m).isSome = true := (dlookup_isSome_iff_mem_dkeys _ _).2 this
  rw [h] at h2
  simp at h2

/-- The borrow phase leaves the `m`-relevant observations unchanged when
no borrower can provide `m`. -/
theorem phaseDstep_missing_frame (cfg : Config) (opts : CompileOptions)
    (m : String) (hbor : ∀ b ∈ cfg.borrowers, b m opts.genTexts = none)
    (st : St) (e : String × PyErr) :
    dlookup (phaseDstep cfg opts st e).processed m = dlookup st.processed m ∧
      dlookup (phaseDstep cfg opts st e).borrowedMibs m =
        dlookup st.borrowedMibs m ∧
      dlookup (phaseDstep cfg opts st e).builtMibs m =
        dlookup st.builtMibs m := by
  by_cases hem : e.1 = m
  · unfold phaseDstep
    split
    · exact ⟨rfl, rfl, rfl⟩
    · rw [hem, tryBorrowers_id _ _ _ _ hbor]
      exact ⟨rfl, rfl, rfl⟩
  · unfold phaseDstep
    split
    · exact ⟨rfl, rfl, rfl⟩
    · exact ⟨by rw [tryBorrowers_processed],
        tryBorrowers_dlookup_borrowed_ne _ _ _ _ _ hem,
        by rw [tryBorrowers_builtMibs]⟩

/-- After Phase A has locked name `m` as missing, phases B–E, the final
decision point and the store phase never change its `missing` status,
provided no borrower can provide `m`. -/
theorem postPhases_missing (cfg : Config) (opts : CompileOptions)
    (stA : St) (m : String) (hPm : missingLocked stA m)
    (hbuilt : dlookup stA.builtMibs m = none)
    (hborrowed : dlookup stA.borrowedMibs m = none)
    (hbor : ∀ b ∈ cfg.borrowers, b m opts.genTexts = none) :
    dlookup (finalize cfg opts (pipelineBCDE cfg opts stA)).processed m =
      some MibStatus.missing := by
  obtain ⟨hp, hf, hpr⟩ := hPm
  have hAkeys := entry_key_ne_of_dlookup_none hp
  -- Phase B
  have hBproc : dlookup (phaseB cfg opts stA).processed m =
      dlookup stA.processed m :=
    foldl_preserves_of_mem (fun st => dlookup st.processed m) _ stA.parsedMibs
      (fun st e he => phaseBstep_dlookup_processed_ne cfg opts st e m
        (hAkeys e he)) stA
  have hBparsed : dlookup (phaseB cfg opts stA).parsedMibs m =
      dlookup stA.parsedMibs m :=
    foldl_preserves_of_mem (fun st => dlookup st.parsedMibs m) _ stA.parsedMibs
      (fun st e he => phaseBstep_dlookup_parsed_ne cfg opts st e m
        (hAkeys e he)) stA
  have hBbuilt : (phaseB cfg opts stA).builtMibs = stA.builtMibs :=
    foldl_preserves St.builtMibs _ (phaseBstep_builtMibs cfg opts) _ _
  have hBborrowed : (phaseB cfg opts stA).borrowedMibs = stA.borrowedMibs :=
    foldl_preserves St.borrowedMibs _ (phaseBstep_borrowedMibs cfg opts) _ _
  set stB := phaseB cfg opts stA with hstB
  have hBkeys := entry_key_ne_of_dlookup_none (hBparsed.trans hp)
  -- Phase C
  have hCproc : dlookup (phaseC cfg stB).processed m =
      dlookup stB.processed m :=
    foldl_preserves_of_mem (fun st => dlookup st.processed m) _ stB.parsedMibs
      (fun st e he => phaseCstep_dlookup_processed_ne cfg st e m
        (hBkeys e he)) stB
  have hCbuilt : dlookup (phaseC cfg stB).builtMibs m =
      dlookup stB.builtMibs m :=
    foldl_preserves_of_mem (fun st => dlookup st.builtMibs m) _ stB.parsedMibs
      (fun st e he => phaseCstep_dlookup_built_ne cfg st e m
        (hBkeys e he)) stB
  have hCborrowed : (phaseC cfg stB).borrowedMibs = stB.borrowedMibs :=
    foldl_preserves St.borrowedMibs _ (phaseCstep_borrowedMibs cfg) _ _
  set stC := phaseC cfg stB with hstC
  -- Phase D
  have hD : dlookup (phaseD cfg opts stC).processed m =
        dlookup stC.processed m ∧
      dlookup (phaseD cfg opts stC).borrowedMibs m =
        dlookup stC.borrowedMibs m ∧
      dlookup (phaseD cfg opts stC).builtMibs m =
        dlookup stC.builtMibs m := by
    have hall := foldl_preserves_of_mem
      (fun st => (dlookup st.processed m, dlookup st.borrowedMibs m,
        dlookup st.builtMibs m))
      (phaseDstep cfg opts) stC.failedMibs
      (fun st e _ => by
        have h3 := phaseDstep_missing_frame cfg opts m hbor st e
        simp only [Prod.mk.injEq]
        exact ⟨h3.1, h3.2.1, h3.2.2⟩) stC
    have h1 := congrArg Prod.fst hall
    have h2 := congrArg (fun p => p.2.1) hall
    have h3 := congrArg (fun p => p.2.2) hall
    exact ⟨h1, h2, h3⟩
  set stD := phaseD cfg opts stC with hstD
  have hDborrowed_none : dlookup stD.borrowedMibs m = none := by
    rw [hD.2.1, hCborrowed, hBborrowed]
    exact hborrowed
  have hDkeys := entry_key_ne_of_dlookup_none hDborrowed_none
  -- Phase E
  have hEproc : dlookup (phaseE cfg opts stD).processed m =
      dlookup stD.processed m :=
    foldl_preserves_of_mem (fun st => dlookup st.processed m) _ stD.borrowedMibs
      (fun st e he => phaseEstep_dlookup_processed_ne cfg opts st e m
        (hDkeys e he)) stD
  have hEbuilt : dlookup (phaseE cfg opts stD).builtMibs m =
      dlookup stD.builtMibs m :=
    foldl_preserves_of_mem (fun st => dlookup st.builtMibs m) _ stD.borrowedMibs
      (fun st e he => phaseEstep_dlookup_built_ne cfg opts st e m
        (hDkeys e he)) stD
  have hpipe : pipelineBCDE cfg opts stA = phaseE cfg opts stD := rfl
  set stE := phaseE cfg opts stD with hstE
  have hEproc_missing : dlookup stE.processed m = some MibStatus.missing := by
    rw [hstE, hEproc, hD.1, hCproc, hBproc]
    exact hpr
  have hEbuilt_none : dlookup stE.builtMibs m = none := by
    rw [hstE, hEbuilt, hD.2.2, hCbuilt, hBbuilt]
    exact hbuilt
  have hEkeys := entry_key_ne_of_dlookup_none hEbuilt_none
  rw [hpipe]
  unfold finalize
  split
  · rw [dlookup_markUnprocessed_not_mem]
    · exact hEproc_missing
    · intro hmem
      have h2 : (dlookup stE.builtMibs m).isSome = true :=
        (dlookup_isSome_iff_mem_dkeys _ _).2 hmem
      rw [hEbuilt_none] at h2
      simp at h2
  · have : dlookup (phaseStore cfg opts stE).processed m =
        dlookup stE.processed m :=
      foldl_preserves_of_mem (fun st => dlookup st.processed m) _
        stE.builtMibs
        (fun st e he => storeStep_dlookup_processed_ne cfg opts st e m
          (hEkeys e he)) stE
    rw [this]
    exact hEproc_missing

/-- Shared helper: a requested name that every source reports `notFound`,
that no fetch can shadow and no borrower can provide ends with outcome
`missing`. -/
theorem compileRun_missing_lookup (cfg : Config) (opts : CompileOptions)
    (mibnames : List String) (fuel : Nat) (stA : St) (m : String)
    (hm : m ∈ mibnames)
    (hnf : ∀ src ∈ cfg.sources, src m = FetchResult.notFound)
    (havoid : avoidsModule cfg.sources m)
    (hbor : ∀ b ∈ cfg.borrowers, b m opts.genTexts = none)
    (hA : phaseA cfg mibnames fuel (initSt mibnames) = some stA) :
    compileRun cfg opts mibnames fuel =
        some (finalize cfg opts (pipelineBCDE cfg opts stA)).processed ∧
      dlookup (finalize cfg opts (pipelineBCDE cfg opts stA)).processed m =
        some MibStatus.missing := by
  have hPm : missingLocked stA m :=
    phaseA_missing_invariant cfg mibnames m hnf havoid fuel _ _ hA
      (Or.inr ⟨hm, ⟨rfl, rfl, rfl⟩⟩)
  have hbuilt : dlookup stA.builtMibs m = none := by
    rw [phaseA_builtMibs cfg mibnames fuel _ _ hA]
    rfl
  have hborrowed : dlookup stA.borrowedMibs m = none := by
    rw [phaseA_borrowedMibs cfg mibnames fuel _ _ hA]
    rfl
  constructor
  · simp [compileRun, compileSt, hA]
  · exact postPhases_missing cfg opts stA m hPm hbuilt hborrowed hbor

/-! ## C5: `Missing` when no source provides a requested name -/

/-- C5: for every requested module name, when every registered source
signals not-found for that name (in particular when there are zero
registered sources), the returned mapping assigns that name the outcome
`missing`.  The hypotheses `havoid` and `hbor` pin down the frame the
claim presupposes: no fetch of another name declares a module with this
canonical name, and no borrower supplies a substitute for it. -/
theorem requested_name_found_nowhere_is_missing
    (cfg : Config) (opts : CompileOptions) (mibnames : List String)
    (fuel : Nat) (stA : St) (m : String)
    (hm : m ∈ mibnames)
    (hnf : ∀ src ∈ cfg.sources, src m = FetchResult.notFound)
    (havoid : avoidsModule cfg.sources m)
    (hbor : ∀ b ∈ cfg.borrowers, b m opts.genTexts = none)
    (hA : phaseA cfg mibnames fuel (initSt mibnames) = some stA) :
    ∃ res, compileRun cfg opts mibnames fuel = some res ∧
      dlookup res m = some MibStatus.missing := by
  have h := compileRun_missing_lookup cfg opts mibnames fuel stA m hm hnf
    havoid hbor hA
  exact ⟨_, h.1, h.2⟩

/-- The configuration of the C5 witness: a single source that reports
not-found for every name, no searchers and no borrowers. -/
def cfgAllNotFound : Config :=
  { sources := [fun _ => FetchResult.notFound]
    searchers := []
    borrowers := []
    codegen := fun _ => Except.ok ({}, "generated")
    writer := fun _ _ _ => none }

/-- Witness for C5 at a concrete input. -/
theorem requested_name_found_nowhere_is_missing_witness :
    ∃ res, compileRun cfgAllNotFound {} ["X-MIB"] 2 = some res ∧
      dlookup res "X-MIB" = some MibStatus.missing :=
  requested_name_found_nowhere_is_missing cfgAllNotFound {} ["X-MIB"] 2
    ((phaseA cfgAllNotFound ["X-MIB"] 2 (initSt ["X-MIB"])).getD (initSt []))
    "X-MIB" (by decide)
    (by
      intro src hsrc
      simp only [cfgAllNotFound, List.mem_singleton] at hsrc
      subst hsrc
      rfl)
    (by
      intro src hsrc n fi mods hfetch
      simp only [cfgAllNotFound, List.mem_singleton] at hsrc
      subst hsrc
      simp at hfetch)
    (by
      intro b hb
      simp [cfgAllNotFound] at hb)
    (by rfl)

/-! ## C4: zero sources is not a raised configuration error -/

/-- The configuration of the C4 scenario: no sources at all. -/
def cfgNoSources : Config :=
  { sources := []
    searchers := []
    borrowers := []
    codegen := fun _ => Except.ok ({}, "generated")
    writer := fun _ _ _ => none }

/-- C4 counterexample: invoking `compile` with zero registered sources
does not raise anything; it returns normally, and the per-module failure
*is* captured in the returned outcome mapping, as outcome `missing` —
contradicting the claim that a zero-source invocation is signalled
immediately, distinctly from per-module failures and outside the
mapping.  (`compile` in `pysmi/compiler.py` contains no configuration
check at all: with `self._sources == []` the `for source` loop falls
through to its `else` clause.) -/
theorem zero_sources_returns_missing_counterexample :
    compileRun cfgNoSources {} ["SOME-MIB"] 1 =
      some [("SOME-MIB", MibStatus.missing)] := by
  rfl

/-- C4 amended: invoking `compile` with zero registered sources is not
raised to the caller at all; the run completes normally and every
requested name is reported in the returned outcome mapping with outcome
`missing` (when, as in the claim's scenario, no borrowers are registered
either). -/
theorem zero_sources_all_requested_missing
    (cfg : Config) (opts : CompileOptions) (mibnames : List String)
    (fuel : Nat) (stA : St)
    (hsrc : cfg.sources = []) (hb : cfg.borrowers = [])
    (hA : phaseA cfg mibnames fuel (initSt mibnames) = some stA) :
    ∃ res, compileRun cfg opts mibnames fuel = some res ∧
      ∀ m ∈ mibnames, dlookup res m = some MibStatus.missing := by
  refine ⟨(finalize cfg opts (pipelineBCDE cfg opts stA)).processed, ?_, ?_⟩
  · simp [compileRun, compileSt, hA]
  · intro m hm
    have h := compileRun_missing_lookup cfg opts mibnames fuel stA m hm
      (by rw [hsrc]; intro src hs; cases hs)
      (by rw [avoidsModule, hsrc]; intro src hs; cases hs)
      (by rw [hb]; intro b hb'; cases hb')
      hA
    exact h.2

/-- Witness for the amended C4 at a concrete input. -/
theorem zero_sources_all_requested_missing_witness :
    ∃ res, compileRun cfgNoSources {} ["A-MIB", "B-MIB"] 2 = some res ∧
      ∀ m ∈ ["A-MIB", "B-MIB"], dlookup res m = some MibStatus.missing :=
  zero_sources_all_requested_missing cfgNoSources {} ["A-MIB", "B-MIB"] 2
    ((phaseA cfgNoSources ["A-MIB", "B-MIB"] 2
      (initSt ["A-MIB", "B-MIB"])).getD (initSt []))
    rfl rfl (by rfl)

/-! ## C1 witness -/

/-- The configuration of the C1 witness: module A fetches and compiles
fine, module B's fetch raises a parse error. -/
def cfgAbort : Config :=
  { sources :=
      [fun n =>
        if n = "A" then
          FetchResult.fetched ⟨"A", "file:///mibs/A", "A.mib", 5⟩ [⟨"A", []⟩]
        else if n = "B" then FetchResult.raisedErr (PyErr.raised "parse error")
        else FetchResult.notFound]
    searchers := []
    borrowers := []
    codegen := fun _ => Except.ok ({ oid := some "1.3.6" }, "generated")
    writer := fun _ _ _ => none }

/-- The Phase A result of the C1 witness run. -/
def stAbort : St :=
  (phaseA cfgAbort ["A", "B"] 4 (initSt ["A", "B"])).getD (initSt [])

/-- Witness for C1 at a concrete input: A built, B failed, no
`ignoreErrors` — A is reported `unprocessed` and the writer is never
invoked. -/
theorem compile_abort_is_all_or_nothing_witness :
    ∃ stF, compileSt cfgAbort {} ["A", "B"] 4 = some stF ∧
      stF.writerCalls = [] ∧
      stF.processed =
        markUnprocessed (pipelineBCDE cfgAbort {} stAbort).builtMibs
          (pipelineBCDE cfgAbort {} stAbort).processed ∧
      ∀ m ∈ dkeys (pipelineBCDE cfgAbort {} stAbort).builtMibs,
        dlookup stF.processed m = some MibStatus.unprocessed :=
  compile_abort_is_all_or_nothing cfgAbort {} ["A", "B"] 4 stAbort
    (by rfl) (by decide) rfl

/-! ## Store-phase lemmas (C9, C10) -/

/-- When `writeMibs` is set and the writer raises on a module, the store
iteration for that module records the `failed` status. -/
theorem storeStep_writer_fails (cfg : Config) (opts : CompileOptions)
    (st : St) (e : String × (FileInfo × BuiltData)) (er : PyErr)
    (hw : opts.writeMibs = true)
    (hfail : cfg.writer e.1 e.2.2.data opts.dryRun = some er) :
    dlookup (storeStep cfg opts st e).processed e.1 =
      some (MibStatus.failed er) := by
  unfold storeStep
  rw [hw]
  simp only [if_true]
  rw [hfail]
  simp [dlookup_dinsert_self]

/-- When `writeMibs` is set, each store iteration appends exactly its own
module to the writer-call trace. -/
theorem storeStep_writerCalls_eq (cfg : Config) (opts : CompileOptions)
    (st : St) (e : String × (FileInfo × BuiltData))
    (hw : opts.writeMibs = true) :
    (storeStep cfg opts st e).writerCalls = st.writerCalls ++ [e.1] := by
  unfold storeStep
  rw [hw]
  simp only [if_true]
  split
  · rfl
  · rw [storeSuccess_writerCalls]

/-- Each store iteration can only extend the writer-call trace. -/
theorem storeStep_writerCalls_mono (cfg : Config) (opts : CompileOptions)
    (st : St) (e : String × (FileInfo × BuiltData)) :
    ∃ l, (storeStep cfg opts st e).writerCalls = st.writerCalls ++ l := by
  unfold storeStep
  split
  · split
    · exact ⟨[e.1], rfl⟩
    · exact ⟨[e.1], by rw [storeSuccess_writerCalls]⟩
  · exact ⟨[], by rw [storeSuccess_writerCalls, List.append_nil]⟩

theorem foldl_store_writerCalls_mono (cfg : Config) (opts : CompileOptions) :
    ∀ (l : List (String × (FileInfo × BuiltData))) (st : St),
      ∃ l', (l.foldl (storeStep cfg opts) st).writerCalls =
        st.writerCalls ++ l' := by
  intro l
  induction l with
  | nil => exact fun st => ⟨[], by simp⟩
  | cons e rest ih =>
      intro st
      rw [List.foldl_cons]
      obtain ⟨l1, h1⟩ := storeStep_writerCalls_mono cfg opts st e
      obtain ⟨l2, h2⟩ := ih (storeStep cfg opts st e)
      exact ⟨l1 ++ l2, by rw [h2, h1, List.append_assoc]⟩

/-- When `writeMibs` is set, the store phase invokes the writer for every
module of its snapshot, regardless of failures of other modules. -/
theorem foldl_store_all_attempted (cfg : Config) (opts : CompileOptions)
    (hw : opts.writeMibs = true) :
    ∀ (l : List (String × (FileInfo × BuiltData))) (st : St),
      ∀ e ∈ l, e.1 ∈ (l.foldl (storeStep cfg opts) st).writerCalls := by
  intro l
  induction l with
  | nil => intro st e he; simp at he
  | cons e0 rest ih =>
      intro st e he
      rw [List.foldl_cons]
      rcases List.mem_cons.1 he with he | he
      · subst he
        obtain ⟨l', hl'⟩ := foldl_store_writerCalls_mono cfg opts rest
          (storeStep cfg opts st e)
        rw [hl', storeStep_writerCalls_eq cfg opts st e hw]
        simp
      · exact ih _ e he

/-- The success path keeps any already-assigned status present. -/
theorem storeSuccess_processed_isSome_mono (n : String) (fi : FileInfo)
    (bd : BuiltData) (st : St) (x : String)
    (h : (dlookup st.processed x).isSome = true) :
    (dlookup (storeSuccess n fi bd st).processed x).isSome = true := by
  unfold storeSuccess
  split
  · exact h
  · split <;> exact dlookup_isSome_dinsert_mono _ _ h

/-- After its success path a module always has a status. -/
theorem storeSuccess_processed_isSome_self (n : String) (fi : FileInfo)
    (bd : BuiltData) (st : St) :
    (dlookup (storeSuccess n fi bd st).processed n).isSome = true := by
  unfold storeSuccess
  split
  · assumption
  · split <;> simp [dlookup_dinsert_self]

/-- A store iteration keeps any already-assigned status present. -/
theorem storeStep_processed_isSome_mono (cfg : Config)
    (opts : CompileOptions) (st : St) (e : String × (FileInfo × BuiltData))
    (x : String) (h : (dlookup st.processed x).isSome = true) :
    (dlookup (storeStep cfg opts st e).processed x).isSome = true := by
  simp only [storeStep]
  split
  · split
    · exact dlookup_isSome_dinsert_mono _ _ h
    · exact storeSuccess_processed_isSome_mono _ _ _ _ _ h
  · exact storeSuccess_processed_isSome_mono _ _ _ _ _ h

/-- After its own store iteration a module always has a status. -/
theorem storeStep_processed_isSome_self (cfg : Config)
    (opts : CompileOptions) (st : St) (e : String × (FileInfo × BuiltData)) :
    (dlookup (storeStep cfg opts st e).processed e.1).isSome = true := by
  simp only [storeStep]
  split
  · split
    · simp [dlookup_dinsert_self]
    · exact storeSuccess_processed_isSome_self _ _ _ _
  · exact storeSuccess_processed_isSome_self _ _ _ _

/-- A status once present survives the whole store fold. -/
theorem foldl_store_isSome_mono (cfg : Config) (opts : CompileOptions) :
    ∀ (l : List (String × (FileInfo × BuiltData))) (st : St) (x : String),
      (dlookup st.processed x).isSome = true →
      (dlookup (l.foldl (storeStep cfg opts) st).processed x).isSome =
        true := by
  intro l
  induction l with
  | nil => intro st x h; exact h
  | cons e rest ih =>
      intro st x h
      rw [List.foldl_cons]
      exact ih _ x (storeStep_processed_isSome_mono cfg opts st e x h)

/-- Every module of the store snapshot has a status after the store
phase. -/
theorem foldl_store_isSome_cover (cfg : Config) (opts : CompileOptions) :
    ∀ (l : List (String × (FileInfo × BuiltData))) (st : St),
      ∀ e ∈ l,
        (dlookup (l.foldl (storeStep cfg opts) st).processed e.1).isSome =
          true := by
  intro l
  induction l with
  | nil => intro st e he; simp at he
  | cons e0 rest ih =>
      intro st e he
      rw [List.foldl_cons]
      rcases List.mem_cons.1 he with he | he
      · subst he
        exact foldl_store_isSome_mono cfg opts rest _ e.1
          (storeStep_processed_isSome_self cfg opts st e)
      · exact ih _ e he

/-! ## C9: a writer failure is isolated to its own module -/

/-- C9: during the store phase, a writer failure for one module demotes
only that module to `failed` (with the writer's error attached); every
module of the built snapshot is still attempted (its name appears in the
writer-call trace), and modules outside the built snapshot keep whatever
outcome they already had. -/
theorem store_writer_failure_is_isolated
    (cfg : Config) (opts : CompileOptions) (st : St) (m : String)
    (fi : FileInfo) (bd : BuiltData) (er : PyErr)
    (hw : opts.writeMibs = true)
    (hnodup : (dkeys st.builtMibs).Nodup)
    (hmem : (m, (fi, bd)) ∈ st.builtMibs)
    (hfail : cfg.writer m bd.data opts.dryRun = some er) :
    dlookup (phaseStore cfg opts st).processed m =
        some (MibStatus.failed er) ∧
      (∀ e ∈ st.builtMibs, e.1 ∈ (phaseStore cfg opts st).writerCalls) ∧
      ∀ n, n ∉ dkeys st.builtMibs →
        dlookup (phaseStore cfg opts st).processed n =
          dlookup st.processed n := by
  refine ⟨?_, ?_, ?_⟩
  · obtain ⟨l1, l2, hsplit⟩ := List.append_of_mem hmem
    have hkeys : dkeys st.builtMibs = dkeys l1 ++ m :: dkeys l2 := by
      rw [hsplit]
      simp [dkeys]
    rw [hkeys] at hnodup
    rw [List.nodup_append] at hnodup
    have hm2 : m ∉ dkeys l2 := by
      have := hnodup.2.1
      rw [List.nodup_cons] at this
      exact this.1
    unfold phaseStore
    rw [hsplit, List.foldl_append, List.foldl_cons]
    have hpres : dlookup
        (l2.foldl (storeStep cfg opts)
          (storeStep cfg opts (l1.foldl (storeStep cfg opts) st)
            (m, (fi, bd)))).processed m =
        dlookup (storeStep cfg opts (l1.foldl (storeStep cfg opts) st)
          (m, (fi, bd))).processed m :=
      foldl_preserves_of_mem (fun s => dlookup s.processed m) _ l2
        (fun s e he =>
          storeStep_dlookup_processed_ne cfg opts s e m
            (entry_key_ne_of_dlookup_none (dlookup_eq_none_of_not_mem hm2)
              e he)) _
    rw [hpres]
    exact storeStep_writer_fails cfg opts _ (m, (fi, bd)) er hw hfail
  · exact foldl_store_all_attempted cfg opts hw st.builtMibs st
  · intro n hn
    exact foldl_preserves_of_mem (fun s => dlookup s.processed n) _
      st.builtMibs
      (fun s e he =>
        storeStep_dlookup_processed_ne cfg opts s e n
          (entry_key_ne_of_dlookup_none (dlookup_eq_none_of_not_mem hn)
            e he)) st

/-- The state at the start of the C9 witness store phase: two built
modules, nothing processed yet. -/
def stTwoBuilt : St :=
  { initSt [] with
    builtMibs :=
      [("G-MIB", (⟨"G-MIB", "file:///mibs/G", "G.mib", 3⟩,
        BuiltData.generated {} "gcode")),
       ("H-MIB", (⟨"H-MIB", "file:///mibs/H", "H.mib", 4⟩,
        BuiltData.generated {} "hcode"))] }

/-- The configuration of the C9 witness: the writer raises on `G-MIB`
only. -/
def cfgWriterFailsG : Config :=
  { sources := []
    searchers := []
    borrowers := []
    codegen := fun _ => Except.ok ({}, "generated")
    writer := fun n _ _ =>
      if n = "G-MIB" then some (PyErr.raised "disk full") else none }

/-- Witness for C9 at a concrete input. -/
theorem store_writer_failure_is_isolated_witness :
    dlookup (phaseStore cfgWriterFailsG {} stTwoBuilt).processed "G-MIB" =
        some (MibStatus.failed (PyErr.raised "disk full")) ∧
      (∀ e ∈ stTwoBuilt.builtMibs,
        e.1 ∈ (phaseStore cfgWriterFailsG {} stTwoBuilt).writerCalls) ∧
      ∀ n, n ∉ dkeys stTwoBuilt.builtMibs →
        dlookup (phaseStore cfgWriterFailsG {} stTwoBuilt).processed n =
          dlookup stTwoBuilt.processed n :=
  store_writer_failure_is_isolated cfgWriterFailsG {} stTwoBuilt "G-MIB"
    ⟨"G-MIB", "file:///mibs/G", "G.mib", 3⟩ (BuiltData.generated {} "gcode")
    (PyErr.raised "disk full") rfl (by decide) (by decide) rfl

/-! ## C10: `writeMibs := false` skips the writer but keeps outcomes -/

/-- With `writeMibs` unset, a store iteration never touches the
writer-call trace. -/
theorem storeStep_writerCalls_skip (cfg : Config) (opts : CompileOptions)
    (st : St) (e : String × (FileInfo × BuiltData))
    (hw : opts.writeMibs = false) :
    (storeStep cfg opts st e).writerCalls = st.writerCalls := by
  unfold storeStep
  rw [hw]
  simp [storeSuccess_writerCalls]

/-- The success path of the store phase assigns statuses as a function
of the `processed` dictionary alone. -/
theorem storeSuccess_processed_congr (n : String) (fi : FileInfo)
    (bd : BuiltData) (st1 st2 : St) (h : st1.processed = st2.processed) :
    (storeSuccess n fi bd st1).processed =
      (storeSuccess n fi bd st2).processed := by
  unfold storeSuccess
  by_cases hn : (dlookup st1.processed n).isSome = true
  · rw [if_pos hn, if_pos (by rw [← h]; exact hn)]
    exact h
  · rw [if_neg hn, if_neg (by rw [← h]; exact hn)]
    cases bd <;> simp [h]

/-- A store fold with `writeMibs := false` produces the same `processed`
dictionary as one with `writeMibs := true` and a writer that never
raises. -/
theorem foldl_store_processed_skip_congr (cfg : Config)
    (opts : CompileOptions) (hw : opts.writeMibs = false)
    (hok : ∀ n d, cfg.writer n d opts.dryRun = none) :
    ∀ (l : List (String × (FileInfo × BuiltData))) (st1 st2 : St),
      st1.processed = st2.processed →
      (l.foldl (storeStep cfg opts) st1).processed =
        (l.foldl (storeStep cfg { opts with writeMibs := true }) st2).processed := by
  intro l
  induction l with
  | nil => exact fun st1 st2 h => h
  | cons e rest ih =>
      intro st1 st2 h
      rw [List.foldl_cons, List.foldl_cons]
      apply ih
      have h1 : storeStep cfg opts st1 e = storeSuccess e.1 e.2.1 e.2.2 st1 := by
        unfold storeStep
        rw [hw]
        simp
      have h2 : storeStep cfg { opts with writeMibs := true } st2 e =
          storeSuccess e.1 e.2.1 e.2.2
            { st2 with writerCalls := st2.writerCalls ++ [e.1] } := by
        simp only [storeStep, if_pos]
        rw [show cfg.writer e.1 e.2.2.data
            ({ opts with writeMibs := true } : CompileOptions).dryRun = none
          from hok _ _]
      rw [h1, h2]
      exact storeSuccess_processed_congr _ _ _ _ _ h

/-- C10: when `compile` runs with `writeMibs := false` and the run
reaches the store phase, the writer is never invoked (the writer-call
trace of the final state is empty), yet every module of the built set
still receives a status, and the final outcome mapping coincides with
the one a run of the store phase with `writeMibs := true` and an
always-succeeding writer would produce. -/
theorem writeMibs_false_skips_writer_keeps_outcomes
    (cfg : Config) (opts : CompileOptions) (mibnames : List String)
    (fuel : Nat) (stA : St)
    (hw : opts.writeMibs = false)
    (hok : ∀ n d, cfg.writer n d opts.dryRun = none)
    (hA : phaseA cfg mibnames fuel (initSt mibnames) = some stA)
    (hreach : (pipelineBCDE cfg opts stA).failedMibs = [] ∨
      opts.ignoreErrors = true) :
    ∃ stF, compileSt cfg opts mibnames fuel = some stF ∧
      stF.writerCalls = [] ∧
      (∀ e ∈ (pipelineBCDE cfg opts stA).builtMibs,
        (dlookup stF.processed e.1).isSome = true) ∧
      stF.processed =
        (phaseStore cfg { opts with writeMibs := true }
          (pipelineBCDE cfg opts stA)).processed := by
  have hfin : finalize cfg opts (pipelineBCDE cfg opts stA) =
      phaseStore cfg opts (pipelineBCDE cfg opts stA) := by
    unfold finalize
    rw [if_neg]
    rcases hreach with h | h <;> simp [h]
  refine ⟨finalize cfg opts (pipelineBCDE cfg opts stA), ?_, ?_, ?_, ?_⟩
  · simp [compileSt, hA]
  · rw [hfin]
    have hskip : (phaseStore cfg opts
        (pipelineBCDE cfg opts stA)).writerCalls =
        (pipelineBCDE cfg opts stA).writerCalls :=
      foldl_preserves St.writerCalls _
        (fun st e => storeStep_writerCalls_skip cfg opts st e hw) _ _
    rw [hskip, pipelineBCDE_writerCalls,
      phaseA_writerCalls cfg mibnames fuel _ _ hA]
    rfl
  · intro e he
    rw [hfin]
    exact foldl_store_isSome_cover cfg opts _ _ e he
  · rw [hfin]
    exact foldl_store_processed_skip_congr cfg opts hw hok _ _ _ rfl

/-- The state at the start of the C10 witness run: one module fetched
and compiled. -/
def cfgDryCompile : Config :=
  { sources :=
      [fun n =>
        if n = "D-MIB" then
          FetchResult.fetched ⟨"D-MIB", "file:///mibs/D", "D.mib", 9⟩
            [⟨"D-MIB", []⟩]
        else FetchResult.notFound]
    searchers := []
    borrowers := []
    codegen := fun _ => Except.ok ({ oid := some "1.3.6.1" }, "dcode")
    writer := fun _ _ _ => none }

/-- Witness for C10 at a concrete input. -/
theorem writeMibs_false_skips_writer_keeps_outcomes_witness :
    ∃ stF, compileSt cfgDryCompile { writeMibs := false } ["D-MIB"] 2 =
        some stF ∧
      stF.writerCalls = [] ∧
      (∀ e ∈ (pipelineBCDE cfgDryCompile { writeMibs := false }
          ((phaseA cfgDryCompile ["D-MIB"] 2
            (initSt ["D-MIB"])).getD (initSt []))).builtMibs,
        (dlookup stF.processed e.1).isSome = true) ∧
      stF.processed =
        (phaseStore cfgDryCompile
          { ({ writeMibs := false } : CompileOptions) with writeMibs := true }
          (pipelineBCDE cfgDryCompile { writeMibs := false }
            ((phaseA cfgDryCompile ["D-MIB"] 2
              (initSt ["D-MIB"])).getD (initSt [])))).processed :=
  writeMibs_false_skips_writer_keeps_outcomes cfgDryCompile
    { writeMibs := false } ["D-MIB"] 2
    ((phaseA cfgDryCompile ["D-MIB"] 2 (initSt ["D-MIB"])).getD (initSt []))
    rfl (fun _ _ => rfl) (by rfl) (Or.inl (by decide))

/-! ## C3: a substantive source error does not stop the per-source loop -/

/-- The configuration of the C3 counterexample: the first source raises
an input/output error for every name, the second source provides the
module. -/
def cfgErrThenOk : Config :=
  { sources :=
      [fun _ => FetchResult.raisedErr (PyErr.raised "io error"),
       fun n =>
        if n = "A2-MIB" then
          FetchResult.fetched ⟨"A2-MIB", "file:///mibs/A2", "A2.mib", 7⟩
            [⟨"A2-MIB", []⟩]
        else FetchResult.notFound]
    searchers := []
    borrowers := []
    codegen := fun _ => Except.ok ({}, "a2code")
    writer := fun _ _ _ => none }

/-- C3 counterexample: with a first source raising a substantive error
and a second source that succeeds, the sources are consulted *twice* for
the popped name (the error handler contains no `break`), the module is
parsed from the second source, its `failedMibs` entry is cleared, the
run reaches the store phase and the writer is invoked for it — all of
which would be impossible if the per-source loop stopped at the first
substantive error, as the claim states (the failure would persist to the
final decision point and the run would abort without storing). -/
theorem source_error_stops_loop_counterexample :
    ∃ stF, compileSt cfgErrThenOk {} ["A2-MIB"] 3 = some stF ∧
      stF.srcConsults = ["A2-MIB", "A2-MIB"] ∧
      stF.writerCalls = ["A2-MIB"] ∧
      stF.failedMibs = [] ∧
      stF.processed =
        [("A2-MIB", MibStatus.failed (PyErr.raised "io error"))] := by
  refine ⟨(compileSt cfgErrThenOk {} ["A2-MIB"] 3).getD (initSt []),
    by rfl, by decide, by decide, by decide, by decide⟩

theorem recordParsed_failedMibs_eq (mn : List String) (n : String)
    (fi : FileInfo) (st : St) (mod : ParsedModule) :
    (recordParsed mn n fi st mod).failedMibs = ddel st.failedMibs n := by
  simp only [recordParsed]
  split <;> rfl

theorem recordParsed_processed (mn : List String) (n : String)
    (fi : FileInfo) (st : St) (mod : ParsedModule) :
    (recordParsed mn n fi st mod).processed = st.processed := by
  simp only [recordParsed]
  split <;> rfl

theorem recordParsed_srcConsults (mn : List String) (n : String)
    (fi : FileInfo) (st : St) (mod : ParsedModule) :
    (recordParsed mn n fi st mod).srcConsults = st.srcConsults := by
  simp only [recordParsed]
  split <;> rfl

theorem recordParsed_parsed_isSome_mono (mn : List String) (n : String)
    (fi : FileInfo) (st : St) (mod : ParsedModule) (x : String)
    (h : (dlookup st.parsedMibs x).isSome = true) :
    (dlookup (recordParsed mn n fi st mod).parsedMibs x).isSome = true := by
  simp only [recordParsed]
  split <;> exact dlookup_isSome_dinsert_mono _ _ h

/-- A parsed entry survives the whole per-fetch loop. -/
theorem foldl_recordParsed_parsed_isSome_mono (mn : List String) (n : String)
    (fi : FileInfo) (x : String) :
    ∀ (mods : List ParsedModule) (st : St),
      (dlookup st.parsedMibs x).isSome = true →
      (dlookup (mods.foldl (recordParsed mn n fi) st).parsedMibs x).isSome =
        true := by
  intro mods
  induction mods with
  | nil => exact fun st h => h
  | cons mod mrest ih =>
      intro st h
      rw [List.foldl_cons]
      exact ih _ (recordParsed_parsed_isSome_mono mn n fi st mod x h)

/-- After the per-fetch loop, every module declared by the fetched file
is in `parsedMibs`. -/
theorem foldl_recordParsed_parsed_self (mn : List String) (n : String)
    (fi : FileInfo) (x : String) :
    ∀ (mods : List ParsedModule) (st : St), x ∈ mods.map ParsedModule.name →
      (dlookup (mods.foldl (recordParsed mn n fi) st).parsedMibs x).isSome =
        true := by
  intro mods
  induction mods with
  | nil => intro st h; simp at h
  | cons mod mrest ih =>
      intro st h
      rw [List.map_cons, List.mem_cons] at h
      rw [List.foldl_cons]
      by_cases hx : x ∈ mrest.map ParsedModule.name
      · exact ih _ hx
      · have hxm : x = mod.name := by tauto
        subst hxm
        have hstep : (dlookup (recordParsed mn n fi st mod).parsedMibs
            mod.name).isSome = true := by
          simp only [recordParsed]
          split <;> simp [dlookup_dinsert_self]
        exact foldl_recordParsed_parsed_isSome_mono mn n fi mod.name mrest _
          hstep

/-- `failedMibs` stays clear of the popped name through the per-fetch
loop. -/
theorem foldl_recordParsed_failed_none (mn : List String) (n : String)
    (fi : FileInfo) :
    ∀ (mods : List ParsedModule) (st : St),
      dlookup st.failedMibs n = none →
      dlookup (mods.foldl (recordParsed mn n fi) st).failedMibs n = none := by
  intro mods
  induction mods with
  | nil => exact fun st h => h
  | cons mod mrest ih =>
      intro st h
      rw [List.foldl_cons]
      refine ih _ ?_
      rw [recordParsed_failedMibs_eq]
      exact dlookup_none_ddel n h

/-- C3 amended: when a source raises a substantive (non-"not-found")
error for the popped name, the error is recorded in the failed set and
the `failed` status is recorded in the mapping, but the per-source loop
does *not* stop: the remaining sources are consulted for the same name
in the same pass, and a later source that fetches the module
successfully removes the name from the failed set and parses it — while
the `failed` status recorded in the mapping survives. -/
theorem source_error_continues_with_later_sources
    (mn : List String) (n : String) (e : PyErr) (fi : FileInfo)
    (mods : List ParsedModule) (s1 s2 : String → FetchResult) (st : St)
    (h1 : s1 n = FetchResult.raisedErr e)
    (h2 : s2 n = FetchResult.fetched fi mods)
    (hn : n ∈ mods.map ParsedModule.name)
    (hfail : dlookup st.failedMibs n = none) :
    (dlookup (trySources mn n [s1, s2] st).parsedMibs n).isSome = true ∧
      dlookup (trySources mn n [s1, s2] st).failedMibs n = none ∧
      dlookup (trySources mn n [s1, s2] st).processed n =
        some (MibStatus.failed e) ∧
      (trySources mn n [s1, s2] st).srcConsults =
        st.srcConsults ++ [n, n] := by
  have hstep : trySources mn n [s1, s2] st =
      mods.foldl (recordParsed mn n fi)
        { st with
          srcConsults := (st.srcConsults ++ [n]) ++ [n]
          failedMibs := dinsert st.failedMibs n e
          processed := dinsert st.processed n (MibStatus.failed e) } := by
    simp only [trySources]
    rw [h1, h2]
  have hnotmem : n ∉ dkeys st.failedMibs := by
    intro hmem
    have h3 := (dlookup_isSome_iff_mem_dkeys _ _).2 hmem
    rw [hfail] at h3
    simp at h3
  rw [hstep]
  refine ⟨?_, ?_, ?_, ?_⟩
  · exact foldl_recordParsed_parsed_self mn n fi n mods _ hn
  · rcases mods with _ | ⟨mod, mrest⟩
    · simp at hn
    · rw [List.foldl_cons]
      refine foldl_recordParsed_failed_none mn n fi mrest _ ?_
      rw [recordParsed_failedMibs_eq]
      have hd : ddel (dinsert st.failedMibs n e) n = st.failedMibs := by
        simpa using ddel_dinsert_of_not_mem e hnotmem
      show dlookup (ddel
        ({ st with
            srcConsults := (st.srcConsults ++ [n]) ++ [n]
            failedMibs := dinsert st.failedMibs n e
            processed :=
              dinsert st.processed n (MibStatus.failed e) } : St).failedMibs
          n) n = none
      rw [show ({ st with
            srcConsults := (st.srcConsults ++ [n]) ++ [n]
            failedMibs := dinsert st.failedMibs n e
            processed :=
              dinsert st.processed n (MibStatus.failed e) } : St).failedMibs =
          dinsert st.failedMibs n e from rfl, hd]
      exact hfail
  · have hp : (mods.foldl (recordParsed mn n fi)
        { st with
          srcConsults := (st.srcConsults ++ [n]) ++ [n]
          failedMibs := dinsert st.failedMibs n e
          processed :=
            dinsert st.processed n (MibStatus.failed e) }).processed =
        dinsert st.processed n (MibStatus.failed e) :=
      foldl_preserves St.processed _ (recordParsed_processed mn n fi) _ _
    rw [hp, dlookup_dinsert_self]
  · have hc : (mods.foldl (recordParsed mn n fi)
        { st with
          srcConsults := (st.srcConsults ++ [n]) ++ [n]
          failedMibs := dinsert st.failedMibs n e
          processed :=
            dinsert st.processed n (MibStatus.failed e) }).srcConsults =
        (st.srcConsults ++ [n]) ++ [n] :=
      foldl_preserves St.srcConsults _ (recordParsed_srcConsults mn n fi) _ _
    rw [hc, List.append_assoc]
    rfl

/-- First source of the amended-C3 witness: always raises. -/
def srcAlwaysErr : String → FetchResult :=
  fun _ => FetchResult.raisedErr (PyErr.raised "boom")

/-- Second source of the amended-C3 witness: always fetches module N. -/
def srcAlwaysN : String → FetchResult :=
  fun _ => FetchResult.fetched ⟨"N", "file:///mibs/N", "N.mib", 1⟩ [⟨"N", []⟩]

/-- Witness for the amended C3 at a concrete input. -/
theorem source_error_continues_with_later_sources_witness :
    (dlookup (trySources [] "N" [srcAlwaysErr, srcAlwaysN]
        (initSt ["N"])).parsedMibs "N").isSome = true ∧
      dlookup (trySources [] "N" [srcAlwaysErr, srcAlwaysN]
        (initSt ["N"])).failedMibs "N" = none ∧
      dlookup (trySources [] "N" [srcAlwaysErr, srcAlwaysN]
        (initSt ["N"])).processed "N" =
        some (MibStatus.failed (PyErr.raised "boom")) ∧
      (trySources [] "N" [srcAlwaysErr, srcAlwaysN]
        (initSt ["N"])).srcConsults = (initSt ["N"]).srcConsults ++ ["N", "N"] :=
  source_error_continues_with_later_sources [] "N" (PyErr.raised "boom")
    ⟨"N", "file:///mibs/N", "N.mib", 1⟩ [⟨"N", []⟩] srcAlwaysErr srcAlwaysN
    (initSt ["N"]) rfl rfl (by decide) rfl

/-! ## C7: memoization of the worklist loop -/

/-- Every successful fetch of a name parses a module whose canonical
declared name is exactly that name: the normal situation, in which no
module is requested under an alias differing from its canonical name. -/
def NoAlias (cfg : Config) : Prop :=
  ∀ src ∈ cfg.sources, ∀ n fi mods, src n = FetchResult.fetched fi mods →
    n ∈ mods.map ParsedModule.name

/-- A name is resolved once it is in the parsed set or the failed set:
the memoization check of the worklist loop. -/
def resolvedIn (st : St) (m : String) : Prop :=
  (dlookup st.parsedMibs m).isSome = true ∨
    (dlookup st.failedMibs m).isSome = true

theorem foldl_recordParsed_failed_lookup_ne (mn : List String) (n : String)
    (fi : FileInfo) (x : String) (hx : n ≠ x) :
    ∀ (mods : List ParsedModule) (st : St),
      dlookup (mods.foldl (recordParsed mn n fi) st).failedMibs x =
        dlookup st.failedMibs x := by
  intro mods
  induction mods with
  | nil => exact fun st => rfl
  | cons mod mrest ih =>
      intro st
      rw [List.foldl_cons, ih, recordParsed_failedMibs_eq,
        dlookup_ddel_ne _ _ _ (Ne.symm hx)]

/-- Resolvedness is monotone along the per-source loop when no fetch can
park a module under an alias. -/
theorem trySources_resolved_mono (mn : List String) (n : String)
    (srcs : List (String → FetchResult)) (st : St) (x : String)
    (hna : ∀ src ∈ srcs, ∀ n' fi mods,
      src n' = FetchResult.fetched fi mods → n' ∈ mods.map ParsedModule.name)
    (h : resolvedIn st x) :
    resolvedIn (trySources mn n srcs st) x := by
  induction srcs generalizing st with
  | nil =>
      rcases h with h | h
      · refine Or.inl ?_
        simp only [trySources]
        split <;> split <;> exact h
      · refine Or.inr ?_
        simp only [trySources]
        split <;> split <;>
          first
            | exact h
            | exact dlookup_isSome_dinsert_mono _ _ h
  | cons src rest ih =>
      have hna' : ∀ src ∈ rest, ∀ n' fi mods,
          src n' = FetchResult.fetched fi mods →
          n' ∈ mods.map ParsedModule.name :=
        fun s hs => hna s (List.mem_cons_of_mem _ hs)
      simp only [trySources]
      split
      · exact ih _ hna' h
      · refine ih _ hna' ?_
        rcases h with h | h
        · exact Or.inl h
        · exact Or.inr (dlookup_isSome_dinsert_mono _ _ h)
      · rename_i fi mods hsrc
        by_cases hxn : x = n
        · refine Or.inl ?_
          subst hxn
          exact foldl_recordParsed_parsed_self mn x fi x mods _
            (hna src (List.mem_cons_self _ _) x fi mods hsrc)
        · rcases h with h | h
          · exact Or.inl (foldl_recordParsed_parsed_isSome_mono mn n fi x
              mods _ h)
          · refine Or.inr ?_
            rw [foldl_recordParsed_failed_lookup_ne mn n fi x
              (fun he => hxn he.symm)]
            exact h

/-- After the per-source loop of its own pop, a name is always
resolved. -/
theorem trySources_resolves_self (mn : List String) (n : String)
    (srcs : List (String → FetchResult)) (st : St)
    (hna : ∀ src ∈ srcs, ∀ n' fi mods,
      src n' = FetchResult.fetched fi mods →
      n' ∈ mods.map ParsedModule.name) :
    resolvedIn (trySources mn n srcs st) n := by
  induction srcs generalizing st with
  | nil =>
      refine Or.inr ?_
      simp only [trySources]
      by_cases hf : (dlookup st.failedMibs n).isSome = true
      · rw [if_pos hf]
        split <;> exact hf
      · rw [if_neg hf]
        split <;> simp [dlookup_dinsert_self]
  | cons src rest ih =>
      have hna' : ∀ src ∈ rest, ∀ n' fi mods,
          src n' = FetchResult.fetched fi mods →
          n' ∈ mods.map ParsedModule.name :=
        fun s hs => hna s (List.mem_cons_of_mem _ hs)
      simp only [trySources]
      split
      · exact ih _ hna'
      · exact ih _ hna'
      · rename_i fi mods hsrc
        exact Or.inl (foldl_recordParsed_parsed_self mn n fi n mods _
          (hna src (List.mem_cons_self _ _) n fi mods hsrc))

theorem trySources_popLog (mn : List String) (n : String)
    (srcs : List (String → FetchResult)) (st : St) :
    (trySources mn n srcs st).popLog = st.popLog := by
  induction srcs generalizing st with
  | nil =>
      simp only [trySources]
      split <;> split <;> rfl
  | cons src rest ih =>
      simp only [trySources]
      split
      · exact ih _
      · exact ih _
      · exact foldl_preserves St.popLog _ (recordParsed_popLog mn n _) _ _

/-- The memoization invariant of the worklist loop: the processed-pop
log stays duplicate-free, every logged name being resolved at the time
it is logged and resolvedness being irrevocable. -/
theorem phaseA_popLog_invariant (cfg : Config) (mn : List String)
    (hna : NoAlias cfg) :
    ∀ (fuel : Nat) (st st' : St), phaseA cfg mn fuel st = some st' →
      st.popLog.Nodup → (∀ x ∈ st.popLog, resolvedIn st x) →
      st'.popLog.Nodup ∧ ∀ x ∈ st'.popLog, resolvedIn st' x := by
  intro fuel
  induction fuel with
  | zero =>
      intro st st' h hnd hres
      unfold phaseA at h
      rcases hw : st.mibsToParse with _ | ⟨n, rest⟩ <;> rw [hw] at h
      · simp at h
        exact h ▸ ⟨hnd, hres⟩
      · simp at h
  | succ fuel ih =>
      intro st st' h hnd hres
      unfold phaseA at h
      rcases hw : st.mibsToParse with _ | ⟨n, rest⟩ <;> rw [hw] at h
      · simp at h
        exact h ▸ ⟨hnd, hres⟩
      · simp only [] at h
        split at h
        · exact ih _ _ h hnd hres
        · split at h
          · exact ih _ _ h hnd hres
          · rename_i hnp hnf
            refine ih _ _ h ?_ ?_
            · rw [trySources_popLog]
              show (st.popLog ++ [n]).Nodup
              have hn_notin : n ∉ st.popLog := by
                intro hmem
                rcases hres n hmem with hr | hr
                · exact hnp hr
                · exact hnf hr
              simp [List.nodup_append, hnd, hn_notin]
            · intro x hx
              rw [trySources_popLog] at hx
              have hx' : x ∈ st.popLog ++ [n] := hx
              rw [List.mem_append, List.mem_singleton] at hx'
              rcases hx' with hx' | hx'
              · refine trySources_resolved_mono mn n cfg.sources _ x hna ?_
                rcases hres x hx' with hr | hr
                · exact Or.inl hr
                · exact Or.inr hr
              · subst hx'
                exact trySources_resolves_self mn x cfg.sources _ hna

/-- C7: per run, every reachable module name is fetched and parsed at
most once (the log of processed pops, which is exactly the set of names
for which the sources were consulted, contains no duplicates), and a
worklist pop whose name is already in the parsed set or the failed set
is a pure skip: it performs no fetch and changes nothing but the
worklist.  The `NoAlias` hypothesis excludes the alias situation in
which a fetched file declares a canonical name different from the
popped name (there the popped name never becomes resolved and can be
fetched again). -/
theorem reachable_names_fetched_at_most_once (cfg : Config)
    (mibnames : List String) (fuel : Nat) (stA : St)
    (hna : NoAlias cfg)
    (hA : phaseA cfg mibnames fuel (initSt mibnames) = some stA) :
    stA.popLog.Nodup ∧
      ∀ (f : Nat) (st : St) (n : String) (rest : List String),
        st.mibsToParse = n :: rest →
        ((dlookup st.parsedMibs n).isSome = true ∨
          (dlookup st.failedMibs n).isSome = true) →
        phaseA cfg mibnames (f + 1) st =
          phaseA cfg mibnames f { st with mibsToParse := rest } := by
  constructor
  · exact (phaseA_popLog_invariant cfg mibnames hna fuel _ _ hA
      List.nodup_nil (fun x hx => absurd hx (List.not_mem_nil x))).1
  · intro f st n rest hw hres
    conv_lhs => unfold phaseA
    rw [hw]
    rcases hres with hres | hres
    · simp [hres]
    · by_cases hp : (dlookup st.parsedMibs n).isSome = true <;>
        simp [hp, hres]

/-- The source of the C7 witness: a diamond of imports, module R
importing S and T, both of which import U. -/
def srcDiamond : String → FetchResult := fun n =>
  if n = "R" then
    FetchResult.fetched ⟨"R", "file:///mibs/R", "R.mib", 1⟩ [⟨"R", ["S", "T"]⟩]
  else if n = "S" then
    FetchResult.fetched ⟨"S", "file:///mibs/S", "S.mib", 1⟩ [⟨"S", ["U"]⟩]
  else if n = "T" then
    FetchResult.fetched ⟨"T", "file:///mibs/T", "T.mib", 1⟩ [⟨"T", ["U"]⟩]
  else if n = "U" then
    FetchResult.fetched ⟨"U", "file:///mibs/U", "U.mib", 1⟩ [⟨"U", []⟩]
  else FetchResult.notFound

/-- The configuration of the C7 witness. -/
def cfgDiamond : Config :=
  { sources := [srcDiamond]
    searchers := []
    borrowers := []
    codegen := fun _ => Except.ok ({}, "generated")
    writer := fun _ _ _ => none }

/-- `cfgDiamond` never parses a module under an alias. -/
theorem cfgDiamond_noAlias : NoAlias cfgDiamond := by
  intro src hsrc n fi mods h
  simp only [cfgDiamond, List.mem_singleton] at hsrc
  subst hsrc
  by_cases hR : n = "R"
  · rw [hR] at h ⊢
    rw [show srcDiamond "R" = FetchResult.fetched
        ⟨"R", "file:///mibs/R", "R.mib", 1⟩ [⟨"R", ["S", "T"]⟩] from rfl] at h
    cases h
    decide
  · by_cases hS : n = "S"
    · rw [hS] at h ⊢
      rw [show srcDiamond "S" = FetchResult.fetched
          ⟨"S", "file:///mibs/S", "S.mib", 1⟩ [⟨"S", ["U"]⟩] from rfl] at h
      cases h
      decide
    · by_cases hT : n = "T"
      · rw [hT] at h ⊢
        rw [show srcDiamond "T" = FetchResult.fetched
            ⟨"T", "file:///mibs/T", "T.mib", 1⟩ [⟨"T", ["U"]⟩] from rfl] at h
        cases h
        decide
      · by_cases hU : n = "U"
        · rw [hU] at h ⊢
          rw [show srcDiamond "U" = FetchResult.fetched
              ⟨"U", "file:///mibs/U", "U.mib", 1⟩ [⟨"U", []⟩] from rfl] at h
          cases h
          decide
        · rw [show srcDiamond n = FetchResult.notFound by
            simp [srcDiamond, hR, hS, hT, hU]] at h
          cases h

/-- Witness for C7 at a concrete input: in the diamond R → {S, T} → U
the module U is reachable along two paths and popped twice, but
processed only once. -/
theorem reachable_names_fetched_at_most_once_witness :
    ((phaseA cfgDiamond ["R"] 10 (initSt ["R"])).getD
        (initSt [])).popLog.Nodup ∧
      ∀ (f : Nat) (st : St) (n : String) (rest : List String),
        st.mibsToParse = n :: rest →
        ((dlookup st.parsedMibs n).isSome = true ∨
          (dlookup st.failedMibs n).isSome = true) →
        phaseA cfgDiamond ["R"] (f + 1) st =
          phaseA cfgDiamond ["R"] f { st with mibsToParse := rest } :=
  reachable_names_fetched_at_most_once cfgDiamond ["R"] 10
    ((phaseA cfgDiamond ["R"] 10 (initSt ["R"])).getD (initSt []))
    cfgDiamond_noAlias (by rfl)

/-- The source of the C7 counterexample: P imports S1 and S2, both of
which import AL, whose file declares the different canonical name CN. -/
def srcAliasDiamond : String → FetchResult := fun n =>
  if n = "P" then
    FetchResult.fetched ⟨"P", "file:///mibs/P", "P.mib", 1⟩
      [⟨"P", ["S1", "S2"]⟩]
  else if n = "S1" then
    FetchResult.fetched ⟨"S1", "file:///mibs/S1", "S1.mib", 1⟩ [⟨"S1", ["AL"]⟩]
  else if n = "S2" then
    FetchResult.fetched ⟨"S2", "file:///mibs/S2", "S2.mib", 1⟩ [⟨"S2", ["AL"]⟩]
  else if n = "AL" then
    FetchResult.fetched ⟨"AL", "file:///mibs/AL", "AL.mib", 1⟩ [⟨"CN", []⟩]
  else FetchResult.notFound

/-- The configuration of the C7 counterexample. -/
def cfgAliasDiamond : Config :=
  { sources := [srcAliasDiamond]
    searchers := []
    borrowers := []
    codegen := fun _ => Except.ok ({}, "generated")
    writer := fun _ _ _ => none }

/-- C7 counterexample: module AL is reachable via two distinct import
paths (through S1 and through S2) and is fetched and parsed *twice*: its
fetch is recorded in `parsedMibs` under the canonical name CN declared
in its file, so the memoization check never matches the name AL and the
second pop consults the sources again.  The processed-pop log — one
entry per pop for which sources were consulted — contains AL twice. -/
theorem reachable_name_fetched_twice_counterexample :
    ∃ st, phaseA cfgAliasDiamond ["P"] 10 (initSt ["P"]) = some st ∧
      st.popLog = ["P", "S1", "S2", "AL", "AL"] ∧
      st.srcConsults = ["P", "S1", "S2", "AL", "AL"] := by
  refine ⟨(phaseA cfgAliasDiamond ["P"] 10 (initSt ["P"])).getD (initSt []),
    by rfl, by decide, by decide⟩

/-! ## C8: a source that only reports not-found is invisible -/

/-- Forget the source-consultation trace: two states agreeing under
`stripConsults` are equal in every `compile`-visible component. -/
def stripConsults (st : St) : St := { st with srcConsults := [] }

theorem stripConsults_set (st : St) (c : List String) :
    stripConsults { st with srcConsults := c } = stripConsults st := rfl

theorem eq_set_consults_of_strip_eq {st st' : St}
    (h : stripConsults st = stripConsults st') :
    st' = { st with srcConsults := st'.srcConsults } := by
  have h1 := congrArg St.mibsToParse h
  have h2 := congrArg St.processed h
  have h3 := congrArg St.parsedMibs h
  have h4 := congrArg St.failedMibs h
  have h5 := congrArg St.borrowedMibs h
  have h6 := congrArg St.builtMibs h
  have h7 := congrArg St.canonicalMibNames h
  have h8 := congrArg St.popLog h
  have h9 := congrArg St.writerCalls h
  simp only [stripConsults] at h1 h2 h3 h4 h5 h6 h7 h8 h9
  cases st
  cases st'
  simp only at h1 h2 h3 h4 h5 h6 h7 h8 h9
  simp_all

theorem recordParsed_consults_comm (mn : List String) (n : String)
    (fi : FileInfo) (st : St) (mod : ParsedModule) (x : List String) :
    recordParsed mn n fi { st with srcConsults := x } mod =
      { recordParsed mn n fi st mod with srcConsults := x } := by
  simp only [recordParsed]
  split <;> rfl

theorem foldl_recordParsed_consults_comm (mn : List String) (n : String)
    (fi : FileInfo) :
    ∀ (mods : List ParsedModule) (st : St) (x : List String),
      mods.foldl (recordParsed mn n fi) { st with srcConsults := x } =
        { mods.foldl (recordParsed mn n fi) st with srcConsults := x } := by
  intro mods
  induction mods with
  | nil => exact fun st x => rfl
  | cons mod mrest ih =>
      intro st x
      rw [List.foldl_cons, List.foldl_cons, recordParsed_consults_comm, ih]

/-- The per-source loop's result does not depend on the trace already
accumulated. -/
theorem trySources_stripConsults (mn : List String) (n : String) :
    ∀ (srcs : List (String → FetchResult)) (st : St) (x : List String),
      stripConsults (trySources mn n srcs { st with srcConsults := x }) =
        stripConsults (trySources mn n srcs st) := by
  intro srcs
  induction srcs with
  | nil =>
      intro st x
      simp only [trySources]
      split <;> split <;> rfl
  | cons src rest ih =>
      intro st x
      simp only [trySources]
      split
      · exact (ih st (x ++ [n])).trans (ih st (st.srcConsults ++ [n])).symm
      · rename_i e heq
        exact (ih { st with
            failedMibs := dinsert st.failedMibs n e
            processed := dinsert st.processed n (MibStatus.failed e) }
            (x ++ [n])).trans
          (ih { st with
            failedMibs := dinsert st.failedMibs n e
            processed := dinsert st.processed n (MibStatus.failed e) }
            (st.srcConsults ++ [n])).symm
      · rename_i fi mods heq
        show stripConsults (mods.foldl (recordParsed mn n fi)
            { st with srcConsults := x ++ [n] }) =
          stripConsults (mods.foldl (recordParsed mn n fi)
            { st with srcConsults := st.srcConsults ++ [n] })
        rw [foldl_recordParsed_consults_comm mn n fi mods st (x ++ [n]),
          foldl_recordParsed_consults_comm mn n fi mods st
            (st.srcConsults ++ [n])]
        rfl

/-- Prepending a source is one extra consultation before the remaining
sources run: when that source reports not-found, the rest of the loop is
unchanged. -/
theorem trySources_prepend_notFound (mn : List String) (n : String)
    (s0 : String → FetchResult) (srcs : List (String → FetchResult))
    (st : St) (h0 : s0 n = FetchResult.notFound) :
    trySources mn n (s0 :: srcs) st =
      trySources mn n srcs { st with srcConsults := st.srcConsults ++ [n] } := by
  simp only [trySources]
  rw [h0]

/-- The relation version: strip-equal inputs give strip-equal per-source
loop results. -/
theorem trySources_strip_congr (mn : List String) (n : String)
    (srcs : List (String → FetchResult)) {st st' : St}
    (h : stripConsults st = stripConsults st') :
    stripConsults (trySources mn n srcs st) =
      stripConsults (trySources mn n srcs st') := by
  have hset := eq_set_consults_of_strip_eq h
  rw [hset]
  exact (trySources_stripConsults mn n srcs st st'.srcConsults).symm

/-- The worklist loop of Phase A ignores the consultation trace and, up
to that trace, a prepended source that reports not-found for every name
changes nothing. -/
theorem phaseA_prepend_notFound (cfg : Config) (mn : List String)
    (s0 : String → FetchResult) (h0 : ∀ x, s0 x = FetchResult.notFound) :
    ∀ (fuel : Nat) (st st' : St), stripConsults st = stripConsults st' →
      (phaseA { cfg with sources := s0 :: cfg.sources } mn fuel st).map
          stripConsults =
        (phaseA cfg mn fuel st').map stripConsults := by
  intro fuel
  induction fuel with
  | zero =>
      intro st st' h
      have hw0 := congrArg St.mibsToParse h
      have hw : st.mibsToParse = st'.mibsToParse := hw0
      unfold phaseA
      rcases hcase : st.mibsToParse with _ | ⟨n, rest⟩
      · rw [hcase] at hw
        rw [← hw]
        simp [h]
      · rw [hcase] at hw
        rw [← hw]
  | succ fuel ih =>
      intro st st' h
      have hset := eq_set_consults_of_strip_eq h
      have hw0 := congrArg St.mibsToParse h
      have hw : st.mibsToParse = st'.mibsToParse := hw0
      unfold phaseA
      rcases hcase : st.mibsToParse with _ | ⟨n, rest⟩
      · rw [hcase] at hw
        rw [← hw]
        simp [h]
      · rw [hcase] at hw
        rw [← hw]
        have hp : st'.parsedMibs = st.parsedMibs := by rw [hset]
        have hf : st'.failedMibs = st.failedMibs := by rw [hset]
        simp only [hp, hf]
        by_cases h1 : (dlookup st.parsedMibs n).isSome = true
        · rw [if_pos h1, if_pos h1]
          refine ih _ _ ?_
          rw [hset]
          rfl
        · rw [if_neg h1, if_neg h1]
          by_cases h2 : (dlookup st.failedMibs n).isSome = true
          · rw [if_pos h2, if_pos h2]
            refine ih _ _ ?_
            rw [hset]
            rfl
          · rw [if_neg h2, if_neg h2]
            refine ih _ _ ?_
            rw [trySources_prepend_notFound mn n s0 cfg.sources _ (h0 n)]
            refine (trySources_stripConsults mn n cfg.sources
              { st with mibsToParse := rest, popLog := st.popLog ++ [n] }
              _).trans ?_
            refine trySources_strip_congr mn n cfg.sources ?_
            rw [hset]
            rfl

/-- A fold commutes with presetting the consultation trace when each of
its steps does. -/
theorem foldl_consults_comm {β : Type} (step : St → β → St)
    (hstep : ∀ st e x, step { st with srcConsults := x } e =
      { step st e with srcConsults := x }) :
    ∀ (l : List β) (st : St) (x : List String),
      l.foldl step { st with srcConsults := x } =
        { l.foldl step st with srcConsults := x } := by
  intro l
  induction l with
  | nil => exact fun st x => rfl
  | cons e rest ih =>
      intro st x
      rw [List.foldl_cons, List.foldl_cons, hstep, ih]

theorem phaseBstep_consults_comm (cfg : Config) (opts : CompileOptions)
    (st : St) (e : String × (FileInfo × ParsedModule)) (x : List String) :
    phaseBstep cfg opts { st with srcConsults := x } e =
      { phaseBstep cfg opts st e with srcConsults := x } := by
  simp only [phaseBstep]
  split
  · rfl
  · split <;> rfl

theorem phaseCstep_consults_comm (cfg : Config) (st : St)
    (e : String × (FileInfo × ParsedModule)) (x : List String) :
    phaseCstep cfg { st with srcConsults := x } e =
      { phaseCstep cfg st e with srcConsults := x } := by
  simp only [phaseCstep]
  split <;> rfl

theorem tryBorrowers_consults_comm (g : Bool) (n : String)
    (bs : List (String → Bool → Option (FileInfo × String))) :
    ∀ (st : St) (x : List String),
      tryBorrowers g n bs { st with srcConsults := x } =
        { tryBorrowers g n bs st with srcConsults := x } := by
  induction bs with
  | nil => exact fun st x => rfl
  | cons b rest ih =>
      intro st x
      simp only [tryBorrowers]
      split <;> first | rfl | exact ih st x

theorem phaseDstep_consults_comm (cfg : Config) (opts : CompileOptions)
    (st : St) (e : String × PyErr) (x : List String) :
    phaseDstep cfg opts { st with srcConsults := x } e =
      { phaseDstep cfg opts st e with srcConsults := x } := by
  simp only [phaseDstep]
  split
  · rfl
  · exact tryBorrowers_consults_comm _ _ _ st x

theorem phaseEstep_consults_comm (cfg : Config) (opts : CompileOptions)
    (st : St) (e : String × (FileInfo × String)) (x : List String) :
    phaseEstep cfg opts { st with srcConsults := x } e =
      { phaseEstep cfg opts st e with srcConsults := x } := by
  simp only [phaseEstep]
  split
  · rfl
  · split <;> rfl

theorem storeSuccess_consults_comm (n : String) (fi : FileInfo)
    (bd : BuiltData) (st : St) (x : List String) :
    storeSuccess n fi bd { st with srcConsults := x } =
      { storeSuccess n fi bd st with srcConsults := x } := by
  simp only [storeSuccess]
  split
  · rfl
  · split <;> rfl

theorem storeStep_consults_comm (cfg : Config) (opts : CompileOptions)
    (st : St) (e : String × (FileInfo × BuiltData)) (x : List String) :
    storeStep cfg opts { st with srcConsults := x } e =
      { storeStep cfg opts st e with srcConsults := x } := by
  simp only [storeStep]
  split
  · split
    · rfl
    · exact storeSuccess_consults_comm e.1 e.2.1 e.2.2
        { st with writerCalls := st.writerCalls ++ [e.1] } x
  · exact storeSuccess_consults_comm e.1 e.2.1 e.2.2 st x

theorem phaseB_consults_comm (cfg : Config) (opts : CompileOptions)
    (st : St) (x : List String) :
    phaseB cfg opts { st with srcConsults := x } =
      { phaseB cfg opts st with srcConsults := x } := by
  show ({ st with srcConsults := x } : St).parsedMibs.foldl
      (phaseBstep cfg opts) { st with srcConsults := x } =
    { st.parsedMibs.foldl (phaseBstep cfg opts) st with srcConsults := x }
  exact foldl_consults_comm _ (phaseBstep_consults_comm cfg opts) _ st x

theorem phaseC_consults_comm (cfg : Config) (st : St) (x : List String) :
    phaseC cfg { st with srcConsults := x } =
      { phaseC cfg st with srcConsults := x } := by
  show ({ st with srcConsults := x } : St).parsedMibs.foldl
      (phaseCstep cfg) { st with srcConsults := x } =
    { st.parsedMibs.foldl (phaseCstep cfg) st with srcConsults := x }
  exact foldl_consults_comm _ (phaseCstep_consults_comm cfg) _ st x

theorem phaseD_consults_comm (cfg : Config) (opts : CompileOptions)
    (st : St) (x : List String) :
    phaseD cfg opts { st with srcConsults := x } =
      { phaseD cfg opts st with srcConsults := x } := by
  show ({ st with srcConsults := x } : St).failedMibs.foldl
      (phaseDstep cfg opts) { st with srcConsults := x } =
    { st.failedMibs.foldl (phaseDstep cfg opts) st with srcConsults := x }
  exact foldl_consults_comm _ (phaseDstep_consults_comm cfg opts) _ st x

theorem phaseE_consults_comm (cfg : Config) (opts : CompileOptions)
    (st : St) (x : List String) :
    phaseE cfg opts { st with srcConsults := x } =
      { phaseE cfg opts st with srcConsults := x } := by
  show ({ st with srcConsults := x } : St).borrowedMibs.foldl
      (phaseEstep cfg opts) { st with srcConsults := x } =
    { st.borrowedMibs.foldl (phaseEstep cfg opts) st with srcConsults := x }
  exact foldl_consults_comm _ (phaseEstep_consults_comm cfg opts) _ st x

theorem pipelineBCDE_consults_comm (cfg : Config) (opts : CompileOptions)
    (st : St) (x : List String) :
    pipelineBCDE cfg opts { st with srcConsults := x } =
      { pipelineBCDE cfg opts st with srcConsults := x } := by
  unfold pipelineBCDE
  rw [phaseB_consults_comm, phaseC_consults_comm, phaseD_consults_comm,
    phaseE_consults_comm]

theorem finalize_consults_comm (cfg : Config) (opts : CompileOptions)
    (st : St) (x : List String) :
    finalize cfg opts { st with srcConsults := x } =
      { finalize cfg opts st with srcConsults := x } := by
  unfold finalize
  split
  · rfl
  ·
    show ({ st with srcConsults := x } : St).builtMibs.foldl
        (storeStep cfg opts) { st with srcConsults := x } =
      { st.builtMibs.foldl (storeStep cfg opts) st with srcConsults := x }
    exact foldl_consults_comm _ (storeStep_consults_comm cfg opts) _ st x

/-- C8: prepending a source that reports not-found for every name
changes nothing in the outcome mapping `compile` returns. -/
theorem notFound_source_is_invisible (cfg : Config)
    (opts : CompileOptions) (mibnames : List String) (fuel : Nat)
    (s0 : String → FetchResult)
    (h0 : ∀ x, s0 x = FetchResult.notFound) :
    compileRun { cfg with sources := s0 :: cfg.sources } opts mibnames fuel =
      compileRun cfg opts mibnames fuel := by
  have hA := phaseA_prepend_notFound cfg mibnames s0 h0 fuel
    (initSt mibnames) (initSt mibnames) rfl
  unfold compileRun compileSt
  rcases h1 : phaseA { cfg with sources := s0 :: cfg.sources } mibnames fuel
      (initSt mibnames) with _ | stA' <;>
    rcases h2 : phaseA cfg mibnames fuel (initSt mibnames) with _ | stA <;>
    rw [h1, h2] at hA
  · simp
  · simp at hA
  · simp at hA
  · simp only [Option.map_some', Option.some.injEq] at hA
    simp only [Option.map_some', Option.some.injEq]
    have hcfg : finalize { cfg with sources := s0 :: cfg.sources } opts
        (pipelineBCDE { cfg with sources := s0 :: cfg.sources } opts stA') =
        finalize cfg opts (pipelineBCDE cfg opts stA') := rfl
    rw [hcfg]
    have hset : stA' = { stA with srcConsults := stA'.srcConsults } :=
      eq_set_consults_of_strip_eq hA.symm
    rw [hset, pipelineBCDE_consults_comm, finalize_consults_comm]

/-- The configuration of the C8 witness: one source providing module V. -/
def cfgOneSource : Config :=
  { sources :=
      [fun n =>
        if n = "V-MIB" then
          FetchResult.fetched ⟨"V-MIB", "file:///mibs/V", "V.mib", 2⟩
            [⟨"V-MIB", []⟩]
        else FetchResult.notFound]
    searchers := []
    borrowers := []
    codegen := fun _ => Except.ok ({}, "vcode")
    writer := fun _ _ _ => none }

/-- Witness for C8 at a concrete input. -/
theorem notFound_source_is_invisible_witness :
    compileRun
        { cfgOneSource with
          sources := (fun _ => FetchResult.notFound) :: cfgOneSource.sources }
        {} ["V-MIB"] 3 =
      compileRun cfgOneSource {} ["V-MIB"] 3 :=
  notFound_source_is_invisible cfgOneSource {} ["V-MIB"] 3
    (fun _ => FetchResult.notFound) (fun _ => rfl)

/-! ## C2: coverage of the outcome mapping -/

/-- Resolvedness is irrevocable across the whole worklist loop. -/
theorem phaseA_resolved_mono (cfg : Config) (mn : List String)
    (hna : NoAlias cfg) :
    ∀ (fuel : Nat) (st st' : St), phaseA cfg mn fuel st = some st' →
      ∀ m, resolvedIn st m → resolvedIn st' m := by
  intro fuel
  induction fuel with
  | zero =>
      intro st st' h m hm
      unfold phaseA at h
      rcases hw : st.mibsToParse with _ | ⟨n, rest⟩ <;> rw [hw] at h
      · simp at h
        exact h ▸ hm
      · simp at h
  | succ fuel ih =>
      intro st st' h m hm
      unfold phaseA at h
      rcases hw : st.mibsToParse with _ | ⟨n, rest⟩ <;> rw [hw] at h
      · simp at h
        exact h ▸ hm
      · simp only [] at h
        split at h
        · exact ih _ _ h m hm
        · split at h
          · exact ih _ _ h m hm
          · exact ih _ _ h m
              (trySources_resolved_mono mn n cfg.sources _ m hna hm)

/-- Every name in the worklist at any point of Phase A is resolved when
the loop finishes. -/
theorem phaseA_worklist_resolved (cfg : Config) (mn : List String)
    (hna : NoAlias cfg) :
    ∀ (fuel : Nat) (st st' : St), phaseA cfg mn fuel st = some st' →
      ∀ m ∈ st.mibsToParse, resolvedIn st' m := by
  intro fuel
  induction fuel with
  | zero =>
      intro st st' h m hm
      unfold phaseA at h
      rcases hw : st.mibsToParse with _ | ⟨n, rest⟩ <;> rw [hw] at h
      · rw [hw] at hm
        simp at hm
      · simp at h
  | succ fuel ih =>
      intro st st' h m hm
      unfold phaseA at h
      rcases hw : st.mibsToParse with _ | ⟨n, rest⟩ <;> rw [hw] at h
      · rw [hw] at hm
        simp at hm
      · rw [hw, List.mem_cons] at hm
        simp only [] at h
        split at h
        · rename_i hparsed
          rcases hm with hm | hm
          · subst hm
            exact phaseA_resolved_mono cfg mn hna _ _ _ h m (Or.inl hparsed)
          · exact ih _ _ h m hm
        · split at h
          · rename_i hfailed
            rcases hm with hm | hm
            · subst hm
              exact phaseA_resolved_mono cfg mn hna _ _ _ h m
                (Or.inr hfailed)
            · exact ih _ _ h m hm
          · rcases hm with hm | hm
            · subst hm
              exact phaseA_resolved_mono cfg mn hna _ _ _ h m
                (trySources_resolves_self mn m cfg.sources _ hna)
            · refine ih _ _ h m ?_
              obtain ⟨l, hl⟩ := trySources_worklist mn n cfg.sources
                { st with mibsToParse := rest, popLog := st.popLog ++ [n] }
              rw [hl]
              exact List.mem_append_left _ hm

theorem dlookup_isSome_ddel_le {α : Type} {d : List (String × α)}
    {k x : String} (h : (dlookup (ddel d k) x).isSome = true) :
    (dlookup d x).isSome = true := by
  rw [dlookup_isSome_iff_mem_dkeys] at h ⊢
  exact (dkeys_ddel_sublist d k).subset h

/-- A `failedMibs` entry surviving the per-fetch loop existed before
it. -/
theorem foldl_recordParsed_failed_isSome_le (mn : List String) (n : String)
    (fi : FileInfo) (y : String) :
    ∀ (mods : List ParsedModule) (st : St),
      (dlookup (mods.foldl (recordParsed mn n fi) st).failedMibs y).isSome =
        true →
      (dlookup st.failedMibs y).isSome = true := by
  intro mods
  induction mods with
  | nil => exact fun st h => h
  | cons mod mrest ih =>
      intro st h
      rw [List.foldl_cons] at h
      have h2 := ih _ h
      rw [recordParsed_failedMibs_eq] at h2
      exact dlookup_isSome_ddel_le h2

/-- Whatever is in `failedMibs` has a status in `processed`: invariant
of the worklist loop. -/
def failedCovered (st : St) : Prop :=
  ∀ x, (dlookup st.failedMibs x).isSome = true →
    (dlookup st.processed x).isSome = true

theorem trySources_failedCovered (mn : List String) (n : String)
    (srcs : List (String → FetchResult)) (st : St)
    (h : failedCovered st) : failedCovered (trySources mn n srcs st) := by
  induction srcs generalizing st with
  | nil =>
      intro x hx
      simp only [trySources] at hx ⊢
      by_cases hf : (dlookup st.failedMibs n).isSome = true
      · rw [if_pos hf] at hx ⊢
        by_cases hpr : (dlookup st.processed n).isSome = true
        · rw [if_pos hpr] at hx ⊢
          exact h x hx
        · rw [if_neg hpr] at hx ⊢
          exact dlookup_isSome_dinsert_mono _ _ (h x hx)
      · rw [if_neg hf] at hx ⊢
        have hproj : (({ st with failedMibs := dinsert st.failedMibs n (PyErr.noSourceFound n) } : St)).processed = st.processed := rfl
        rw [hproj] at hx ⊢
        by_cases hpr : (dlookup st.processed n).isSome = true
        · rw [if_pos hpr] at hx ⊢
          by_cases hxn : x = n
          · subst hxn
            exact hpr
          · have hx2 : (dlookup (dinsert st.failedMibs n
                (PyErr.noSourceFound n)) x).isSome = true := hx
            rw [dlookup_dinsert_ne _ _ _ _ hxn] at hx2
            exact h x hx2
        · rw [if_neg hpr] at hx ⊢
          by_cases hxn : x = n
          · subst hxn
            show (dlookup (dinsert st.processed x MibStatus.missing)
              x).isSome = true
            simp [dlookup_dinsert_self]
          · have hx2 : (dlookup (dinsert st.failedMibs n
                (PyErr.noSourceFound n)) x).isSome = true := hx
            rw [dlookup_dinsert_ne _ _ _ _ hxn] at hx2
            show (dlookup (dinsert st.processed n MibStatus.missing)
              x).isSome = true
            rw [dlookup_dinsert_ne _ _ _ _ hxn]
            exact h x hx2
  | cons src rest ih =>
      have hstep : failedCovered { st with srcConsults := st.srcConsults ++ [n] } := h
      simp only [trySources]
      split
      · exact ih _ hstep
      · rename_i e heq
        refine ih _ ?_
        intro y hy
        by_cases hyn : y = n
        · subst hyn
          show (dlookup (dinsert st.processed y (MibStatus.failed e)) y).isSome
            = true
          simp [dlookup_dinsert_self]
        · show (dlookup (dinsert st.processed n (MibStatus.failed e)) y).isSome
            = true
          rw [dlookup_dinsert_ne _ _ _ _ hyn]
          refine h y ?_
          have hy' : (dlookup (dinsert st.failedMibs n e) y).isSome = true := hy
          rwa [dlookup_dinsert_ne _ _ _ _ hyn] at hy'
      · rename_i fi mods heq
        intro y hy
        have hfle := foldl_recordParsed_failed_isSome_le mn n fi y mods
          { st with srcConsults := st.srcConsults ++ [n] } hy
        have hpr2 := foldl_preserves St.processed (recordParsed mn n fi)
          (recordParsed_processed mn n fi) mods
          { st with srcConsults := st.srcConsults ++ [n] }
        show (dlookup (mods.foldl (recordParsed mn n fi)
          { st with srcConsults := st.srcConsults ++ [n] }).processed
          y).isSome = true
        rw [hpr2]
        exact h y hfle

/-- The worklist loop maintains `failedCovered`. -/
theorem phaseA_failedCovered (cfg : Config) (mn : List String) :
    ∀ (fuel : Nat) (st st' : St), phaseA cfg mn fuel st = some st' →
      failedCovered st → failedCovered st' := by
  intro fuel
  induction fuel with
  | zero =>
      intro st st' h hc
      unfold phaseA at h
      rcases hw : st.mibsToParse with _ | ⟨n, rest⟩ <;> rw [hw] at h
      · simp at h
        exact h ▸ hc
      · simp at h
  | succ fuel ih =>
      intro st st' h hc
      unfold phaseA at h
      rcases hw : st.mibsToParse with _ | ⟨n, rest⟩ <;> rw [hw] at h
      · simp at h
        exact h ▸ hc
      · simp only [] at h
        split at h
        · exact ih _ _ h hc
        · split at h
          · exact ih _ _ h hc
          · exact ih _ _ h
              (trySources_failedCovered mn n cfg.sources _ hc)

/-- A fold preserves any property each of its steps preserves. -/
theorem foldl_pred_preserved {β : Type} (P : St → Prop) (step : St → β → St)
    (hstep : ∀ st e, P st → P (step st e)) :
    ∀ (l : List β) (st : St), P st → P (l.foldl step st) := by
  intro l
  induction l with
  | nil => exact fun st h => h
  | cons e rest ih =>
      intro st h
      rw [List.foldl_cons]
      exact ih _ (hstep st e h)

/-- Tracking "parsed or reported": preserved by the freshness check. -/
theorem phaseBstep_tracked (cfg : Config) (opts : CompileOptions)
    (m : String) (st : St) (e : String × (FileInfo × ParsedModule))
    (h : (dlookup st.parsedMibs m).isSome = true ∨
      (dlookup st.processed m).isSome = true) :
    (dlookup (phaseBstep cfg opts st e).parsedMibs m).isSome = true ∨
      (dlookup (phaseBstep cfg opts st e).processed m).isSome = true := by
  by_cases hem : e.1 = m
  · subst hem
    unfold phaseBstep
    split
    · exact Or.inr (by simp [dlookup_dinsert_self])
    · split
      · exact Or.inr (by simp [dlookup_dinsert_self])
      · exact h
  · rcases h with h | h
    · refine Or.inl ?_
      rwa [phaseBstep_dlookup_parsed_ne cfg opts st e m hem]
    · refine Or.inr ?_
      rwa [phaseBstep_dlookup_processed_ne cfg opts st e m hem]

/-- In the code-generation phase, a key of the snapshot always ends up
built or reported. -/
theorem phaseCstep_covers_self (cfg : Config) (st : St)
    (e : String × (FileInfo × ParsedModule)) :
    (dlookup (phaseCstep cfg st e).builtMibs e.1).isSome = true ∨
      (dlookup (phaseCstep cfg st e).processed e.1).isSome = true := by
  unfold phaseCstep
  split
  · exact Or.inl (by simp [dlookup_dinsert_self])
  · exact Or.inr (by simp [dlookup_dinsert_self])

theorem phaseCstep_tracked_mono (cfg : Config) (m : String) (st : St)
    (e : String × (FileInfo × ParsedModule))
    (h : (dlookup st.builtMibs m).isSome = true ∨
      (dlookup st.processed m).isSome = true) :
    (dlookup (phaseCstep cfg st e).builtMibs m).isSome = true ∨
      (dlookup (phaseCstep cfg st e).processed m).isSome = true := by
  unfold phaseCstep
  rcases h with h | h
  · refine Or.inl ?_
    split
    · exact dlookup_isSome_dinsert_mono _ _ h
    · exact h
  · refine Or.inr ?_
    split
    · exact h
    · exact dlookup_isSome_dinsert_mono _ _ h

theorem foldl_phaseC_tracked_mono (cfg : Config) (m : String) :
    ∀ (l : List (String × (FileInfo × ParsedModule))) (st : St),
      (dlookup st.builtMibs m).isSome = true ∨
        (dlookup st.processed m).isSome = true →
      (dlookup (l.foldl (phaseCstep cfg) st).builtMibs m).isSome = true ∨
        (dlookup (l.foldl (phaseCstep cfg) st).processed m).isSome = true := by
  intro l
  induction l with
  | nil => exact fun st h => h
  | cons e rest ih =>
      intro st h
      rw [List.foldl_cons]
      exact ih _ (phaseCstep_tracked_mono cfg m st e h)

theorem foldl_phaseC_covers_mem (cfg : Config) (m : String) :
    ∀ (l : List (String × (FileInfo × ParsedModule))) (st : St),
      m ∈ dkeys l →
      (dlookup (l.foldl (phaseCstep cfg) st).builtMibs m).isSome = true ∨
        (dlookup (l.foldl (phaseCstep cfg) st).processed m).isSome = true := by
  intro l
  induction l with
  | nil => intro st h; simp at h
  | cons e rest ih =>
      intro st h
      rw [List.foldl_cons]
      by_cases hm : m ∈ dkeys rest
      · exact ih _ hm
      · have hem : m = e.1 := by
          rw [dkeys_cons, List.mem_cons] at h
          tauto
        subst hem
        exact foldl_phaseC_tracked_mono cfg e.1 rest _
          (phaseCstep_covers_self cfg st e)

theorem phaseEstep_tracked_mono (cfg : Config) (opts : CompileOptions)
    (m : String) (st : St) (e : String × (FileInfo × String))
    (h : (dlookup st.builtMibs m).isSome = true ∨
      (dlookup st.processed m).isSome = true) :
    (dlookup (phaseEstep cfg opts st e).builtMibs m).isSome = true ∨
      (dlookup (phaseEstep cfg opts st e).processed m).isSome = true := by
  unfold phaseEstep
  rcases h with h | h
  · refine Or.inl ?_
    split
    · exact h
    · split
      · exact h
      · exact dlookup_isSome_dinsert_mono _ _ h
  · refine Or.inr ?_
    split
    · exact dlookup_isSome_dinsert_mono _ _ h
    · split <;> exact dlookup_isSome_dinsert_mono _ _ h

theorem dlookup_markUnprocessed_isSome_mono
    (built : List (String × (FileInfo × BuiltData)))
    (p : List (String × MibStatus)) (m : String)
    (h : (dlookup p m).isSome = true) :
    (dlookup (markUnprocessed built p) m).isSome = true := by
  induction built generalizing p with
  | nil => exact h
  | cons e rest ih =>
      unfold markUnprocessed
      rw [List.foldl_cons]
      exact ih _ (dlookup_isSome_dinsert_mono _ _ h)

/-- A name that is built or reported before the final decision point has
a status in the returned mapping. -/
theorem finalize_covers (cfg : Config) (opts : CompileOptions) (st : St)
    (m : String)
    (h : (dlookup st.builtMibs m).isSome = true ∨
      (dlookup st.processed m).isSome = true) :
    (dlookup (finalize cfg opts st).processed m).isSome = true := by
  unfold finalize
  split
  · rcases h with h | h
    · show (dlookup (markUnprocessed st.builtMibs st.processed) m).isSome = true
      rw [dlookup_markUnprocessed_of_mem _ _ m
        ((dlookup_isSome_iff_mem_dkeys _ _).1 h)]
      rfl
    · exact dlookup_markUnprocessed_isSome_mono _ _ m h
  · rcases h with h | h
    · rcases hv : dlookup st.builtMibs m with _ | v
      · rw [hv] at h
        simp at h
      · exact foldl_store_isSome_cover cfg opts st.builtMibs st (m, v)
          (mem_of_dlookup_eq_some hv)
    · exact foldl_store_isSome_mono cfg opts _ _ m h

/-- A name resolved after Phase A (with `failedMibs` covered by
`processed`) has a status in the mapping `compile` returns. -/
theorem resolved_covered (cfg : Config) (opts : CompileOptions) (stA : St)
    (m : String) (hres : resolvedIn stA m) (hcov : failedCovered stA) :
    (dlookup (finalize cfg opts (pipelineBCDE cfg opts stA)).processed
      m).isSome = true := by
  have h0 : (dlookup stA.parsedMibs m).isSome = true ∨
      (dlookup stA.processed m).isSome = true := by
    rcases hres with h | h
    · exact Or.inl h
    · exact Or.inr (hcov m h)
  have hB : (dlookup (phaseB cfg opts stA).parsedMibs m).isSome = true ∨
      (dlookup (phaseB cfg opts stA).processed m).isSome = true :=
    foldl_pred_preserved
      (fun st => (dlookup st.parsedMibs m).isSome = true ∨
        (dlookup st.processed m).isSome = true)
      (phaseBstep cfg opts)
      (fun st e hp => phaseBstep_tracked cfg opts m st e hp)
      stA.parsedMibs stA h0
  set stB := phaseB cfg opts stA with hstB
  have hC : (dlookup (phaseC cfg stB).builtMibs m).isSome = true ∨
      (dlookup (phaseC cfg stB).processed m).isSome = true := by
    rcases hB with h | h
    · exact foldl_phaseC_covers_mem cfg m stB.parsedMibs stB
        ((dlookup_isSome_iff_mem_dkeys _ _).1 h)
    · exact foldl_phaseC_tracked_mono cfg m stB.parsedMibs stB (Or.inr h)
  set stC := phaseC cfg stB with hstC
  have hDbuilt : (phaseD cfg opts stC).builtMibs = stC.builtMibs :=
    foldl_preserves St.builtMibs _ (phaseDstep_builtMibs cfg opts) _ _
  have hDproc : (phaseD cfg opts stC).processed = stC.processed :=
    foldl_preserves St.processed _ (phaseDstep_processed cfg opts) _ _
  set stD := phaseD cfg opts stC with hstD
  have hD : (dlookup stD.builtMibs m).isSome = true ∨
      (dlookup stD.processed m).isSome = true := by
    rw [hstD, hDbuilt, hDproc]
    exact hC
  have hE : (dlookup (phaseE cfg opts stD).builtMibs m).isSome = true ∨
      (dlookup (phaseE cfg opts stD).processed m).isSome = true :=
    foldl_pred_preserved
      (fun st => (dlookup st.builtMibs m).isSome = true ∨
        (dlookup st.processed m).isSome = true)
      (phaseEstep cfg opts)
      (fun st e hp => phaseEstep_tracked_mono cfg opts m st e hp)
      stD.borrowedMibs stD hD
  exact finalize_covers cfg opts _ m hE

/-! ### The imports invariant of Phase A -/

theorem mem_dinsert {α : Type} {d : List (String × α)} {k : String}
    {v : α} {e : String × α} (h : e ∈ dinsert d k v) :
    e ∈ d ∨ e = (k, v) := by
  induction d with
  | nil =>
      simp [dinsert] at h
      exact Or.inr h
  | cons e0 rest ih =>
      by_cases h0 : e0.1 = k
      · rw [show dinsert (e0 :: rest) k v = (e0.1, v) :: rest by
          simp [dinsert, h0]] at h
        rcases List.mem_cons.1 h with h | h
        · rw [h, h0]
          exact Or.inr rfl
        · exact Or.inl (List.mem_cons_of_mem _ h)
      · rw [show dinsert (e0 :: rest) k v = e0 :: dinsert rest k v by
          simp [dinsert, h0]] at h
        rcases List.mem_cons.1 h with h | h
        · exact Or.inl (h ▸ List.mem_cons_self _ _)
        · rcases ih h with h | h
          · exact Or.inl (List.mem_cons_of_mem _ h)
          · exact Or.inr h

theorem recordParsed_parsedMibs_eq (mn : List String) (n : String)
    (fi : FileInfo) (st : St) (mod : ParsedModule) :
    (recordParsed mn n fi st mod).parsedMibs =
      dinsert st.parsedMibs mod.name (fi, mod) := by
  simp only [recordParsed]
  split <;> rfl

theorem recordParsed_mibsToParse_eq (mn : List String) (n : String)
    (fi : FileInfo) (st : St) (mod : ParsedModule) :
    (recordParsed mn n fi st mod).mibsToParse =
      st.mibsToParse ++ mod.imported := by
  simp only [recordParsed]
  split <;> rfl

/-- The justification a parsed entry's import can have while the
per-source loop for popped name `n` is running: still in the worklist,
already parsed, failed (other than `n`, whose failure entry the loop may
clear), or `n` itself (always resolved once the loop finishes). -/
def importsTracked (st : St) (n : String) : Prop :=
  ∀ e ∈ st.parsedMibs, ∀ i ∈ e.2.2.imported,
    i ∈ st.mibsToParse ∨ (dlookup st.parsedMibs i).isSome = true ∨
      ((dlookup st.failedMibs i).isSome = true ∧ i ≠ n) ∨ i = n

/-- Every parsed entry's import is still queued or already resolved. -/
def importsOK (st : St) : Prop :=
  ∀ e ∈ st.parsedMibs, ∀ i ∈ e.2.2.imported,
    i ∈ st.mibsToParse ∨ resolvedIn st i

theorem recordParsed_importsTracked (mn : List String) (n : String)
    (fi : FileInfo) (st : St) (mod : ParsedModule)
    (h : importsTracked st n) :
    importsTracked (recordParsed mn n fi st mod) n := by
  intro e he i hi
  rw [recordParsed_parsedMibs_eq] at he
  rw [recordParsed_parsedMibs_eq, recordParsed_mibsToParse_eq,
    recordParsed_failedMibs_eq]
  rcases mem_dinsert he with he | he
  · rcases h e he i hi with hj | hj | hj | hj
    · exact Or.inl (List.mem_append_left _ hj)
    · exact Or.inr (Or.inl (dlookup_isSome_dinsert_mono _ _ hj))
    · refine Or.inr (Or.inr (Or.inl ⟨?_, hj.2⟩))
      rw [dlookup_ddel_ne _ _ _ hj.2]
      exact hj.1
    · exact Or.inr (Or.inr (Or.inr hj))
  · subst he
    refine Or.inl (List.mem_append_right _ ?_)
    exact hi

theorem foldl_recordParsed_importsTracked (mn : List String) (n : String)
    (fi : FileInfo) :
    ∀ (mods : List ParsedModule) (st : St), importsTracked st n →
      importsTracked (mods.foldl (recordParsed mn n fi) st) n := by
  intro mods
  induction mods with
  | nil => exact fun st h => h
  | cons mod mrest ih =>
      intro st h
      rw [List.foldl_cons]
      exact ih _ (recordParsed_importsTracked mn n fi st mod h)

theorem trySources_importsTracked (mn : List String) (n : String)
    (srcs : List (String → FetchResult)) (st : St)
    (h : importsTracked st n) :
    importsTracked (trySources mn n srcs st) n := by
  induction srcs generalizing st with
  | nil =>
      intro e he i hi
      simp only [trySources] at he ⊢
      by_cases hf : (dlookup st.failedMibs n).isSome = true
      · rw [if_pos hf] at he ⊢
        split at he
        all_goals (
          split
          all_goals exact h e he i hi)
      · rw [if_neg hf] at he ⊢
        have hproj : (({ st with failedMibs := dinsert st.failedMibs n (PyErr.noSourceFound n) } : St)).processed = st.processed := rfl
        rw [hproj] at he ⊢
        split at he
        all_goals (
          split
          all_goals (
            rcases h e he i hi with hj | hj | hj | hj
            · exact Or.inl hj
            · exact Or.inr (Or.inl hj)
            · refine Or.inr (Or.inr (Or.inl ⟨?_, hj.2⟩))
              exact dlookup_isSome_dinsert_mono _ _ hj.1
            · exact Or.inr (Or.inr (Or.inr hj))))
  | cons src rest ih =>
      simp only [trySources]
      split
      · refine ih _ ?_
        exact h
      · rename_i e0 heq
        refine ih _ ?_
        intro e he i hi
        rcases h e he i hi with hj | hj | hj | hj
        · exact Or.inl hj
        · exact Or.inr (Or.inl hj)
        · refine Or.inr (Or.inr (Or.inl ⟨?_, hj.2⟩))
          show (dlookup (dinsert st.failedMibs n e0) i).isSome = true
          exact dlookup_isSome_dinsert_mono _ _ hj.1
        · exact Or.inr (Or.inr (Or.inr hj))
      · rename_i fi mods heq
        refine foldl_recordParsed_importsTracked mn n fi mods _ ?_
        exact h

/-- At the end of its per-source loop a popped name is resolved, so the
tracked justifications collapse to `importsOK`. -/
theorem trySources_importsOK (mn : List String) (n : String)
    (srcs : List (String → FetchResult)) (st : St)
    (hna : ∀ src ∈ srcs, ∀ n' fi mods,
      src n' = FetchResult.fetched fi mods →
      n' ∈ mods.map ParsedModule.name)
    (h : importsTracked st n) :
    importsOK (trySources mn n srcs st) := by
  have ht := trySources_importsTracked mn n srcs st h
  have hr := trySources_resolves_self mn n srcs st hna
  intro e he i hi
  rcases ht e he i hi with hj | hj | hj | hj
  · exact Or.inl hj
  · exact Or.inr (Or.inl hj)
  · exact Or.inr (Or.inr hj.1)
  · subst hj
    exact Or.inr hr

/-- `importsOK` is an invariant of the worklist loop. -/
theorem phaseA_importsOK (cfg : Config) (mn : List String)
    (hna : NoAlias cfg) :
    ∀ (fuel : Nat) (st st' : St), phaseA cfg mn fuel st = some st' →
      importsOK st → importsOK st' := by
  intro fuel
  induction fuel with
  | zero =>
      intro st st' h hok
      unfold phaseA at h
      rcases hw : st.mibsToParse with _ | ⟨n, rest⟩ <;> rw [hw] at h
      · simp at h
        exact h ▸ hok
      · simp at h
  | succ fuel ih =>
      intro st st' h hok
      unfold phaseA at h
      rcases hw : st.mibsToParse with _ | ⟨n, rest⟩ <;> rw [hw] at h
      · simp at h
        exact h ▸ hok
      · simp only [] at h
        split at h
        · rename_i hparsed
          refine ih _ _ h ?_
          intro e he i hi
          rcases hok e he i hi with hj | hj
          · rw [hw, List.mem_cons] at hj
            rcases hj with hj | hj
            · exact Or.inr (hj ▸ Or.inl hparsed)
            · exact Or.inl hj
          · exact Or.inr hj
        · split at h
          · rename_i hfailed
            refine ih _ _ h ?_
            intro e he i hi
            rcases hok e he i hi with hj | hj
            · rw [hw, List.mem_cons] at hj
              rcases hj with hj | hj
              · exact Or.inr (hj ▸ Or.inr hfailed)
              · exact Or.inl hj
            · exact Or.inr hj
          · rename_i hparsed hfailed
            refine ih _ _ h ?_
            refine trySources_importsOK mn n cfg.sources _ hna ?_
            intro e he i hi
            rcases hok e he i hi with hj | hj
            · rw [hw, List.mem_cons] at hj
              rcases hj with hj | hj
              · exact Or.inr (Or.inr (Or.inr hj))
              · exact Or.inl hj
            · rcases hj with hj | hj
              · exact Or.inr (Or.inl hj)
              · refine Or.inr (Or.inr (Or.inl ⟨hj, ?_⟩))
                intro hin
                rw [hin] at hj
                exact hfailed hj

/-! ### The outcome mapping has no duplicate keys -/

theorem nodup_processed_trySources (mn : List String) (n : String)
    (srcs : List (String → FetchResult)) (st : St)
    (h : (dkeys st.processed).Nodup) :
    (dkeys (trySources mn n srcs st).processed).Nodup := by
  induction srcs generalizing st with
  | nil =>
      simp only [trySources]
      split
      all_goals (
        split
        · exact h
        · exact nodup_dkeys_dinsert _ _ h)
  | cons src rest ih =>
      simp only [trySources]
      split
      · exact ih _ h
      · exact ih _ (nodup_dkeys_dinsert _ _ h)
      · rename_i fi mods heq
        rw [foldl_preserves St.processed _ (recordParsed_processed mn n fi)
          mods _]
        exact h

theorem nodup_processed_phaseA (cfg : Config) (mn : List String) :
    ∀ (fuel : Nat) (st st' : St), phaseA cfg mn fuel st = some st' →
      (dkeys st.processed).Nodup → (dkeys st'.processed).Nodup := by
  intro fuel
  induction fuel with
  | zero =>
      intro st st' h hn
      unfold phaseA at h
      rcases hw : st.mibsToParse with _ | ⟨n, rest⟩ <;> rw [hw] at h
      · simp at h
        exact h ▸ hn
      · simp at h
  | succ fuel ih =>
      intro st st' h hn
      unfold phaseA at h
      rcases hw : st.mibsToParse with _ | ⟨n, rest⟩ <;> rw [hw] at h
      · simp at h
        exact h ▸ hn
      · simp only [] at h
        split at h
        · exact ih _ _ h hn
        · split at h
          · exact ih _ _ h hn
          · exact ih _ _ h (nodup_processed_trySources mn n cfg.sources _ hn)

theorem nodup_processed_phaseBstep (cfg : Config) (opts : CompileOptions)
    (st : St) (e : String × (FileInfo × ParsedModule))
    (h : (dkeys st.processed).Nodup) :
    (dkeys (phaseBstep cfg opts st e).processed).Nodup := by
  unfold phaseBstep
  split
  · exact nodup_dkeys_dinsert _ _ h
  · split
    · exact nodup_dkeys_dinsert _ _ h
    · exact h

theorem nodup_processed_phaseCstep (cfg : Config) (st : St)
    (e : String × (FileInfo × ParsedModule))
    (h : (dkeys st.processed).Nodup) :
    (dkeys (phaseCstep cfg st e).processed).Nodup := by
  unfold phaseCstep
  split
  · exact h
  · exact nodup_dkeys_dinsert _ _ h

theorem nodup_processed_phaseEstep (cfg : Config) (opts : CompileOptions)
    (st : St) (e : String × (FileInfo × String))
    (h : (dkeys st.processed).Nodup) :
    (dkeys (phaseEstep cfg opts st e).processed).Nodup := by
  unfold phaseEstep
  split
  · exact nodup_dkeys_dinsert _ _ h
  · split
    · exact nodup_dkeys_dinsert _ _ h
    · exact nodup_dkeys_dinsert _ _ h

theorem nodup_processed_storeSuccess (mibname : String) (fi : FileInfo)
    (bd : BuiltData) (st : St) (h : (dkeys st.processed).Nodup) :
    (dkeys (storeSuccess mibname fi bd st).processed).Nodup := by
  unfold storeSuccess
  split
  · exact h
  · split
    · exact nodup_dkeys_dinsert _ _ h
    · exact nodup_dkeys_dinsert _ _ h

theorem nodup_processed_storeStep (cfg : Config) (opts : CompileOptions)
    (st : St) (e : String × (FileInfo × BuiltData))
    (h : (dkeys st.processed).Nodup) :
    (dkeys (storeStep cfg opts st e).processed).Nodup := by
  unfold storeStep
  split
  · split
    · exact nodup_dkeys_dinsert _ _ h
    · exact nodup_processed_storeSuccess _ _ _ _ h
  · exact nodup_processed_storeSuccess _ _ _ _ h

theorem nodup_markUnprocessed (built : List (String × (FileInfo × BuiltData))) :
    ∀ (p : List (String × MibStatus)), (dkeys p).Nodup →
      (dkeys (markUnprocessed built p)).Nodup := by
  induction built with
  | nil => exact fun p h => h
  | cons e rest ih =>
      intro p h
      unfold markUnprocessed
      rw [List.foldl_cons]
      exact ih _ (nodup_dkeys_dinsert _ _ h)

theorem nodup_processed_finalize (cfg : Config) (opts : CompileOptions)
    (st : St) (h : (dkeys st.processed).Nodup) :
    (dkeys (finalize cfg opts (pipelineBCDE cfg opts st)).processed).Nodup := by
  have hB : (dkeys (phaseB cfg opts st).processed).Nodup :=
    foldl_pred_preserved (fun st => (dkeys st.processed).Nodup)
      (phaseBstep cfg opts)
      (fun st e hp => nodup_processed_phaseBstep cfg opts st e hp)
      st.parsedMibs st h
  have hC : (dkeys (phaseC cfg (phaseB cfg opts st)).processed).Nodup :=
    foldl_pred_preserved (fun st => (dkeys st.processed).Nodup)
      (phaseCstep cfg)
      (fun st e hp => nodup_processed_phaseCstep cfg st e hp)
      (phaseB cfg opts st).parsedMibs (phaseB cfg opts st) hB
  have hD : (dkeys (phaseD cfg opts (phaseC cfg (phaseB cfg opts st))).processed).Nodup := by
    have hfr : (phaseD cfg opts (phaseC cfg (phaseB cfg opts st))).processed = (phaseC cfg (phaseB cfg opts st)).processed :=
      foldl_preserves St.processed _ (phaseDstep_processed cfg opts) _ _
    rw [hfr]
    exact hC
  have hE : (dkeys (pipelineBCDE cfg opts st).processed).Nodup :=
    foldl_pred_preserved (fun st => (dkeys st.processed).Nodup)
      (phaseEstep cfg opts)
      (fun st e hp => nodup_processed_phaseEstep cfg opts st e hp)
      _ _ hD
  unfold finalize
  split
  · exact nodup_markUnprocessed _ _ hE
  · exact foldl_pred_preserved (fun st => (dkeys st.processed).Nodup)
      (storeStep cfg opts)
      (fun st e hp => nodup_processed_storeStep cfg opts st e hp)
      _ _ hE

/-- The worklist loop only returns when the worklist is exhausted. -/
theorem phaseA_empty_worklist (cfg : Config) (mn : List String) :
    ∀ (fuel : Nat) (st st' : St), phaseA cfg mn fuel st = some st' →
      st'.mibsToParse = [] := by
  intro fuel
  induction fuel with
  | zero =>
      intro st st' h
      unfold phaseA at h
      rcases hw : st.mibsToParse with _ | ⟨n, rest⟩ <;> rw [hw] at h
      · simp at h
        rw [← h, hw]
      · simp at h
  | succ fuel ih =>
      intro st st' h
      unfold phaseA at h
      rcases hw : st.mibsToParse with _ | ⟨n, rest⟩ <;> rw [hw] at h
      · simp at h
        rw [← h, hw]
      · simp only [] at h
        split at h
        · exact ih _ _ h
        · split at h
          · exact ih _ _ h
          · exact ih _ _ h

/-! ### Claim C2 -/

/-- The source of the C2 counterexample: the requested name ALIAS-MIB
resolves to a file whose module statement declares a different canonical
name, CANON-MIB. -/
def srcAliasC2 : String → FetchResult := fun n =>
  if n = "ALIAS-MIB" then
    FetchResult.fetched ⟨"ALIAS-MIB", "file:///mibs/ALIAS", "ALIAS.mib", 1⟩
      [⟨"CANON-MIB", []⟩]
  else FetchResult.notFound

def cfgAliasC2 : Config :=
  { sources := [srcAliasC2]
    searchers := []
    borrowers := []
    codegen := fun _ => Except.ok ({}, "code")
    writer := fun _ _ _ => none }

/-- **C2, counterexample.**  A name requested under an alias whose
fetched text declares a different canonical module name receives *no*
outcome: the requested name ALIAS-MIB is absent from the returned
mapping, which instead keys the result by the declared name
CANON-MIB. -/
theorem alias_requested_name_gets_no_outcome_counterexample :
    ∃ res, compileRun cfgAliasC2 {} ["ALIAS-MIB"] 2 = some res ∧
      dlookup res "ALIAS-MIB" = none ∧
      (dlookup res "CANON-MIB").isSome = true :=
  ⟨_, rfl, rfl, rfl⟩

/-- **C2** (amended: outcomes are keyed by canonical declared names, so
the alias clause of the original claim fails; under `NoAlias` — every
fetched file declares the name it was fetched under — the completeness
statement holds).  When the worklist loop terminates, the returned
mapping has no duplicate keys, every requested name has an outcome, and
every import discovered in a parsed module has an outcome. -/
theorem every_touched_name_has_one_outcome (cfg : Config)
    (opts : CompileOptions) (mibnames : List String) (fuel : Nat) (stA : St)
    (hna : NoAlias cfg)
    (hA : phaseA cfg mibnames fuel (initSt mibnames) = some stA) :
    ∃ res, compileRun cfg opts mibnames fuel = some res ∧
      (dkeys res).Nodup ∧
      (∀ m ∈ mibnames, (dlookup res m).isSome = true) ∧
      ∀ e ∈ stA.parsedMibs, ∀ i ∈ e.2.2.imported,
        (dlookup res i).isSome = true := by
  have hcov : failedCovered stA := by
    refine phaseA_failedCovered cfg mibnames fuel _ _ hA ?_
    intro x hx
    simp [initSt, dlookup] at hx
  have hok : importsOK stA := by
    refine phaseA_importsOK cfg mibnames hna fuel _ _ hA ?_
    intro e he
    simp [initSt] at he
  have hempty : stA.mibsToParse = [] :=
    phaseA_empty_worklist cfg mibnames fuel _ _ hA
  have hnodup : (dkeys (finalize cfg opts (pipelineBCDE cfg opts stA)).processed).Nodup := by
    refine nodup_processed_finalize cfg opts stA ?_
    refine nodup_processed_phaseA cfg mibnames fuel _ _ hA ?_
    simp [initSt]
  refine ⟨(finalize cfg opts (pipelineBCDE cfg opts stA)).processed, ?_, hnodup, ?_, ?_⟩
  · unfold compileRun compileSt
    rw [hA]
    rfl
  · intro m hm
    refine resolved_covered cfg opts stA m ?_ hcov
    exact phaseA_worklist_resolved cfg mibnames hna fuel _ _ hA m
      (show m ∈ (initSt mibnames).mibsToParse from hm)
  · intro e he i hi
    refine resolved_covered cfg opts stA i ?_ hcov
    rcases hok e he i hi with hj | hj
    · rw [hempty] at hj
      cases hj
    · exact hj

/-- The source of the C2 witness: A-MIB imports B-MIB, which no source
provides. -/
def srcC2w : String → FetchResult := fun n =>
  if n = "A-MIB" then
    FetchResult.fetched ⟨"A-MIB", "file:///mibs/A", "A.mib", 1⟩
      [⟨"A-MIB", ["B-MIB"]⟩]
  else FetchResult.notFound

def cfgC2w : Config :=
  { sources := [srcC2w]
    searchers := []
    borrowers := []
    codegen := fun _ => Except.ok ({}, "code")
    writer := fun _ _ _ => none }

theorem cfgC2w_noAlias : NoAlias cfgC2w := by
  intro src hsrc n fi mods h
  simp only [cfgC2w, List.mem_singleton] at hsrc
  subst hsrc
  by_cases hA : n = "A-MIB"
  · rw [hA] at h ⊢
    rw [show srcC2w "A-MIB" = FetchResult.fetched
        ⟨"A-MIB", "file:///mibs/A", "A.mib", 1⟩
        [⟨"A-MIB", ["B-MIB"]⟩] from rfl] at h
    cases h
    decide
  · rw [show srcC2w n = FetchResult.notFound by simp [srcC2w, hA]] at h
    cases h

/-- Witness for C2 at a concrete input: requesting A-MIB, whose file
imports the unavailable B-MIB, yields a mapping covering both names with
no duplicate keys. -/
theorem every_touched_name_has_one_outcome_witness :
    ∃ res, compileRun cfgC2w {} ["A-MIB"] 3 = some res ∧
      (dkeys res).Nodup ∧
      (∀ m ∈ ["A-MIB"], (dlookup res m).isSome = true) ∧
      ∀ e ∈ ((phaseA cfgC2w ["A-MIB"] 3 (initSt ["A-MIB"])).getD
        (initSt [])).parsedMibs, ∀ i ∈ e.2.2.imported,
        (dlookup res i).isSome = true :=
  every_touched_name_has_one_outcome cfgC2w {} ["A-MIB"] 3
    ((phaseA cfgC2w ["A-MIB"] 3 (initSt ["A-MIB"])).getD (initSt []))
    cfgC2w_noAlias (by rfl)

/-! ### Claim C6: machinery -/

/-- The artifact the first non-raising borrower yields, in registration
order (the value the `for borrower in self._borrowers` loop breaks
with). -/
def borrowFirst (bs : List (String → Bool → Option (FileInfo × String)))
    (n : String) (g : Bool) : Option (FileInfo × String) :=
  match bs with
  | [] => none
  | b :: rest =>
      match b n g with
      | some fd => some fd
      | none => borrowFirst rest n g

theorem tryBorrowers_eq_of_borrowFirst (g : Bool) (n : String)
    (bs : List (String → Bool → Option (FileInfo × String)))
    (fd : FileInfo × String) (h : borrowFirst bs n g = some fd) :
    ∀ st : St, tryBorrowers g n bs st =
      { st with
        borrowedMibs := dinsert st.borrowedMibs n fd
        failedMibs := ddel st.failedMibs n } := by
  induction bs with
  | nil => cases h
  | cons b rest ih =>
      intro st
      unfold tryBorrowers
      unfold borrowFirst at h
      rcases hb : b n g with _ | fd'
      · rw [hb] at h
        simp only [] at h
        exact ih h st
      · rw [hb] at h
        simp only [Option.some.injEq] at h
        subst h
        rfl

theorem phaseDstep_dlookup_borrowed_ne (cfg : Config)
    (opts : CompileOptions) (st : St) (e : String × PyErr) (m : String)
    (h : e.1 ≠ m) :
    dlookup (phaseDstep cfg opts st e).borrowedMibs m =
      dlookup st.borrowedMibs m := by
  unfold phaseDstep
  split
  · rfl
  · exact tryBorrowers_dlookup_borrowed_ne opts.genTexts e.1 cfg.borrowers
      st m h

/-- Fold preservation when the step only preserves the predicate for
elements of the list being folded. -/
theorem foldl_pred_preserved_of_mem {β : Type} (P : St → Prop)
    (step : St → β → St) (l : List β)
    (hstep : ∀ st e, e ∈ l → P st → P (step st e)) :
    ∀ st : St, P st → P (l.foldl step st) := by
  induction l with
  | nil => exact fun st h => h
  | cons e rest ih =>
      intro st h
      rw [List.foldl_cons]
      exact ih (fun st e' he' => hstep st e' (List.mem_cons_of_mem _ he'))
        _ (hstep st e (List.mem_cons_self _ _) h)

/-! #### Key-uniqueness of the other dictionaries -/

theorem nodup_parsed_recordParsed_fold (mn : List String) (n : String)
    (fi : FileInfo) :
    ∀ (mods : List ParsedModule) (st : St), (dkeys st.parsedMibs).Nodup →
      (dkeys (mods.foldl (recordParsed mn n fi) st).parsedMibs).Nodup := by
  intro mods
  induction mods with
  | nil => exact fun st h => h
  | cons mod rest ih =>
      intro st h
      rw [List.foldl_cons]
      refine ih _ ?_
      rw [recordParsed_parsedMibs_eq]
      exact nodup_dkeys_dinsert _ _ h

theorem nodup_parsed_trySources (mn : List String) (n : String)
    (srcs : List (String → FetchResult)) (st : St)
    (h : (dkeys st.parsedMibs).Nodup) :
    (dkeys (trySources mn n srcs st).parsedMibs).Nodup := by
  induction srcs generalizing st with
  | nil =>
      simp only [trySources]
      split
      all_goals (
        split
        all_goals exact h)
  | cons src rest ih =>
      simp only [trySources]
      split
      · exact ih _ h
      · exact ih _ h
      · exact nodup_parsed_recordParsed_fold mn n _ _ _ h

theorem nodup_parsed_phaseA (cfg : Config) (mn : List String) :
    ∀ (fuel : Nat) (st st' : St), phaseA cfg mn fuel st = some st' →
      (dkeys st.parsedMibs).Nodup → (dkeys st'.parsedMibs).Nodup := by
  intro fuel
  induction fuel with
  | zero =>
      intro st st' h hn
      unfold phaseA at h
      rcases hw : st.mibsToParse with _ | ⟨n, rest⟩ <;> rw [hw] at h
      · simp at h
        exact h ▸ hn
      · simp at h
  | succ fuel ih =>
      intro st st' h hn
      unfold phaseA at h
      rcases hw : st.mibsToParse with _ | ⟨n, rest⟩ <;> rw [hw] at h
      · simp at h
        exact h ▸ hn
      · simp only [] at h
        split at h
        · exact ih _ _ h hn
        · split at h
          · exact ih _ _ h hn
          · exact ih _ _ h (nodup_parsed_trySources mn n cfg.sources _ hn)

theorem nodup_failed_recordParsed_fold (mn : List String) (n : String)
    (fi : FileInfo) :
    ∀ (mods : List ParsedModule) (st : St), (dkeys st.failedMibs).Nodup →
      (dkeys (mods.foldl (recordParsed mn n fi) st).failedMibs).Nodup := by
  intro mods
  induction mods with
  | nil => exact fun st h => h
  | cons mod rest ih =>
      intro st h
      rw [List.foldl_cons]
      refine ih _ ?_
      rw [recordParsed_failedMibs_eq]
      exact nodup_dkeys_ddel _ h

theorem nodup_failed_trySources (mn : List String) (n : String)
    (srcs : List (String → FetchResult)) (st : St)
    (h : (dkeys st.failedMibs).Nodup) :
    (dkeys (trySources mn n srcs st).failedMibs).Nodup := by
  induction srcs generalizing st with
  | nil =>
      simp only [trySources]
      split
      · split
        all_goals exact h
      · split
        all_goals exact nodup_dkeys_dinsert _ _ h
  | cons src rest ih =>
      simp only [trySources]
      split
      · exact ih _ h
      · exact ih _ (nodup_dkeys_dinsert _ _ h)
      · exact nodup_failed_recordParsed_fold mn n _ _ _ h

theorem nodup_failed_phaseA (cfg : Config) (mn : List String) :
    ∀ (fuel : Nat) (st st' : St), phaseA cfg mn fuel st = some st' →
      (dkeys st.failedMibs).Nodup → (dkeys st'.failedMibs).Nodup := by
  intro fuel
  induction fuel with
  | zero =>
      intro st st' h hn
      unfold phaseA at h
      rcases hw : st.mibsToParse with _ | ⟨n, rest⟩ <;> rw [hw] at h
      · simp at h
        exact h ▸ hn
      · simp at h
  | succ fuel ih =>
      intro st st' h hn
      unfold phaseA at h
      rcases hw : st.mibsToParse with _ | ⟨n, rest⟩ <;> rw [hw] at h
      · simp at h
        exact h ▸ hn
      · simp only [] at h
        split at h
        · exact ih _ _ h hn
        · split at h
          · exact ih _ _ h hn
          · exact ih _ _ h (nodup_failed_trySources mn n cfg.sources _ hn)

theorem nodup_parsed_phaseB (cfg : Config) (opts : CompileOptions)
    (st : St) (h : (dkeys st.parsedMibs).Nodup) :
    (dkeys (phaseB cfg opts st).parsedMibs).Nodup := by
  refine foldl_pred_preserved (fun st => (dkeys st.parsedMibs).Nodup)
    (phaseBstep cfg opts) ?_ st.parsedMibs st h
  intro st e hp
  unfold phaseBstep
  split
  · exact nodup_dkeys_ddel _ hp
  · split
    · exact nodup_dkeys_ddel _ hp
    · exact hp

theorem nodup_failed_phaseC (cfg : Config) (st : St)
    (h : (dkeys st.failedMibs).Nodup) :
    (dkeys (phaseC cfg st).failedMibs).Nodup := by
  refine foldl_pred_preserved (fun st => (dkeys st.failedMibs).Nodup)
    (phaseCstep cfg) ?_ st.parsedMibs st h
  intro st e hp
  unfold phaseCstep
  split
  · exact hp
  · exact nodup_dkeys_dinsert _ _ hp

theorem nodup_borrowed_tryBorrowers (g : Bool) (n : String)
    (bs : List (String → Bool → Option (FileInfo × String))) (st : St)
    (h : (dkeys st.borrowedMibs).Nodup) :
    (dkeys (tryBorrowers g n bs st).borrowedMibs).Nodup := by
  induction bs generalizing st with
  | nil => exact h
  | cons b rest ih =>
      unfold tryBorrowers
      rcases hb : b n g with _ | fd
      · exact ih _ h
      · exact nodup_dkeys_dinsert _ _ h

theorem nodup_borrowed_phaseD (cfg : Config) (opts : CompileOptions)
    (st : St) (h : (dkeys st.borrowedMibs).Nodup) :
    (dkeys (phaseD cfg opts st).borrowedMibs).Nodup := by
  refine foldl_pred_preserved (fun st => (dkeys st.borrowedMibs).Nodup)
    (phaseDstep cfg opts) ?_ st.failedMibs st h
  intro st e hp
  unfold phaseDstep
  split
  · exact hp
  · exact nodup_borrowed_tryBorrowers _ _ _ _ hp

theorem nodup_built_phaseC (cfg : Config) (st : St)
    (h : (dkeys st.builtMibs).Nodup) :
    (dkeys (phaseC cfg st).builtMibs).Nodup := by
  refine foldl_pred_preserved (fun st => (dkeys st.builtMibs).Nodup)
    (phaseCstep cfg) ?_ st.parsedMibs st h
  intro st e hp
  unfold phaseCstep
  split
  · exact nodup_dkeys_dinsert _ _ hp
  · exact hp

theorem nodup_built_phaseE (cfg : Config) (opts : CompileOptions)
    (st : St) (h : (dkeys st.builtMibs).Nodup) :
    (dkeys (phaseE cfg opts st).builtMibs).Nodup := by
  refine foldl_pred_preserved (fun st => (dkeys st.builtMibs).Nodup)
    (phaseEstep cfg opts) ?_ st.borrowedMibs st h
  intro st e hp
  unfold phaseEstep
  split
  · exact hp
  · split
    · exact hp
    · exact nodup_dkeys_dinsert _ _ hp

/-! #### Tracking one module through the phases -/

/-- A parsed module that no searcher reports fresh survives the
freshness phase when `noDeps` is off. -/
theorem phaseB_keeps_parsed_m (cfg : Config) (opts : CompileOptions)
    (st : St) (m : String) (fi : FileInfo) (mod : ParsedModule)
    (hfresh : ∀ mt rb, foundFresh cfg.searchers m mt rb = false)
    (hnd : opts.noDeps = false)
    (h : dlookup st.parsedMibs m = some (fi, mod)) :
    dlookup (phaseB cfg opts st).parsedMibs m = some (fi, mod) := by
  refine foldl_pred_preserved
    (fun st => dlookup st.parsedMibs m = some (fi, mod))
    (phaseBstep cfg opts) ?_ st.parsedMibs st h
  intro st e hp
  by_cases he : e.1 = m
  · unfold phaseBstep
    rw [if_neg (show ¬(foundFresh cfg.searchers e.1 e.2.1.mtime
        opts.rebuild = true) by rw [he, hfresh]; simp)]
    rw [if_neg (show ¬((opts.noDeps &&
        !(dlookup st.canonicalMibNames e.1).isSome) = true) by
      rw [hnd]; simp)]
    exact hp
  · rw [phaseBstep_dlookup_parsed_ne cfg opts st e m he]
    exact hp

/-- A code-generation failure records the failure and the `failed`
status at the module's key. -/
theorem phaseCstep_fails (cfg : Config) (st : St)
    (e : String × (FileInfo × ParsedModule)) (er : PyErr)
    (hcg : cfg.codegen e.2.2 = Except.error er) :
    dlookup (phaseCstep cfg st e).failedMibs e.1 = some er ∧
      dlookup (phaseCstep cfg st e).processed e.1 =
        some (MibStatus.failed er) := by
  unfold phaseCstep
  rw [hcg]
  exact ⟨dlookup_dinsert_self _ _ _, dlookup_dinsert_self _ _ _⟩

/-- After the code-generation phase, a parsed module whose generation
raises carries its error in `failedMibs` and a `failed` status. -/
theorem phaseC_fails_m (cfg : Config) (st : St) (m : String)
    (fi : FileInfo) (mod : ParsedModule) (er : PyErr)
    (hnodup : (dkeys st.parsedMibs).Nodup)
    (hm : dlookup st.parsedMibs m = some (fi, mod))
    (hcg : cfg.codegen mod = Except.error er) :
    dlookup (phaseC cfg st).failedMibs m = some er ∧
      dlookup (phaseC cfg st).processed m =
        some (MibStatus.failed er) := by
  obtain ⟨l1, l2, hsplit⟩ := List.append_of_mem (mem_of_dlookup_eq_some hm)
  have hkeys : dkeys st.parsedMibs = dkeys l1 ++ m :: dkeys l2 := by
    rw [hsplit]
    simp [dkeys]
  rw [hkeys] at hnodup
  rw [List.nodup_append] at hnodup
  have hm2 : m ∉ dkeys l2 := by
    have hc := hnodup.2.1
    rw [List.nodup_cons] at hc
    exact hc.1
  unfold phaseC
  rw [hsplit, List.foldl_append, List.foldl_cons]
  refine foldl_pred_preserved_of_mem
    (fun s => dlookup s.failedMibs m = some er ∧
      dlookup s.processed m = some (MibStatus.failed er))
    (phaseCstep cfg) l2 ?_ _ ?_
  · intro s e he hp
    have hne : e.1 ≠ m :=
      entry_key_ne_of_dlookup_none (dlookup_eq_none_of_not_mem hm2) e he
    rw [phaseCstep_dlookup_failed_ne cfg s e m hne,
      phaseCstep_dlookup_processed_ne cfg s e m hne]
    exact hp
  · exact phaseCstep_fails cfg _ (m, (fi, mod)) er hcg

/-- A failed module not excluded by `noDeps` whose first borrower yields
data enters `borrowedMibs`. -/
theorem phaseDstep_borrows (cfg : Config) (opts : CompileOptions)
    (st : St) (e : String × PyErr) (fd : FileInfo × String)
    (hnd : opts.noDeps = false)
    (hb : borrowFirst cfg.borrowers e.1 opts.genTexts = some fd) :
    dlookup (phaseDstep cfg opts st e).borrowedMibs e.1 = some fd := by
  unfold phaseDstep
  rw [if_neg (show ¬((opts.noDeps &&
      !(dlookup st.canonicalMibNames e.1).isSome) = true) by
    rw [hnd]; simp)]
  rw [tryBorrowers_eq_of_borrowFirst opts.genTexts e.1 cfg.borrowers fd
    hb st]
  exact dlookup_dinsert_self _ _ _

/-- After the borrow phase, a failed module whose first borrower yields
data sits in `borrowedMibs`. -/
theorem phaseD_borrows_m (cfg : Config) (opts : CompileOptions)
    (st : St) (m : String) (er : PyErr) (fd : FileInfo × String)
    (hnodup : (dkeys st.failedMibs).Nodup)
    (hm : dlookup st.failedMibs m = some er)
    (hnd : opts.noDeps = false)
    (hb : borrowFirst cfg.borrowers m opts.genTexts = some fd) :
    dlookup (phaseD cfg opts st).borrowedMibs m = some fd := by
  obtain ⟨l1, l2, hsplit⟩ := List.append_of_mem (mem_of_dlookup_eq_some hm)
  have hkeys : dkeys st.failedMibs = dkeys l1 ++ m :: dkeys l2 := by
    rw [hsplit]
    simp [dkeys]
  rw [hkeys] at hnodup
  rw [List.nodup_append] at hnodup
  have hm2 : m ∉ dkeys l2 := by
    have hc := hnodup.2.1
    rw [List.nodup_cons] at hc
    exact hc.1
  unfold phaseD
  rw [hsplit, List.foldl_append, List.foldl_cons]
  refine foldl_pred_preserved_of_mem
    (fun s => dlookup s.borrowedMibs m = some fd)
    (phaseDstep cfg opts) l2 ?_ _ ?_
  · intro s e he hp
    have hne : e.1 ≠ m :=
      entry_key_ne_of_dlookup_none (dlookup_eq_none_of_not_mem hm2) e he
    rw [phaseDstep_dlookup_borrowed_ne cfg opts s e m hne]
    exact hp
  · exact phaseDstep_borrows cfg opts _ (m, er) fd hnd hb

/-- A borrowed module that no searcher reports fresh and that `noDeps`
does not exclude is promoted: a `borrowed` status with the artifact's
provenance and a `builtMibs` entry with the borrowed data. -/
theorem phaseEstep_promotes (cfg : Config) (opts : CompileOptions)
    (st : St) (e : String × (FileInfo × String))
    (hfresh : foundFresh cfg.searchers e.1 e.2.1.mtime opts.rebuild = false)
    (hnd : opts.noDeps = false) :
    dlookup (phaseEstep cfg opts st e).processed e.1 =
        some (MibStatus.borrowed e.2.1.path e.2.1.file e.2.1.name) ∧
      dlookup (phaseEstep cfg opts st e).builtMibs e.1 =
        some (e.2.1, BuiltData.borrowedData e.2.2) := by
  simp only [phaseEstep]
  rw [if_neg (show ¬(foundFresh cfg.searchers e.1 e.2.1.mtime
      opts.rebuild = true) by rw [hfresh]; simp)]
  rw [if_neg (show ¬((opts.noDeps &&
      !(dlookup st.canonicalMibNames e.1).isSome) = true) by
    rw [hnd]; simp)]
  exact ⟨dlookup_dinsert_self _ _ _, dlookup_dinsert_self _ _ _⟩

/-- After the borrowed-freshness phase, a borrowed module (not fresh,
not excluded) carries the `borrowed` status and its built entry. -/
theorem phaseE_promotes_m (cfg : Config) (opts : CompileOptions)
    (st : St) (m : String) (fd : FileInfo × String)
    (hnodup : (dkeys st.borrowedMibs).Nodup)
    (hm : dlookup st.borrowedMibs m = some fd)
    (hfresh : ∀ mt rb, foundFresh cfg.searchers m mt rb = false)
    (hnd : opts.noDeps = false) :
    dlookup (phaseE cfg opts st).processed m =
        some (MibStatus.borrowed fd.1.path fd.1.file fd.1.name) ∧
      dlookup (phaseE cfg opts st).builtMibs m =
        some (fd.1, BuiltData.borrowedData fd.2) := by
  obtain ⟨l1, l2, hsplit⟩ := List.append_of_mem (mem_of_dlookup_eq_some hm)
  have hkeys : dkeys st.borrowedMibs = dkeys l1 ++ m :: dkeys l2 := by
    rw [hsplit]
    simp [dkeys]
  rw [hkeys] at hnodup
  rw [List.nodup_append] at hnodup
  have hm2 : m ∉ dkeys l2 := by
    have hc := hnodup.2.1
    rw [List.nodup_cons] at hc
    exact hc.1
  unfold phaseE
  rw [hsplit, List.foldl_append, List.foldl_cons]
  refine foldl_pred_preserved_of_mem
    (fun s => dlookup s.processed m =
        some (MibStatus.borrowed fd.1.path fd.1.file fd.1.name) ∧
      dlookup s.builtMibs m = some (fd.1, BuiltData.borrowedData fd.2))
    (phaseEstep cfg opts) l2 ?_ _ ?_
  · intro s e he hp
    have hne : e.1 ≠ m :=
      entry_key_ne_of_dlookup_none (dlookup_eq_none_of_not_mem hm2) e he
    rw [phaseEstep_dlookup_processed_ne cfg opts s e m hne,
      phaseEstep_dlookup_built_ne cfg opts s e m hne]
    exact hp
  · exact phaseEstep_promotes cfg opts _ (m, fd)
      (hfresh fd.1.mtime opts.rebuild) hnd

/-- The success path of a store iteration never changes an
already-recorded status. -/
theorem storeSuccess_processed_of_isSome (n : String) (fi : FileInfo)
    (bd : BuiltData) (st : St)
    (h : (dlookup st.processed n).isSome = true) :
    (storeSuccess n fi bd st).processed = st.processed := by
  unfold storeSuccess
  rw [if_pos h]

/-- A store iteration whose writer does not raise keeps every recorded
status. -/
theorem storeStep_keeps_status (cfg : Config) (opts : CompileOptions)
    (st : St) (e : String × (FileInfo × BuiltData)) (m : String)
    (v : MibStatus) (hp : dlookup st.processed m = some v)
    (hwr : opts.writeMibs = true →
      cfg.writer e.1 e.2.2.data opts.dryRun = none) :
    dlookup (storeStep cfg opts st e).processed m = some v := by
  by_cases he : e.1 = m
  · unfold storeStep
    rcases hwm : opts.writeMibs with _ | _
    · rw [if_neg (by simp)]
      rw [storeSuccess_processed_of_isSome e.1 e.2.1 e.2.2 st
        (by rw [he, hp]; rfl)]
      exact hp
    · rw [if_pos rfl]
      rw [hwr hwm]
      rw [storeSuccess_processed_of_isSome e.1 e.2.1 e.2.2 _
        (by rw [he]; show (dlookup st.processed m).isSome = true
            rw [hp]; rfl)]
      exact hp
  · rw [storeStep_dlookup_processed_ne cfg opts st e m he]
    exact hp

/-- The store phase keeps the status of a module whose write does not
raise, provided the built set's keys are unique. -/
theorem phaseStore_keeps_status (cfg : Config) (opts : CompileOptions)
    (st : St) (m : String) (v : MibStatus)
    (bv : FileInfo × BuiltData)
    (hnodup : (dkeys st.builtMibs).Nodup)
    (hbuilt : dlookup st.builtMibs m = some bv)
    (hp : dlookup st.processed m = some v)
    (hwr : opts.writeMibs = true →
      cfg.writer m bv.2.data opts.dryRun = none) :
    dlookup (phaseStore cfg opts st).processed m = some v := by
  refine foldl_pred_preserved_of_mem
    (fun s => dlookup s.processed m = some v)
    (storeStep cfg opts) st.builtMibs ?_ st hp
  intro s e he hps
  by_cases heq : e.1 = m
  · have hev : e.2 = bv := by
      have h1 : dlookup st.builtMibs e.1 = some e.2 := by
        have : (e.1, e.2) ∈ st.builtMibs := by
          rw [show (e.1, e.2) = e from rfl]
          exact he
        exact dlookup_eq_some_of_mem_nodup this hnodup
      rw [heq, hbuilt] at h1
      exact (Option.some.inj h1).symm
    refine storeStep_keeps_status cfg opts s e m v hps ?_
    intro hwm
    rw [heq, hev]
    exact hwr hwm
  · rw [storeStep_dlookup_processed_ne cfg opts s e m heq]
    exact hps

/-- **C6.**  A module whose fetch and parse succeed but whose code
generation raises, and for which a borrower yields a precompiled
artifact (no searcher reporting it fresh, `noDeps` off), ends with the
`borrowed` outcome carrying the artifact's provenance (path, file,
alias), and no `failed` entry for it remains in the returned mapping.
The run must reach the store phase (either nothing is left in the
failed set at the final decision point or `ignoreErrors` was requested)
and the writer, if invoked, must not raise for this module. -/
theorem borrow_fallback_yields_borrowed (cfg : Config)
    (opts : CompileOptions) (mibnames : List String) (fuel : Nat)
    (stA : St) (m : String) (fi : FileInfo) (mod : ParsedModule)
    (er : PyErr) (fd : FileInfo × String)
    (hA : phaseA cfg mibnames fuel (initSt mibnames) = some stA)
    (hm : dlookup stA.parsedMibs m = some (fi, mod))
    (hcg : cfg.codegen mod = Except.error er)
    (hfresh : ∀ mt rb, foundFresh cfg.searchers m mt rb = false)
    (hnd : opts.noDeps = false)
    (hb : borrowFirst cfg.borrowers m opts.genTexts = some fd)
    (hdec : (pipelineBCDE cfg opts stA).failedMibs.isEmpty = true ∨
      opts.ignoreErrors = true)
    (hwr : opts.writeMibs = true → cfg.writer m fd.2 opts.dryRun = none) :
    ∃ res, compileRun cfg opts mibnames fuel = some res ∧
      dlookup res m =
        some (MibStatus.borrowed fd.1.path fd.1.file fd.1.name) ∧
      ∀ er2, (m, MibStatus.failed er2) ∉ res := by
  have hnpA : (dkeys stA.parsedMibs).Nodup :=
    nodup_parsed_phaseA cfg mibnames fuel _ _ hA (by simp [initSt])
  have hnfA : (dkeys stA.failedMibs).Nodup :=
    nodup_failed_phaseA cfg mibnames fuel _ _ hA (by simp [initSt])
  have hbuiltA : stA.builtMibs = [] :=
    phaseA_builtMibs cfg mibnames fuel _ _ hA
  have hborA : stA.borrowedMibs = [] :=
    phaseA_borrowedMibs cfg mibnames fuel _ _ hA
  set stB := phaseB cfg opts stA with hstB
  have hmB : dlookup stB.parsedMibs m = some (fi, mod) :=
    phaseB_keeps_parsed_m cfg opts stA m fi mod hfresh hnd hm
  have hnpB : (dkeys stB.parsedMibs).Nodup :=
    nodup_parsed_phaseB cfg opts stA hnpA
  have hfB : stB.failedMibs = stA.failedMibs :=
    foldl_preserves St.failedMibs _ (phaseBstep_failedMibs cfg opts) _ _
  have hbuB : stB.builtMibs = stA.builtMibs :=
    foldl_preserves St.builtMibs _ (phaseBstep_builtMibs cfg opts) _ _
  have hboB : stB.borrowedMibs = stA.borrowedMibs :=
    foldl_preserves St.borrowedMibs _ (phaseBstep_borrowedMibs cfg opts) _ _
  set stC := phaseC cfg stB with hstC
  obtain ⟨hCf, hCp⟩ := phaseC_fails_m cfg stB m fi mod er hnpB hmB hcg
  have hnfC : (dkeys stC.failedMibs).Nodup :=
    nodup_failed_phaseC cfg stB (hfB ▸ hnfA)
  have hnbC : (dkeys stC.builtMibs).Nodup :=
    nodup_built_phaseC cfg stB (by rw [hbuB, hbuiltA]; simp)
  have hboC : stC.borrowedMibs = stB.borrowedMibs :=
    foldl_preserves St.borrowedMibs _ (phaseCstep_borrowedMibs cfg) _ _
  set stD := phaseD cfg opts stC with hstD
  have hDb : dlookup stD.borrowedMibs m = some fd :=
    phaseD_borrows_m cfg opts stC m er fd hnfC hCf hnd hb
  have hnboD : (dkeys stD.borrowedMibs).Nodup :=
    nodup_borrowed_phaseD cfg opts stC (by rw [hboC, hboB, hborA]; simp)
  have hbuD : stD.builtMibs = stC.builtMibs :=
    foldl_preserves St.builtMibs _ (phaseDstep_builtMibs cfg opts) _ _
  set stE := phaseE cfg opts stD with hstE
  obtain ⟨hEp, hEb⟩ := phaseE_promotes_m cfg opts stD m fd hnboD hDb
    hfresh hnd
  have hnbE : (dkeys stE.builtMibs).Nodup :=
    nodup_built_phaseE cfg opts stD (hbuD ▸ hnbC)
  have hpipe : pipelineBCDE cfg opts stA = stE := rfl
  have hfin : finalize cfg opts stE = phaseStore cfg opts stE := by
    unfold finalize
    rcases hdec with h | h
    · rw [hpipe] at h
      rw [h]
      simp
    · rw [h]
      simp
  have hstore : dlookup (phaseStore cfg opts stE).processed m =
      some (MibStatus.borrowed fd.1.path fd.1.file fd.1.name) :=
    phaseStore_keeps_status cfg opts stE m _
      (fd.1, BuiltData.borrowedData fd.2) hnbE hEb hEp
      (fun hwm => hwr hwm)
  have hb2 : dlookup (finalize cfg opts
        (pipelineBCDE cfg opts stA)).processed m =
      some (MibStatus.borrowed fd.1.path fd.1.file fd.1.name) := by
    rw [hpipe, hfin]
    exact hstore
  have hnodupRes : (dkeys (finalize cfg opts
      (pipelineBCDE cfg opts stA)).processed).Nodup :=
    nodup_processed_finalize cfg opts stA
      (nodup_processed_phaseA cfg mibnames fuel _ _ hA (by simp [initSt]))
  refine ⟨(finalize cfg opts (pipelineBCDE cfg opts stA)).processed,
    ?_, hb2, ?_⟩
  · unfold compileRun compileSt
    rw [hA]
    rfl
  · intro er2 hmem
    have hcontr := dlookup_eq_some_of_mem_nodup hmem hnodupRes
    rw [hb2] at hcontr
    simp at hcontr

/-- The configuration of the C6 witness: the fetch and parse of A-MIB
succeed, code generation always raises, and a borrower has a
precompiled substitute. -/
def srcC6w : String → FetchResult := fun n =>
  if n = "A-MIB" then
    FetchResult.fetched ⟨"A-MIB", "file:///mibs/A", "A.mib", 1⟩
      [⟨"A-MIB", []⟩]
  else FetchResult.notFound

def cfgC6w : Config :=
  { sources := [srcC6w]
    searchers := []
    borrowers := [fun n _ =>
      if n = "A-MIB" then
        some (⟨"A-MIB", "file:///borrow/A", "A.borrowed", 2⟩, "bcode")
      else none]
    codegen := fun _ => Except.error (PyErr.raised "codegen failed")
    writer := fun _ _ _ => none }

/-- Witness for C6 at a concrete input. -/
theorem borrow_fallback_yields_borrowed_witness :
    ∃ res, compileRun cfgC6w {} ["A-MIB"] 2 = some res ∧
      dlookup res "A-MIB" =
        some (MibStatus.borrowed "file:///borrow/A" "A.borrowed"
          "A-MIB") ∧
      ∀ er2, ("A-MIB", MibStatus.failed er2) ∉ res :=
  borrow_fallback_yields_borrowed cfgC6w {} ["A-MIB"] 2
    ((phaseA cfgC6w ["A-MIB"] 2 (initSt ["A-MIB"])).getD (initSt []))
    "A-MIB" ⟨"A-MIB", "file:///mibs/A", "A.mib", 1⟩ ⟨"A-MIB", []⟩
    (PyErr.raised "codegen failed")
    (⟨"A-MIB", "file:///borrow/A", "A.borrowed", 2⟩, "bcode")
    (by rfl) (by rfl) (by rfl) (fun mt rb => rfl) (by rfl) (by rfl)
    (Or.inl (by rfl)) (fun hwm => rfl)

end PySmi
